import Mathlib

/-!
Task scheduling solver: scoring model and simulated-annealing core.

A shallow embedding of `cpp_solver/input.cpp`, `cpp_solver/output.cpp` and
`cpp_solver/sasolver.cpp`.

Modelling conventions.

* `int` values are mathematical integers (`Int`).  Signed overflow is undefined
  in C++; the model describes the executions in which it does not occur.
* `double` values live in a linearly ordered field `F` with a floor function;
  the functions `exp` and `log` of `<cmath>` are parameters of the definitions
  that call them.  The theorems instantiate `F` with the real numbers and the
  parameters with `Real.exp` and `Real.log` (the specification calls a score
  "a real number"); rounding is not modelled.
* `std::vector<T>` is `List T`.  Reading a vector outside its bounds is
  undefined in C++; the accessors return a default there, and the theorems
  that depend on the value read assume the index is in bounds.
* A `std::mt19937_64` together with the distributions applied to it is a
  script of the values the distributions return, consumed from the front.  A
  computation that needs more values than the script holds has no result
  (`none`).
* Console output (`Settings::verbose`) is not modelled.
-/

namespace CS170

/-! ## Input -/

/-- Problem instance of `input.h`: the number of tasks and the three vectors. -/
structure Input (F : Type) where
  n : Int
  deadlines : List Int
  durations : List Int
  profits : List F

/-- Element `v[i]` of a vector indexed by an `int`. -/
def vecAt {α : Type} (v : List α) (i : Int) (dflt : α) : α :=
  if 0 ≤ i then v.getD i.toNat dflt else dflt

namespace Input

variable {F : Type}

/-- Method `Input::size`. -/
def size (input : Input F) : Int := input.n

/-- Method `Input::getDeadline`. -/
def getDeadline (input : Input F) (i : Int) : Int := vecAt input.deadlines i 0

/-- Method `Input::getDuration`. -/
def getDuration (input : Input F) (i : Int) : Int := vecAt input.durations i 0

/-- Method `Input::getProfit`. -/
def getProfit [Zero F] (input : Input F) (i : Int) : F := vecAt input.profits i 0

end Input

/-! ## Output -/

/-- The class `Output` of `output.h`: a sequence of task indices. -/
structure Output where
  taskSchedule : List Int
deriving DecidableEq, Repr

/-- Conversion of an `int` argument to a `size_t` parameter (64 bit). -/
def toSizeT (i : Int) : Nat := (i % (2 ^ 64 : Int)).toNat

namespace Output

variable {F : Type} [LinearOrderedField F]

/-- Method `Output::swapTasks`: the returned flag and the schedule afterwards. -/
def swapTasks (o : Output) (index1 index2 : Nat) : Bool × Output :=
  if index1 ≥ o.taskSchedule.length ∨ index2 ≥ o.taskSchedule.length then
    (false, o)
  else
    let temp := o.taskSchedule.getD index1 0
    let s1 := o.taskSchedule.set index1 (o.taskSchedule.getD index2 0)
    (true, ⟨s1.set index2 temp⟩)

/-- The loop of `Output::trim`; `i` is the loop index, `rest` the entries from
position `i` on, `time` the elapsed time before entry `i`. -/
def trimLoop (input : Input F) (taskSchedule : List Int) :
    List Int → Nat → Int → Bool × Output
  | [], _, _ => (true, ⟨taskSchedule⟩)
  | x :: rest, i, time =>
    if x ≥ input.size then
      (false, ⟨taskSchedule⟩)
    else
      let time := time + input.getDuration x
      if time > 1440 then
        (true, ⟨taskSchedule.take i⟩)
      else
        trimLoop input taskSchedule rest (i + 1) time

/-- Method `Output::trim`: the returned flag and the schedule afterwards. -/
def trim (o : Output) (input : Input F) : Bool × Output :=
  trimLoop input o.taskSchedule o.taskSchedule 0 0

/-- The loop of `Output::isValidFor`. -/
def isValidForLoop (input : Input F) : List Int → Int → Bool
  | [], _ => true
  | i :: rest, time =>
    if i ≥ input.size then
      false
    else
      let time := time + input.getDuration i
      if time > 1440 then false else isValidForLoop input rest time

/-- Method `Output::isValidFor`. -/
def isValidFor (o : Output) (input : Input F) : Bool :=
  isValidForLoop input o.taskSchedule 0

/-- The loop of `Output::evaluate`, entered with elapsed time `time` and
accumulated profit `res`. -/
def evaluateLoop (exp : F → F) (input : Input F) : List Int → Int → F → F
  | [], _, res => res
  | i :: rest, time, res =>
    let time := time + input.getDuration i
    if time > 1440 then
      res
    else
      let minutesLate := time - input.getDeadline i
      if minutesLate > 0 then
        evaluateLoop exp input rest time
          (res + input.getProfit i * exp (-0.017 * (minutesLate : F)))
      else
        evaluateLoop exp input rest time (res + input.getProfit i)

/-- Method `Output::evaluate`. -/
def evaluate (exp : F → F) (o : Output) (input : Input F) : F :=
  evaluateLoop exp input o.taskSchedule 0 0

end Output

/-! ## Random stream -/

/-- State of a `std::mt19937_64` as seen through the distributions of
`SASolver`: the values still to be returned by `uniformTaskNumDist(gen)`, by
`uniformRealDist(gen)`, and the positions still to be chosen by
`std::shuffle`. -/
structure Gen (F : Type) where
  taskNums : List Int
  reals : List F
  shuffles : List Nat

/-- The loop of `std::shuffle`: position `i` is exchanged with a position chosen
in `[0, i]`, for `i = 1, ..., size - 1`. -/
def shuffleLoop : List Nat → Output → List Nat → Option (Output × List Nat)
  | [], o, draws => some (o, draws)
  | _ :: _, _, [] => none
  | i :: is, o, d :: draws => shuffleLoop is (o.swapTasks i (d % (i + 1))).2 draws

/-- Library function `std::shuffle(begin, end, gen)`. -/
def shuffle {F : Type} (o : Output) (gen : Gen F) : Option (Output × Gen F) :=
  match shuffleLoop (List.range' 1 (o.taskSchedule.length - 1)) o gen.shuffles with
  | none => none
  | some (o', draws) => some (o', { gen with shuffles := draws })

/-! ## SASolver -/

/-- Struct `SASolver::Settings` (without the two printing options). -/
structure Settings (F : Type) where
  maxRestarts : Int
  alpha : F
  maxRejections : Int
  epochSizeFactor : F
  initAccRate : F

/-- Entry of the history of a stream.  The history is not a variable of the
source: it records the working sequence after each kept move and at the end of
each annealing run, so that properties of a whole run can be stated. -/
inductive Event where
  | accepted (o : Output)
  | runEnd (o : Output)
deriving DecidableEq, Repr

/-- The local variables of `SASolver::solveInstance` during cooling, with the
history of the stream. -/
structure CoolState (F : Type) where
  sequence : Output
  gen : Gen F
  currProfit : F
  temperature : F
  lastEpochProfit : F
  rejectionCount : Int
  epoch : Int
  history : List Event

namespace SASolver

variable {F : Type} [LinearOrderedField F] [FloorRing F]

/-- Constant `SASolver::NUM_THREADS`. -/
def NUM_THREADS : Nat := 8

/-- Constant `SASolver::INIT_TEMP_SAMPLE_SIZE_FACTOR`. -/
def INIT_TEMP_SAMPLE_SIZE_FACTOR : F := 2.0

/-- Constant `SASolver::PROFIT_GAIN_THRESH`. -/
def PROFIT_GAIN_THRESH : F := 1e-3

/-- Conversion of a `double` to `int`: the fractional part is discarded. -/
def truncToInt (x : F) : Int := if 0 ≤ x then ⌊x⌋ else ⌈x⌉

/-- Method `SASolver::accProb`. -/
def accProb (exp : F → F) (eOld eNew t : F) : F :=
  if eNew < eOld then 1.0 else exp ((eOld - eNew) / t)

/-- The loop `while (index2 == index1) index2 = uniformTaskNumDist(gen)` of
`SASolver::perturb`, entered by drawing `index2`. -/
def drawIndex2 (index1 : Int) : List Int → Option (Int × List Int)
  | [] => none
  | index2 :: rest => if index2 = index1 then drawIndex2 index1 rest else some (index2, rest)

/-- Method `SASolver::perturb`: the returned profit, the sequence afterwards, the two
indices assigned, and the generator afterwards. -/
def perturb (exp : F → F) (input : Input F) (currOutput : Output) (gen : Gen F) :
    Option (F × Output × Int × Int × Gen F) :=
  match gen.taskNums with
  | [] => none
  | index1 :: rest =>
    match drawIndex2 index1 rest with
    | none => none
    | some (index2, rest') =>
      let currOutput := (currOutput.swapTasks (toSizeT index1) (toSizeT index2)).2
      some (currOutput.evaluate exp input, currOutput, index1, index2,
        { gen with taskNums := rest' })

/-- The sampling loop of `SASolver::getInitTemperature`, with `k` iterations
left: returns `count`, `delta`, the sequence and the generator. -/
def sampleLoop (exp : F → F) (input : Input F) (currProfit : F) :
    Nat → Output → Gen F → Int → F → Option (Int × F × Output × Gen F)
  | 0, output, gen, count, delta => some (count, delta, output, gen)
  | k + 1, output, gen, count, delta =>
    match perturb exp input output gen with
    | none => none
    | some (newProfit, output, index1, index2, gen) =>
      let output' := (output.swapTasks (toSizeT index1) (toSizeT index2)).2
      if newProfit < currProfit then
        sampleLoop exp input currProfit k output' gen (count + 1)
          (delta + (currProfit - newProfit))
      else
        sampleLoop exp input currProfit k output' gen count delta

/-- Method `SASolver::getInitTemperature`: the returned temperature, the sequence
afterwards and the generator afterwards. -/
def getInitTemperature (exp log : F → F) (input : Input F) (output : Output)
    (gen : Gen F) (initAccRate : F) : Option (F × Output × Gen F) :=
  let n := input.size
  let L := truncToInt (INIT_TEMP_SAMPLE_SIZE_FACTOR * (n : F) * (n : F))
  let currProfit := output.evaluate exp input
  match sampleLoop exp input currProfit L.toNat output gen 0 0 with
  | none => none
  | some (count, delta, output, gen) =>
    some (delta / (count : F) / log (1 / initAccRate), output, gen)

/-- The local `acceptanceProb` of `SASolver::solveInstance`:
`accProb(-currProfit, -newProfit, temperature)`. -/
def acceptanceProb (exp : F → F) (currProfit newProfit temperature : F) : F :=
  accProb exp (-currProfit) (-newProfit) temperature

/-- One perturbation attempt: the body of the `for` loop of
`SASolver::solveInstance`. -/
def attempt (exp : F → F) (input : Input F) (st : CoolState F) : Option (CoolState F) :=
  match perturb exp input st.sequence st.gen with
  | none => none
  | some (newProfit, sequence, index1, index2, gen) =>
    let acceptanceProb := acceptanceProb exp st.currProfit newProfit st.temperature
    match gen.reals with
    | [] => none
    | u :: reals =>
      let gen := { gen with reals := reals }
      if acceptanceProb < u then
        some { st with
          sequence := (sequence.swapTasks (toSizeT index1) (toSizeT index2)).2, gen := gen }
      else
        some { st with
          sequence := sequence, gen := gen, currProfit := newProfit,
          history := st.history ++ [Event.accepted sequence] }

/-- The `for` loop of `SASolver::solveInstance` with `k` attempts left. -/
def attempts (exp : F → F) (input : Input F) : Nat → CoolState F → Option (CoolState F)
  | 0, st => some st
  | k + 1, st =>
    match attempt exp input st with
    | none => none
    | some st' => attempts exp input k st'

/-- One epoch: the body of the `while` loop of `SASolver::solveInstance`. -/
def epochStep (exp : F → F) (input : Input F) (s : Settings F) (L : Int)
    (st : CoolState F) : Option (CoolState F) :=
  match attempts exp input L.toNat st with
  | none => none
  | some st =>
    some { st with
      temperature := st.temperature * s.alpha,
      rejectionCount :=
        if st.currProfit - st.lastEpochProfit < PROFIT_GAIN_THRESH then st.rejectionCount + 1
        else 0,
      lastEpochProfit := st.currProfit,
      epoch := st.epoch + 1 }

/-- The `while` loop of `SASolver::solveInstance`, running at most `fuel`
epochs. -/
def coolLoop (exp : F → F) (input : Input F) (s : Settings F) (L : Int) :
    Nat → CoolState F → Option (CoolState F)
  | 0, st => if st.rejectionCount < s.maxRejections then none else some st
  | fuel + 1, st =>
    if st.rejectionCount < s.maxRejections then
      match epochStep exp input s L st with
      | none => none
      | some st' => coolLoop exp input s L fuel st'
    else
      some st

/-- Method `SASolver::solveInstance`, running at most `fuel` epochs: the sequence and
the generator afterwards, and the extended history. -/
def solveInstance (exp log : F → F) (input : Input F) (fuel : Nat) (sequence : Output)
    (gen : Gen F) (s : Settings F) (history : List Event) :
    Option (Output × Gen F × List Event) :=
  let n := input.size
  let L := truncToInt (s.epochSizeFactor * (n : F) * (n : F))
  let currProfit := sequence.evaluate exp input
  match getInitTemperature exp log input sequence gen s.initAccRate with
  | none => none
  | some (temperature, sequence, gen) =>
    match coolLoop exp input s L fuel
        { sequence := sequence, gen := gen, currProfit := currProfit,
          temperature := temperature, lastEpochProfit := currProfit, rejectionCount := 0,
          epoch := 0, history := history } with
    | none => none
    | some st => some (st.sequence, st.gen, st.history ++ [Event.runEnd st.sequence])

/-- Method `SASolver::generateRandomSequence`. -/
def generateRandomSequence (input : Input F) (gen : Gen F) : Option (Output × Gen F) :=
  shuffle ⟨(List.range input.size.toNat).map Int.ofNat⟩ gen

/-- The `for` loop of `SASolver::solveThread` with `k` iterations left. -/
def restartLoop (exp log : F → F) (input : Input F) (fuel : Nat) (s : Settings F) :
    Nat → Output → Output → F → Gen F → List Event → Option (Output × Gen F × List Event)
  | 0, _, bestSequence, _, gen, history => some (bestSequence, gen, history)
  | k + 1, currSequence, bestSequence, maxProfit, gen, history =>
    match solveInstance exp log input fuel currSequence gen s history with
    | none => none
    | some (currSequence, gen, history) =>
      let currProfit := currSequence.evaluate exp input
      if currProfit > maxProfit then
        restartLoop exp log input fuel s k currSequence currSequence currProfit gen history
      else
        restartLoop exp log input fuel s k currSequence bestSequence maxProfit gen history

/-- Method `SASolver::solveThread`: the sequence assigned to `bestSequence`, the
generator afterwards and the history of the stream. -/
def solveThread (exp log : F → F) (input : Input F) (fuel : Nat) (gen : Gen F)
    (s : Settings F) : Option (Output × Gen F × List Event) :=
  match generateRandomSequence input gen with
  | none => none
  | some (currSequence, gen) =>
    restartLoop exp log input fuel s (s.maxRestarts + 1).toNat currSequence currSequence
      (currSequence.evaluate exp input) gen []

/-- The loop of `SASolver::bestSequence`. -/
def bestSequenceLoop (exp : F → F) (input : Input F) : List Output → F → Output → Output
  | [], _, res => res
  | seq :: rest, maxProfit, res =>
    let profit := seq.evaluate exp input
    if profit > maxProfit then bestSequenceLoop exp input rest profit seq
    else bestSequenceLoop exp input rest maxProfit res

/-- Method `SASolver::bestSequence`. -/
def bestSequence (exp : F → F) (input : Input F) (sequences : List Output) : Output :=
  bestSequenceLoop exp input sequences (-1) ⟨[]⟩

/-- Method `SASolver::solve`; `seedGen` gives the state of a generator after
`gen.seed(x)`.  The threads share no mutable state, so they are run one after
the other. -/
def solve (exp log : F → F) (input : Input F) (seedGen : Int → Gen F) (fuel : Nat)
    (seed : Int) (s : Settings F) : Option Output :=
  match (List.range NUM_THREADS).mapM
      (fun tid => (solveThread exp log input fuel (seedGen (seed + (tid : Int))) s).map
        (fun r => r.1)) with
  | none => none
  | some bestSequences => some (bestSequence exp input bestSequences)

end SASolver

/-! ## Well-formedness predicates used by the theorems -/

/-- Every index of the candidate references a task: `0 ≤ idx < n`. -/
def ValidIndices {F : Type} (input : Input F) (o : Output) : Prop :=
  ∀ idx ∈ o.taskSchedule, 0 ≤ idx ∧ idx < input.size

instance {F : Type} (input : Input F) (o : Output) : Decidable (ValidIndices input o) := by
  unfold ValidIndices; infer_instance

/-- Every task of the instance has a positive duration. -/
def PositiveDurations {F : Type} (input : Input F) : Prop :=
  ∀ i : Int, 0 ≤ i → i < input.size → 0 < input.getDuration i

/-- Sum of the durations of the tasks of a list of indices. -/
def totalDuration {F : Type} (input : Input F) (l : List Int) : Int :=
  (l.map input.getDuration).sum

/-- Every task of the instance has a positive profit. -/
def PositiveProfits {F : Type} [LinearOrderedField F] (input : Input F) : Prop :=
  ∀ i : Int, 0 ≤ i → i < input.size → 0 < input.getProfit i

section SpecSide

variable {F : Type} [LinearOrderedField F]

/-- Running the evaluation loop over `pre` from the initial state reaches
elapsed time `time` with some accumulated profit, without stopping. -/
def Reaches (exp : F → F) (input : Input F) (pre : List Int) (time : Int) : Prop :=
  ∃ res : F, ∀ l : List Int,
    Output.evaluateLoop exp input (pre ++ l) 0 0 = Output.evaluateLoop exp input l time res

/-- Profit contributed by task `i` when it finishes at elapsed time `finish`,
in the words of the specification: the profit decayed by the lateness when the
task is late, the profit unmodified otherwise. -/
def specContribution (exp : F → F) (input : Input F) (finish : Int) (i : Int) : F :=
  if finish - input.getDeadline i > 0 then
    input.getProfit i * exp (-0.017 * ((finish - input.getDeadline i : Int) : F))
  else
    input.getProfit i

/-- Profit accumulated over a list of tasks run in sequence from elapsed time
`time`, with no horizon: the sum of the contributions at the finishing times. -/
def specAccumulated (exp : F → F) (input : Input F) : List Int → Int → F
  | [], _ => 0
  | i :: rest, time =>
    specContribution exp input (time + input.getDuration i) i
      + specAccumulated exp input rest (time + input.getDuration i)

end SpecSide

section CalibrationSpec

variable {F : Type} [LinearOrderedField F]

/-- The index pairs assigned by `k` successive calls of `SASolver::perturb`,
and the values left in the stream. -/
def drawPairs : Nat → List Int → Option (List (Int × Int) × List Int)
  | 0, draws => some ([], draws)
  | _ + 1, [] => none
  | k + 1, index1 :: rest =>
    match SASolver.drawIndex2 index1 rest with
    | none => none
    | some (index2, rest') =>
      match drawPairs k rest' with
      | none => none
      | some (pairs, rest'') => some ((index1, index2) :: pairs, rest'')

/-- Score of the seed candidate with the entries at the two positions of a trial
exchanged. -/
def trialScore (exp : F → F) (input : Input F) (seed : Output) (pair : Int × Int) : F :=
  ((seed.swapTasks (toSizeT pair.1) (toSizeT pair.2)).2).evaluate exp input

/-- The drops of the specification of the calibrator: for every trial whose
score is strictly lower than the seed score, the magnitude of the drop. -/
def specDrops (seedScore : F) (trialScores : List F) : List F :=
  (trialScores.filter (fun x => x < seedScore)).map (fun x => seedScore - x)

/-- Initial temperature of the specification:
(average drop magnitude) / ln(1 / targetAcceptRate). -/
def specInitTemperature (log : F → F) (drops : List F) (targetAcceptRate : F) : F :=
  (drops.sum / (drops.length : F)) / log (1 / targetAcceptRate)

end CalibrationSpec

/-! ## A concrete instance, random stream and settings -/

/-- Three tasks that are never late: tasks 0 and 1 last 1000 minutes, task 2
lasts 400 minutes, so at most two of them fit within the horizon. -/
def threeTaskInput (F : Type) [LinearOrderedField F] : Input F :=
  { n := 3, deadlines := [1440, 1440, 1440], durations := [1000, 1000, 400],
    profits := [1, 5, 3] }

/-- A random stream: the shuffle yields `[0, 2, 1]`, the eighteen calibration
trials exchange positions 1 and 2, the two annealing attempts exchange positions
0 and 2, and both uniform draws are 0. -/
def scriptedGen (F : Type) [LinearOrderedField F] : Gen F :=
  { taskNums := [1, 2, 1, 2, 1, 2, 1, 2, 1, 2, 1, 2, 1, 2, 1, 2, 1, 2, 1, 2, 1, 2, 1, 2,
      1, 2, 1, 2, 1, 2, 1, 2, 1, 2, 1, 2, 0, 2, 0, 2],
    reals := [0, 0], shuffles := [1, 1] }

/-- Settings with no restart, epochs of two attempts and a freeze after one
epoch without gain. -/
def quickSettings (F : Type) [LinearOrderedField F] : Settings F :=
  { maxRestarts := 0, alpha := 0.99, maxRejections := 1, epochSizeFactor := 2 / 9,
    initAccRate := 0.8 }

/-- The state of the cooling loop of that run when its first epoch starts, at
temperature 1. -/
def scriptedState (F : Type) [LinearOrderedField F] : CoolState F :=
  { sequence := ⟨[0, 2, 1]⟩,
    gen := { taskNums := [0, 2, 0, 2], reals := [0, 0], shuffles := [] },
    currProfit := 4, temperature := 1, lastEpochProfit := 4, rejectionCount := 0,
    epoch := 0, history := [] }

/-- The values returned by `uniformTaskNumDist`, which `SASolver::SASolver`
constructs as `std::uniform_int_distribution<int>(0, in.size() - 1)`, lie
between 0 and `n - 1`. -/
def TaskNumsInRange {F : Type} (input : Input F) (gen : Gen F) : Prop :=
  ∀ x ∈ gen.taskNums, 0 ≤ x ∧ x ≤ input.size - 1

/-- The candidate holds each of the task indices `0, ..., n - 1` exactly once. -/
def IsPermutationOfTasks {F : Type} (input : Input F) (o : Output) : Prop :=
  o.taskSchedule.Perm ((List.range input.size.toNat).map Int.ofNat)

/-- Settings of a quick run, as `quickSettings`, whose temperature decay `alpha`
is 2, outside the interval `(0, 1)`. -/
def alphaTwoSettings (F : Type) [LinearOrderedField F] : Settings F :=
  { maxRestarts := 0, alpha := 2, maxRejections := 1, epochSizeFactor := 2 / 9,
    initAccRate := 0.8 }

/-- Settings of a quick run, as `quickSettings`, with one restart. -/
def restartSettings (F : Type) [LinearOrderedField F] : Settings F :=
  { maxRestarts := 1, alpha := 0.99, maxRejections := 1, epochSizeFactor := 2 / 9,
    initAccRate := 0.8 }

/-- A random stream for two annealing runs: the draws of `scriptedGen` twice,
and two more shuffle positions, which would turn `[0, 1, 2]` into `[2, 0, 1]`. -/
def restartGen (F : Type) [LinearOrderedField F] : Gen F :=
  { taskNums := (scriptedGen F).taskNums ++ (scriptedGen F).taskNums,
    reals := [0, 0, 0, 0], shuffles := [1, 1, 0, 0] }

/-- The instance of the concrete scenario of the specification: three tasks with
deadlines 10, 20, 30, durations 5, 5, 5 and profits 10, 10, 10. -/
def scenarioInput (F : Type) [LinearOrderedField F] : Input F :=
  { n := 3, deadlines := [10, 20, 30], durations := [5, 5, 5], profits := [10, 10, 10] }

/-! ## Reading an input file -/

/-- A task line of an input file: the values extracted by
`fs >> taskIndex >> deadlines[i] >> durations[i] >> profits[i]`. -/
structure TaskLine (F : Type) where
  taskIndex : Int
  deadline : Int
  duration : Int
  profit : F

namespace Input

variable {F : Type} [LinearOrderedField F]

/-- Constant `TASKS_100_MIN` of `input.h`. -/
def TASKS_100_MIN : Int := 76

/-- Constant `TASKS_100_MAX` of `input.h`. -/
def TASKS_100_MAX : Int := 100

/-- Constant `TASKS_150_MIN` of `input.h`. -/
def TASKS_150_MIN : Int := 101

/-- Constant `TASKS_150_MAX` of `input.h`. -/
def TASKS_150_MAX : Int := 150

/-- Constant `TASKS_200_MIN` of `input.h`. -/
def TASKS_200_MIN : Int := 151

/-- Constant `TASKS_200_MAX` of `input.h`. -/
def TASKS_200_MAX : Int := 200

/-- Constant `DEADLINE_MIN` of `input.h`. -/
def DEADLINE_MIN : Int := 1

/-- Constant `DEADLINE_MAX` of `input.h`. -/
def DEADLINE_MAX : Int := 1440

/-- Constant `DURATION_MIN` of `input.h`. -/
def DURATION_MIN : Int := 1

/-- Constant `DURATION_MAX` of `input.h`. -/
def DURATION_MAX : Int := 60

/-- Constant `PROFIT_MIN_EXCLUSIVE` of `input.h`. -/
def PROFIT_MIN_EXCLUSIVE : F := 0.0

/-- Constant `PROFIT_MAX_EXCLUSIVE` of `input.h`. -/
def PROFIT_MAX_EXCLUSIVE : F := 100.0

/-- Method `Input::validateTask` (without the messages it prints). -/
def validateTask (deadline duration : Int) (profit : F) : Bool :=
  if deadline < DEADLINE_MIN then false
  else if deadline > DEADLINE_MAX then false
  else if duration < DURATION_MIN then false
  else if duration > DURATION_MAX then false
  else if profit ≤ PROFIT_MIN_EXCLUSIVE then false
  else if profit ≥ PROFIT_MAX_EXCLUSIVE then false
  else true

/-- Method `Input::validateTaskNumber` (without the messages it prints). -/
def validateTaskNumber (n preset : Int) : Bool :=
  if preset = 100 then
    if n < TASKS_100_MIN then false else if n > TASKS_100_MAX then false else true
  else if preset = 150 then
    if n < TASKS_150_MIN then false else if n > TASKS_150_MAX then false else true
  else if preset = 200 then
    if n < TASKS_200_MIN then false else if n > TASKS_200_MAX then false else true
  else false

/-- The loop of `Input::Input(const std::string&, int)` over the task lines, as
far as the member `valid` is concerned; `i` is the loop index. -/
def readLoop : List (TaskLine F) → Int → Bool → Bool
  | [], _, valid => valid
  | line :: rest, i, _ =>
    readLoop rest (i + 1)
      (decide (line.taskIndex = i + 1)
        && validateTask line.deadline line.duration line.profit)

/-- Constructor `Input::Input(const std::string&, int)` for a file that exists
and holds the task count `n` followed by the `n` task lines `lines`: the
instance read and the member `valid`, which `Input::isValid` returns. -/
def readFile (n : Int) (lines : List (TaskLine F)) (preset : Int) : Input F × Bool :=
  let valid := if preset > 0 then validateTaskNumber n preset else true
  ({ n := n, deadlines := lines.map (fun l => l.deadline),
     durations := lines.map (fun l => l.duration),
     profits := lines.map (fun l => l.profit) },
   readLoop lines 0 valid)

end Input

/-! ## NaiveSolver -/

/-- The task indices `0, ..., n - 1` in ascending order, as filled in by
`for (int i = 0; i < input.size(); ++i) schedule.push_back(i)` and by
`std::iota`. -/
def taskIndices {F : Type} (input : Input F) : List Int :=
  (List.range input.size.toNat).map Int.ofNat

namespace NaiveSolver

variable {F : Type} [LinearOrderedField F]

/-- The schedules that the loop `do ... while (std::next_permutation(...))`
visits when it starts from an ascending schedule of distinct entries: every
permutation once, in lexicographic order. -/
def visitedSchedules (schedule : List Int) : List (List Int) :=
  schedule.permutations.insertionSort (fun a b => a ≤ b)

/-- The body of the loop of `NaiveSolver::solve`, run over the schedules still
to be visited. -/
def solveLoop (exp : F → F) (input : Input F) : List (List Int) → Output → F → Output
  | [], best, _ => best
  | schedule :: rest, best, maxProfit =>
    let o : Output := ⟨schedule⟩
    let profit := o.evaluate exp input
    if profit > maxProfit then solveLoop exp input rest o profit
    else solveLoop exp input rest best maxProfit

/-- Method `NaiveSolver::solve`. -/
def solve (exp : F → F) (input : Input F) : Output :=
  solveLoop exp input (visitedSchedules (taskIndices input)) ⟨[]⟩ 0

end NaiveSolver

/-! ## GreedySolver -/

namespace GreedySolver

variable {F : Type} [LinearOrderedField F]

/-- Method `Input::isTaken`, on the vector `taken` of the solver's own copy of
the instance. -/
def isTaken (taken : List Bool) (i : Int) : Bool := vecAt taken i false

/-- Method `Input::setTaken`. -/
def setTaken (taken : List Bool) (i : Int) (val : Bool) : List Bool :=
  if 0 ≤ i then taken.set i.toNat val else taken

/-- Method `GreedySolver::resetTaken`; the vector has one flag per task. -/
def resetTaken (input : Input F) : List Bool := List.replicate input.size.toNat false

/-- The inner loop of `GreedySolver::leastOverdueIndex` for candidate `i`, over
the indices `j` still to be examined; `overdueCount` is the count so far. -/
def countOverdue (input : Input F) (taken : List Bool) (i finishTime : Int) :
    List Int → Int → Int
  | [], overdueCount => overdueCount
  | j :: js, overdueCount =>
    if i = j ∨ isTaken taken j = true then
      countOverdue input taken i finishTime js overdueCount
    else if finishTime > input.getDeadline j then
      countOverdue input taken i finishTime js (overdueCount + 1)
    else
      countOverdue input taken i finishTime js overdueCount

/-- The outer loop of `GreedySolver::leastOverdueIndex`, over the indices `i`
still to be examined. -/
def leastOverdueLoop (input : Input F) (taken : List Bool) (time : Int) :
    List Int → Int → Int → Int
  | [], _, res => res
  | i :: is, minOverdueCount, res =>
    if isTaken taken i = true then
      leastOverdueLoop input taken time is minOverdueCount res
    else
      let finishTime := time + input.getDuration i
      let overdueCount := countOverdue input taken i finishTime (taskIndices input) 0
      if overdueCount < minOverdueCount ∨ minOverdueCount = -1 then
        leastOverdueLoop input taken time is overdueCount i
      else
        leastOverdueLoop input taken time is minOverdueCount res

/-- Method `GreedySolver::leastOverdueIndex`. -/
def leastOverdueIndex (input : Input F) (taken : List Bool) (time : Int) : Int :=
  leastOverdueLoop input taken time (taskIndices input) (-1) (-1)

/-- The loop of `GreedySolver::maxProfitIndex`; `maxProfit` starts at
`-INFINITY`, the bottom element. -/
def maxProfitLoop (exp : F → F) (input : Input F) (taken : List Bool) (time : Int) :
    List Int → WithBot F → Int → Int
  | [], _, index => index
  | i :: is, maxProfit, index =>
    if isTaken taken i = true then
      maxProfitLoop exp input taken time is maxProfit index
    else
      let overtime := time + input.getDuration i - input.getDeadline i
      let profit :=
        if overtime > 0 then input.getProfit i * exp (-0.017 * (overtime : F))
        else input.getProfit i
      if (profit : WithBot F) > maxProfit then
        maxProfitLoop exp input taken time is (profit : WithBot F) i
      else
        maxProfitLoop exp input taken time is maxProfit index

/-- Method `GreedySolver::maxProfitIndex`. -/
def maxProfitIndex (exp : F → F) (input : Input F) (taken : List Bool) (time : Int) : Int :=
  maxProfitLoop exp input taken time (taskIndices input) ⊥ (-1)

/-- The loop shared by `GreedySolver::solveLeastOverdue` and
`GreedySolver::solveMostProfitable`, with `k` iterations left: the index chosen
by `pick` is appended to the sequence, marked taken, and its duration is added
to the elapsed time. -/
def pickLoop (input : Input F) (pick : List Bool → Int → Int) :
    Nat → List Bool → Int → List Int → List Int
  | 0, _, _, sequence => sequence
  | k + 1, taken, time, sequence =>
    let index := pick taken time
    pickLoop input pick k (setTaken taken index true) (time + input.getDuration index)
      (sequence ++ [index])

/-- Method `GreedySolver::solveLeastOverdue`. -/
def solveLeastOverdue (input : Input F) : Output :=
  ⟨pickLoop input (leastOverdueIndex input) input.size.toNat (resetTaken input) 0 []⟩

/-- Method `GreedySolver::solveMostProfitable`. -/
def solveMostProfitable (exp : F → F) (input : Input F) : Output :=
  ⟨pickLoop input (maxProfitIndex exp input) input.size.toNat (resetTaken input) 0 []⟩

/-- Method `GreedySolver::solveDeadline`; `sort less l` stands for
`std::sort(l.begin(), l.end(), less)`. -/
def solveDeadline (sort : (Int → Int → Bool) → List Int → List Int) (input : Input F) :
    Output :=
  ⟨sort (fun i1 i2 => decide (input.getDeadline i1 < input.getDeadline i2))
    (taskIndices input)⟩

/-- Method `GreedySolver::solveProfit`; sorting between `rbegin()` and `rend()`
sorts the reversed sequence. `Comparator<double>` receives the two indices as
`double` and uses them as subscripts, which leaves an index unchanged. -/
def solveProfit (sort : (Int → Int → Bool) → List Int → List Int) (input : Input F) :
    Output :=
  ⟨(sort (fun i1 i2 => decide (input.getProfit i1 < input.getProfit i2))
    (taskIndices input).reverse).reverse⟩

/-- Method `GreedySolver::solveProfitRate`. -/
def solveProfitRate (sort : (Int → Int → Bool) → List Int → List Int) (input : Input F) :
    Output :=
  ⟨(sort (fun i1 i2 => decide (input.getProfit i1 / (input.getDuration i1 : F)
      < input.getProfit i2 / (input.getDuration i2 : F)))
    (taskIndices input).reverse).reverse⟩

/-- Method `GreedySolver::solveDuration`. -/
def solveDuration (sort : (Int → Int → Bool) → List Int → List Int) (input : Input F) :
    Output :=
  ⟨sort (fun i1 i2 => decide (input.getDuration i1 < input.getDuration i2))
    (taskIndices input)⟩

/-- One step of `GreedySolver::solve`: the schedule `out` replaces `best` when
its profit exceeds `maxProfit`. -/
def consider (exp : F → F) (input : Input F) (out : Output) (state : F × Output) :
    F × Output :=
  let currProfit := out.evaluate exp input
  if currProfit > state.1 then (currProfit, out) else state

/-- Method `GreedySolver::solve`. -/
def solve (exp : F → F) (sort : (Int → Int → Bool) → List Int → List Int)
    (input : Input F) : Output :=
  let state : F × Output := (0, ⟨[]⟩)
  let state := consider exp input (solveDeadline sort input) state
  let state := consider exp input (solveDuration sort input) state
  let state := consider exp input (solveLeastOverdue input) state
  let state := consider exp input (solveMostProfitable exp input) state
  let state := consider exp input (solveProfit sort input) state
  let state := consider exp input (solveProfitRate sort input) state
  state.2

end GreedySolver

/-- The six baseline schedules that `GreedySolver::solve` compares. -/
def sixBaselines {F : Type} [LinearOrderedField F] (exp : F → F)
    (sort : (Int → Int → Bool) → List Int → List Int) (input : Input F) : List Output :=
  [GreedySolver.solveDeadline sort input, GreedySolver.solveDuration sort input,
    GreedySolver.solveLeastOverdue input, GreedySolver.solveMostProfitable exp input,
    GreedySolver.solveProfit sort input, GreedySolver.solveProfitRate sort input]

/-- A sort that can stand for `std::sort` when the theorems are evaluated:
insertion of each entry before the first entry that is not less. -/
def insertionSortBy (less : Int → Int → Bool) (l : List Int) : List Int :=
  l.insertionSort (fun a b => less b a = false)

/-! ## Inputs of the termination and score-bound theorems -/

/-- Every task of the instance has a profit that is not negative. -/
def NonnegProfits {F : Type} [LinearOrderedField F] (input : Input F) : Prop :=
  ∀ i : Int, 0 ≤ i → i < input.size → 0 ≤ input.getProfit i

/-- Sum of the profits of the tasks of a list of indices. -/
def totalProfit {F : Type} [LinearOrderedField F] (input : Input F) (l : List Int) : F :=
  (l.map input.getProfit).sum

/-- An instance with exactly one task. -/
def oneTaskInput (F : Type) [LinearOrderedField F] : Input F :=
  { n := 1, deadlines := [10], durations := [5], profits := [1] }

/-- A generator whose `uniformTaskNumDist` draws are all 0, the only value
of the range `[0, 0]` of a single-task instance. -/
def zeroGen (F : Type) : Gen F :=
  { taskNums := [0, 0, 0, 0, 0, 0], reals := [], shuffles := [] }

/-- The default settings of `SASolver::Settings` with `maxRestarts = -1`, for
which the loop of `SASolver::solveThread` makes no annealing run. -/
def noRunSettings (F : Type) [LinearOrderedField F] : Settings F :=
  { maxRestarts := -1, alpha := 0.99, maxRejections := 50, epochSizeFactor := 1.0,
    initAccRate := 0.8 }

/-! ## A run on an instance with negative profits -/

theorem totalDuration_append {F : Type} (input : Input F) (l₁ l₂ : List Int) :
    totalDuration input (l₁ ++ l₂) = totalDuration input l₁ + totalDuration input l₂ := by
  simp [totalDuration]

theorem totalDuration_nonneg {F : Type} (input : Input F) (hd : PositiveDurations input) :
    ∀ l : List Int, (∀ idx ∈ l, 0 ≤ idx ∧ idx < input.size) → 0 ≤ totalDuration input l
  | [], _ => by simp [totalDuration]
  | x :: l, hv => by
    have hx := hd x (hv x (List.mem_cons_self x l)).1 (hv x (List.mem_cons_self x l)).2
    have hl := totalDuration_nonneg input hd l (fun idx h => hv idx (List.mem_cons_of_mem x h))
    simp only [totalDuration, List.map_cons, List.sum_cons] at hl ⊢
    omega

section Scoring

variable {F : Type} [LinearOrderedField F]

theorem reaches_nil (exp : F → F) (input : Input F) : Reaches exp input [] 0 :=
  ⟨0, fun _ => rfl⟩

theorem reaches_snoc (exp : F → F) (input : Input F) (pre : List Int) (time : Int)
    (x : Int) (h : Reaches exp input pre time)
    (hfit : ¬ time + input.getDuration x > 1440) :
    Reaches exp input (pre ++ [x]) (time + input.getDuration x) := by
  obtain ⟨res, hres⟩ := h
  by_cases hl : time + input.getDuration x - input.getDeadline x > 0
  · refine ⟨res + input.getProfit x *
      exp (-0.017 * ((time + input.getDuration x - input.getDeadline x : Int) : F)), ?_⟩
    intro l
    rw [List.append_assoc, hres]
    show Output.evaluateLoop exp input (x :: l) time res = _
    simp only [Output.evaluateLoop, if_neg hfit, if_pos hl]
  · refine ⟨res + input.getProfit x, ?_⟩
    intro l
    rw [List.append_assoc, hres]
    show Output.evaluateLoop exp input (x :: l) time res = _
    simp only [Output.evaluateLoop, if_neg hfit, if_neg hl]

theorem evaluateLoop_trimLoop (exp : F → F) (input : Input F) :
    ∀ (rest pre : List Int) (time : Int), Reaches exp input pre time →
      (∀ idx ∈ rest, idx < input.size) →
      Output.evaluateLoop exp input
        (Output.trimLoop input (pre ++ rest) rest pre.length time).2.taskSchedule 0 0
        = Output.evaluateLoop exp input (pre ++ rest) 0 0
  | [], pre, time, _, _ => by simp [Output.trimLoop]
  | x :: rest, pre, time, hr, hv => by
    have hx : ¬ x ≥ input.size := not_le.mpr (hv x (List.mem_cons_self x rest))
    by_cases hfit : time + input.getDuration x > 1440
    · obtain ⟨res, hres⟩ := hr
      simp only [Output.trimLoop, if_neg hx, if_pos hfit, List.take_left]
      rw [hres (x :: rest)]
      have h0 := hres []
      rw [List.append_nil] at h0
      rw [h0]
      simp only [Output.evaluateLoop, if_pos hfit]
    · have ih := evaluateLoop_trimLoop exp input rest (pre ++ [x])
        (time + input.getDuration x) (reaches_snoc exp input pre time x hr hfit)
        (fun idx hidx => hv idx (List.mem_cons_of_mem x hidx))
      simp only [Output.trimLoop, if_neg hx, if_neg hfit]
      simpa [List.append_assoc] using ih

/-- C1 (truncation equivalence): for every instance and every candidate whose
indices are all valid, `Output::evaluate` of the candidate equals
`Output::evaluate` of the candidate after `Output::trim` has been applied. -/
theorem evaluate_trim (input : Input ℝ) (o : Output) (hv : ValidIndices input o) :
    Output.evaluate Real.exp o input = Output.evaluate Real.exp (o.trim input).2 input := by
  have h := evaluateLoop_trimLoop Real.exp input o.taskSchedule [] 0
    (reaches_nil Real.exp input) (fun idx hidx => (hv idx hidx).2)
  simp only [List.nil_append, List.length_nil] at h
  exact h.symm

theorem trimLoop_spec {G : Type} (input : Input G) :
    ∀ (rest pre : List Int) (time : Int), time = totalDuration input pre → time ≤ 1440 →
      (∀ idx ∈ rest, idx < input.size) →
      (Output.trimLoop input (pre ++ rest) rest pre.length time).1 = true ∧
      ∃ kept dropped : List Int, pre ++ rest = kept ++ dropped ∧
        (Output.trimLoop input (pre ++ rest) rest pre.length time).2 = ⟨kept⟩ ∧
        totalDuration input kept ≤ 1440 ∧
        ∀ x ∈ dropped.head?, totalDuration input kept + input.getDuration x > 1440
  | [], pre, time, ht, hle, _ => by
    refine ⟨rfl, pre, [], rfl, by simp [Output.trimLoop], ht ▸ hle, by simp⟩
  | x :: rest, pre, time, ht, hle, hv => by
    have hx : ¬ x ≥ input.size := not_le.mpr (hv x (List.mem_cons_self x rest))
    by_cases hfit : time + input.getDuration x > 1440
    · simp only [Output.trimLoop, if_neg hx, if_pos hfit, List.take_left, true_and]
      refine ⟨pre, x :: rest, rfl, rfl, ht ▸ hle, ?_⟩
      intro y hy
      simp only [List.head?_cons, Option.mem_def, Option.some.injEq] at hy
      subst hy
      rw [← ht]
      exact hfit
    · have ih := trimLoop_spec input rest (pre ++ [x]) (time + input.getDuration x)
        (by rw [totalDuration_append, ht]; simp [totalDuration]) (not_lt.mp hfit)
        (fun idx hidx => hv idx (List.mem_cons_of_mem x hidx))
      simp only [Output.trimLoop, if_neg hx, if_neg hfit]
      simpa [List.append_assoc] using ih

/-- C2: for every instance with positive durations and every candidate with
valid indices, `Output::trim` returns true and leaves exactly the longest prefix
of the candidate whose cumulative duration is at most 1440: the result is a
prefix, its total duration is at most 1440, the entry that follows it (if any)
pushes the elapsed time above 1440, and no prefix within the horizon is
longer. -/
theorem trim_keeps_longest_fit (input : Input ℝ) (o : Output)
    (hd : PositiveDurations input) (hv : ValidIndices input o) :
    (o.trim input).1 = true ∧
    (o.trim input).2.taskSchedule <+: o.taskSchedule ∧
    totalDuration input (o.trim input).2.taskSchedule ≤ 1440 ∧
    (∀ x ∈ (o.taskSchedule.drop (o.trim input).2.taskSchedule.length).head?,
      totalDuration input (o.trim input).2.taskSchedule + input.getDuration x > 1440) ∧
    ∀ q : List Int, q <+: o.taskSchedule → totalDuration input q ≤ 1440 →
      q.length ≤ (o.trim input).2.taskSchedule.length := by
  have h := trimLoop_spec input o.taskSchedule [] 0 (by simp [totalDuration]) (by norm_num)
    (fun idx hidx => (hv idx hidx).2)
  simp only [List.nil_append, List.length_nil] at h
  obtain ⟨hflag, kept, dropped, hsplit, hres, hkept, hdrop⟩ := h
  have hres' : (o.trim input).2 = ⟨kept⟩ := hres
  have hdropEq : o.taskSchedule.drop kept.length = dropped := by
    rw [hsplit]; simp
  refine ⟨hflag, ?_, ?_, ?_, ?_⟩
  · rw [hres', hsplit]; exact List.prefix_append kept dropped
  · rw [hres']; exact hkept
  · rw [hres']; simpa [hdropEq] using hdrop
  · intro q hq hqfit
    rw [hres']
    show q.length ≤ kept.length
    by_contra hlt
    have hlt' : kept.length < q.length := not_le.mp hlt
    obtain ⟨tail, htail⟩ := hq
    cases dropped with
    | nil =>
      have hlen : (q ++ tail).length = kept.length := by rw [htail, hsplit]; simp
      simp only [List.length_append] at hlen
      omega
    | cons x rest =>
      have hpre : kept ++ [x] <+: q := by
        have h1 : kept ++ [x] <+: q ++ tail := by
          rw [htail, hsplit]
          exact ⟨rest, by simp⟩
        exact List.prefix_of_prefix_length_le h1 (List.prefix_append q tail)
          (by simp only [List.length_append, List.length_singleton]; omega)
      obtain ⟨more, hmore⟩ := hpre
      have hvq : ∀ idx ∈ more, 0 ≤ idx ∧ idx < input.size := by
        intro idx hidx
        apply hv idx
        rw [← htail, ← hmore]
        simp [hidx]
      have hnn := totalDuration_nonneg input hd more hvq
      have hx := hdrop x (by simp)
      rw [← hmore, totalDuration_append, totalDuration_append] at hqfit
      simp only [totalDuration, List.map_cons, List.map_nil, List.sum_cons, List.sum_nil,
        add_zero] at hqfit hnn hx
      omega

theorem evaluateLoop_cons_overflow (exp : F → F) (input : Input F) (i : Int)
    (rest : List Int) (time : Int) (res : F) (h : time + input.getDuration i > 1440) :
    Output.evaluateLoop exp input (i :: rest) time res = res := by
  simp only [Output.evaluateLoop, if_pos h]

theorem evaluateLoop_cons_fit (exp : F → F) (input : Input F) (i : Int)
    (rest : List Int) (time : Int) (res : F) (h : ¬ time + input.getDuration i > 1440) :
    Output.evaluateLoop exp input (i :: rest) time res
      = Output.evaluateLoop exp input rest (time + input.getDuration i)
          (res + specContribution exp input (time + input.getDuration i) i) := by
  by_cases hl : time + input.getDuration i - input.getDeadline i > 0
  · simp only [Output.evaluateLoop, if_neg h, if_pos hl, specContribution]
  · simp only [Output.evaluateLoop, if_neg h, if_neg hl, specContribution]

theorem evaluateLoop_of_fits (exp : F → F) (input : Input F) :
    ∀ (p l : List Int) (time : Int) (res : F),
      (∀ q : List Int, q <+: p → time + totalDuration input q ≤ 1440) →
      Output.evaluateLoop exp input (p ++ l) time res
        = Output.evaluateLoop exp input l (time + totalDuration input p)
            (res + specAccumulated exp input p time)
  | [], l, time, res, _ => by simp [totalDuration, specAccumulated]
  | i :: rest, l, time, res, hfit => by
    have h1 : ¬ time + input.getDuration i > 1440 := by
      have := hfit [i] ⟨rest, rfl⟩
      simp only [totalDuration, List.map_cons, List.map_nil, List.sum_cons, List.sum_nil] at this
      omega
    have hrest : ∀ q : List Int, q <+: rest →
        time + input.getDuration i + totalDuration input q ≤ 1440 := by
      intro q hq
      have := hfit (i :: q) (List.cons_prefix_cons.mpr ⟨rfl, hq⟩)
      simp only [totalDuration, List.map_cons, List.sum_cons] at this ⊢
      omega
    have htot : time + totalDuration input (i :: rest)
        = time + input.getDuration i + totalDuration input rest := by
      simp only [totalDuration, List.map_cons, List.sum_cons]; ring
    rw [htot, List.cons_append, evaluateLoop_cons_fit exp input i (rest ++ l) time res h1,
      evaluateLoop_of_fits exp input rest l _ _ hrest]
    simp only [specAccumulated, add_assoc]

theorem evaluate_of_overflow (exp : F → F) (input : Input F)
    (p r : List Int) (x : Int)
    (hfit : ∀ q : List Int, q <+: p → totalDuration input q ≤ 1440)
    (hx : totalDuration input p + input.getDuration x > 1440) :
    Output.evaluate exp ⟨p ++ x :: r⟩ input = specAccumulated exp input p 0 := by
  unfold Output.evaluate
  rw [evaluateLoop_of_fits exp input p (x :: r) 0 0 (by simpa using hfit)]
  simp only [zero_add, Output.evaluateLoop, if_pos hx]

/-- C3: `Output::evaluate` depends only on the fitting prefix.  If two
candidates share the entries `p` before the first position at which the
cumulative duration exceeds 1440 and both overflow at that position, they have
the same score, and it is the profit accumulated over `p`: the overflowing
entry and everything after it contribute nothing. -/
theorem evaluate_depends_on_fit (input : Input ℝ) (p r₁ r₂ : List Int)
    (x₁ x₂ : Int)
    (hfit : ∀ q : List Int, q <+: p → totalDuration input q ≤ 1440)
    (h₁ : totalDuration input p + input.getDuration x₁ > 1440)
    (h₂ : totalDuration input p + input.getDuration x₂ > 1440) :
    Output.evaluate Real.exp ⟨p ++ x₁ :: r₁⟩ input
      = Output.evaluate Real.exp ⟨p ++ x₂ :: r₂⟩ input ∧
    Output.evaluate Real.exp ⟨p ++ x₁ :: r₁⟩ input = specAccumulated Real.exp input p 0 := by
  rw [evaluate_of_overflow Real.exp input p r₁ x₁ hfit h₁,
    evaluate_of_overflow Real.exp input p r₂ x₂ hfit h₂]
  exact ⟨rfl, rfl⟩

/-- C4 (decay law): for a single-task candidate `[i]` with `duration(i) ≤ 1440`
and `m = duration(i) - deadline(i)`, `Output::evaluate` returns
`profit(i) * exp(-0.017 * m)` when `m > 0` and exactly `profit(i)` when
`m ≤ 0`. -/
theorem evaluate_single_decay_law (input : Input ℝ) (i : Int)
    (hdur : input.getDuration i ≤ 1440) :
    (input.getDuration i - input.getDeadline i > 0 →
      Output.evaluate Real.exp ⟨[i]⟩ input = input.getProfit i *
        Real.exp (-0.017 * ((input.getDuration i - input.getDeadline i : Int) : ℝ))) ∧
    (input.getDuration i - input.getDeadline i ≤ 0 →
      Output.evaluate Real.exp ⟨[i]⟩ input = input.getProfit i) := by
  have h1 : ¬ 0 + input.getDuration i > 1440 := by omega
  unfold Output.evaluate
  rw [evaluateLoop_cons_fit Real.exp input i [] 0 0 h1]
  simp only [Output.evaluateLoop, specContribution, zero_add]
  constructor
  · intro hm
    rw [if_pos hm]
  · intro hm
    rw [if_neg (by omega)]

theorem specContribution_nonneg (exp : F → F) (hexp : ∀ x, 0 ≤ exp x) (input : Input F)
    (finish i : Int) (hi : 0 ≤ input.getProfit i) :
    0 ≤ specContribution exp input finish i := by
  unfold specContribution
  split
  · exact mul_nonneg hi (hexp _)
  · exact hi

theorem evaluateLoop_ge (exp : F → F) (hexp : ∀ x, 0 ≤ exp x) (input : Input F)
    (hp : ∀ i : Int, 0 ≤ i → i < input.size → 0 ≤ input.getProfit i) :
    ∀ (l : List Int) (time : Int) (res : F), (∀ idx ∈ l, 0 ≤ idx ∧ idx < input.size) →
      res ≤ Output.evaluateLoop exp input l time res
  | [], _, _, _ => le_refl _
  | i :: rest, time, res, hv => by
    by_cases h : time + input.getDuration i > 1440
    · rw [evaluateLoop_cons_overflow exp input i rest time res h]
    · rw [evaluateLoop_cons_fit exp input i rest time res h]
      have hi := hv i (List.mem_cons_self i rest)
      have hc := specContribution_nonneg exp hexp input (time + input.getDuration i) i
        (hp i hi.1 hi.2)
      have ih := evaluateLoop_ge exp hexp input hp rest (time + input.getDuration i)
        (res + specContribution exp input (time + input.getDuration i) i)
        (fun idx hidx => hv idx (List.mem_cons_of_mem i hidx))
      linarith

theorem evaluate_nonneg (input : Input ℝ) (hp : PositiveProfits input) (o : Output)
    (hv : ValidIndices input o) : 0 ≤ Output.evaluate Real.exp o input :=
  evaluateLoop_ge Real.exp (fun x => (Real.exp_pos x).le) input
    (fun i h0 hn => (hp i h0 hn).le) o.taskSchedule 0 0 hv

end Scoring

/-! ## Orchestrator selection -/

section Selection

variable {F : Type} [LinearOrderedField F]

theorem bestSequenceLoop_spec (exp : F → F) (input : Input F) :
    ∀ (rest : List Output) (maxProfit : F) (res : Output),
      (SASolver.bestSequenceLoop exp input rest maxProfit res = res ∧
        ∀ o ∈ rest, o.evaluate exp input ≤ maxProfit) ∨
      ∃ (before : List Output) (best : Output) (after : List Output),
        rest = before ++ best :: after ∧
        SASolver.bestSequenceLoop exp input rest maxProfit res = best ∧
        maxProfit < best.evaluate exp input ∧
        (∀ o ∈ before, o.evaluate exp input < best.evaluate exp input) ∧
        ∀ o ∈ after, o.evaluate exp input ≤ best.evaluate exp input
  | [], maxProfit, res => Or.inl ⟨rfl, by simp⟩
  | seq :: rest, maxProfit, res => by
    by_cases h : seq.evaluate exp input > maxProfit
    · simp only [SASolver.bestSequenceLoop, if_pos h]
      rcases bestSequenceLoop_spec exp input rest (seq.evaluate exp input) seq with
        ⟨hres, hall⟩ | ⟨before, best, after, hsplit, hres, hlt, hb, ha⟩
      · exact Or.inr ⟨[], seq, rest, rfl, hres, h, by simp, hall⟩
      · refine Or.inr ⟨seq :: before, best, after, by rw [hsplit]; rfl, hres,
          lt_trans h hlt, ?_, ha⟩
        intro o ho
        rcases List.mem_cons.mp ho with rfl | ho
        · exact hlt
        · exact hb o ho
    · simp only [SASolver.bestSequenceLoop, if_neg h]
      rcases bestSequenceLoop_spec exp input rest maxProfit res with
        ⟨hres, hall⟩ | ⟨before, best, after, hsplit, hres, hlt, hb, ha⟩
      · refine Or.inl ⟨hres, ?_⟩
        intro o ho
        rcases List.mem_cons.mp ho with rfl | ho
        · exact not_lt.mp h
        · exact hall o ho
      · refine Or.inr ⟨seq :: before, best, after, by rw [hsplit]; rfl, hres, hlt, ?_, ha⟩
        intro o ho
        rcases List.mem_cons.mp ho with rfl | ho
        · exact lt_of_le_of_lt (not_lt.mp h) hlt
        · exact hb o ho

end Selection

/-! ## Temperature calibration -/

theorem set_set_swap (l : List Int) (i j : Nat) (hi : i < l.length) (hj : j < l.length) :
    (((l.set i (l.getD j 0)).set j (l.getD i 0)).set i
        (((l.set i (l.getD j 0)).set j (l.getD i 0)).getD j 0)).set j
        (((l.set i (l.getD j 0)).set j (l.getD i 0)).getD i 0) = l := by
  apply List.ext_getElem
  · simp
  · intro k h1 h2
    simp only [List.length_set] at h1
    simp only [List.getD_eq_getElem?_getD, List.getElem_set, List.getElem?_set, List.length_set]
    by_cases hkj : j = k
    · subst hkj
      by_cases hij : i = j
      · subst hij; simp [hi]
      · simp [hi, hj, hij, Ne.symm hij]
    · by_cases hki : i = k
      · subst hki
        simp [hi, hj, hkj]
      · simp [hkj, hki]

theorem swapTasks_twice (o : Output) (i j : Nat) :
    ((o.swapTasks i j).2.swapTasks i j).2 = o := by
  by_cases h : i ≥ o.taskSchedule.length ∨ j ≥ o.taskSchedule.length
  · simp only [Output.swapTasks, if_pos h]
  · have hi : i < o.taskSchedule.length := by
      by_contra hc; exact h (Or.inl (not_lt.mp hc))
    have hj : j < o.taskSchedule.length := by
      by_contra hc; exact h (Or.inr (not_lt.mp hc))
    have h' : ¬ (i ≥ ((o.taskSchedule.set i (o.taskSchedule.getD j 0)).set j
        (o.taskSchedule.getD i 0)).length ∨
        j ≥ ((o.taskSchedule.set i (o.taskSchedule.getD j 0)).set j
        (o.taskSchedule.getD i 0)).length) := by
      simpa using h
    simp only [Output.swapTasks, if_neg h, if_neg h']
    rw [set_set_swap o.taskSchedule i j hi hj]

section Calibration

variable {F : Type} [LinearOrderedField F]

theorem truncToInt_intCast [FloorRing F] (z : Int) :
    SASolver.truncToInt ((z : Int) : F) = z := by
  unfold SASolver.truncToInt
  split <;> simp

theorem sampleLoop_eq (exp : F → F) (input : Input F) (output : Output) (currProfit : F) :
    ∀ (k : Nat) (gen : Gen F) (count : Int) (delta : F),
      SASolver.sampleLoop exp input currProfit k output gen count delta
        = match drawPairs k gen.taskNums with
          | none => none
          | some (pairs, rest) =>
            some (count + ((specDrops currProfit
                    (pairs.map (trialScore exp input output))).length : Int),
              delta + (specDrops currProfit (pairs.map (trialScore exp input output))).sum,
              output, { gen with taskNums := rest })
  | 0, gen, count, delta => by
    simp [SASolver.sampleLoop, drawPairs, specDrops]
  | k + 1, gen, count, delta => by
    cases hg : gen.taskNums with
    | nil => simp [SASolver.sampleLoop, SASolver.perturb, drawPairs, hg]
    | cons index1 rest =>
      cases hd : SASolver.drawIndex2 index1 rest with
      | none => simp [SASolver.sampleLoop, SASolver.perturb, drawPairs, hg, hd]
      | some r =>
        obtain ⟨index2, rest'⟩ := r
        have ih := sampleLoop_eq exp input output currProfit k
          { gen with taskNums := rest' }
        simp only [SASolver.sampleLoop, SASolver.perturb, drawPairs, hg, hd, swapTasks_twice]
        by_cases hlt : (output.swapTasks (toSizeT index1) (toSizeT index2)).2.evaluate exp input
            < currProfit
        · rw [if_pos hlt, ih]
          cases hp : drawPairs k rest' with
          | none => rfl
          | some pr =>
            obtain ⟨pairs, rest''⟩ := pr
            simp only [List.map_cons, specDrops, trialScore, List.filter_cons, hlt,
              decide_True, if_true, List.length_cons, List.sum_cons]
            congr 2
            · push_cast; ring
            · rw [add_assoc]
        · rw [if_neg hlt, ih]
          cases hp : drawPairs k rest' with
          | none => rfl
          | some pr =>
            obtain ⟨pairs, rest''⟩ := pr
            simp only [List.map_cons, specDrops, trialScore, List.filter_cons, hlt,
              decide_False, if_false, Bool.false_eq_true]

theorem drawPairs_length :
    ∀ (k : Nat) (draws : List Int) (pairs : List (Int × Int)) (rest : List Int),
      drawPairs k draws = some (pairs, rest) → pairs.length = k
  | 0, draws, pairs, rest, h => by
    simp only [drawPairs, Option.some.injEq, Prod.mk.injEq] at h
    rw [← h.1]; rfl
  | k + 1, [], pairs, rest, h => by simp [drawPairs] at h
  | k + 1, index1 :: draws, pairs, rest, h => by
    simp only [drawPairs] at h
    cases hd : SASolver.drawIndex2 index1 draws with
    | none => simp [hd] at h
    | some r =>
      obtain ⟨index2, rest'⟩ := r
      cases hp : drawPairs k rest' with
      | none => simp [hd, hp] at h
      | some pr =>
        obtain ⟨pairs', rest''⟩ := pr
        simp only [hd, hp, Option.some.injEq, Prod.mk.injEq] at h
        rw [← h.1, List.length_cons, drawPairs_length k rest' pairs' rest'' hp]

end Calibration

theorem sampleSize_eq (input : Input ℝ) :
    SASolver.truncToInt
      ((SASolver.INIT_TEMP_SAMPLE_SIZE_FACTOR : ℝ) * (input.size : ℝ) * (input.size : ℝ))
      = 2 * input.size * input.size := by
  have h : (SASolver.INIT_TEMP_SAMPLE_SIZE_FACTOR : ℝ) * (input.size : ℝ) * (input.size : ℝ)
      = ((2 * input.size * input.size : Int) : ℝ) := by
    unfold SASolver.INIT_TEMP_SAMPLE_SIZE_FACTOR
    push_cast
    norm_num
  rw [h, truncToInt_intCast]

theorem getInitTemperature_eq (input : Input ℝ) (output : Output) (gen : Gen ℝ)
    (initAccRate : ℝ) :
    SASolver.getInitTemperature Real.exp Real.log input output gen initAccRate
      = match drawPairs (2 * input.size * input.size).toNat gen.taskNums with
        | none => none
        | some (pairs, rest) =>
          some (specInitTemperature Real.log
              (specDrops (output.evaluate Real.exp input)
                (pairs.map (trialScore Real.exp input output))) initAccRate,
            output, { gen with taskNums := rest }) := by
  unfold SASolver.getInitTemperature
  simp only [sampleSize_eq, sampleLoop_eq]
  cases drawPairs (2 * input.size * input.size).toNat gen.taskNums with
  | none => rfl
  | some pr =>
    obtain ⟨pairs, rest⟩ := pr
    simp [specInitTemperature]

/-- C9 (calibration is pure sampling): for every instance, candidate, random
stream and target rate, the candidate passed to `SASolver::getInitTemperature`
is, on return, identical to the candidate passed in. -/
theorem getInitTemperature_keeps_candidate (input : Input ℝ) (output : Output)
    (gen : Gen ℝ) (initAccRate temperature : ℝ) (output' : Output) (gen' : Gen ℝ)
    (h : SASolver.getInitTemperature Real.exp Real.log input output gen initAccRate
      = some (temperature, output', gen')) :
    output' = output := by
  rw [getInitTemperature_eq] at h
  cases hd : drawPairs (2 * input.size * input.size).toNat gen.taskNums with
  | none => simp [hd] at h
  | some pr =>
    obtain ⟨pairs, rest⟩ := pr
    simp only [hd, Option.some.injEq, Prod.mk.injEq] at h
    exact h.2.1.symm

/-- C10: when the random stream supplies the index pairs of the trials,
`SASolver::getInitTemperature` performs `2 * n * n` trial swaps, each against
the unchanged seed candidate, and, when at least one trial scores strictly
below the seed score, returns
(sum of the drops over the strictly lower trials / number of such trials)
/ ln(1 / initAccRate). -/
theorem getInitTemperature_average_drop (input : Input ℝ) (output : Output)
    (gen : Gen ℝ) (initAccRate : ℝ) (pairs : List (Int × Int)) (rest : List Int)
    (hdraw : drawPairs (2 * input.size * input.size).toNat gen.taskNums = some (pairs, rest))
    (_hdrop : ∃ pair ∈ pairs,
      trialScore Real.exp input output pair < output.evaluate Real.exp input) :
    (pairs.length : Int) = 2 * input.size * input.size ∧
    SASolver.getInitTemperature Real.exp Real.log input output gen initAccRate
      = some
          (((specDrops (output.evaluate Real.exp input)
                (pairs.map (trialScore Real.exp input output))).sum
              / ((specDrops (output.evaluate Real.exp input)
                (pairs.map (trialScore Real.exp input output))).length : ℝ))
            / Real.log (1 / initAccRate),
            output, { gen with taskNums := rest }) := by
  constructor
  · rw [drawPairs_length _ _ _ _ hdraw]
    have h0 : 0 ≤ 2 * input.size * input.size := by nlinarith [mul_self_nonneg input.size]
    exact Int.toNat_of_nonneg h0
  · rw [getInitTemperature_eq, hdraw]
    rfl

/-! ## Acceptance rule -/

theorem acceptanceProb_of_le (cur new t : ℝ) (h : cur ≤ new) :
    SASolver.acceptanceProb Real.exp cur new t = 1 := by
  unfold SASolver.acceptanceProb SASolver.accProb
  split
  · norm_num
  · have heq : new = cur := le_antisymm (by linarith) h
    subst heq
    simp

theorem acceptanceProb_of_lt (cur new t : ℝ) (h : new < cur) :
    SASolver.acceptanceProb Real.exp cur new t = Real.exp ((new - cur) / t) := by
  unfold SASolver.acceptanceProb SASolver.accProb
  rw [if_neg (by linarith)]
  congr 1
  ring

/-- C7 (acceptance law): in one annealing attempt at temperature `t > 0` with
uniform draw `u` in `[0, 1)`, where `perturb` produced the score `newProfit`:
if `newProfit ≥ currProfit` the acceptance probability is 1 and the move is kept
whatever `u` is; if the move lowers the score by `d > 0` the acceptance
probability is `exp(-d / t)`, the move is kept when `u ≤ exp(-d / t)` and
reverted when `u > exp(-d / t)`. -/
theorem attempt_acceptance_law (input : Input ℝ) (st : CoolState ℝ) (newProfit : ℝ)
    (sequence : Output) (index1 index2 : Int) (gen : Gen ℝ) (u : ℝ) (reals : List ℝ)
    (hperturb : SASolver.perturb Real.exp input st.sequence st.gen
      = some (newProfit, sequence, index1, index2, gen))
    (hdraw : gen.reals = u :: reals)
    (_ht : 0 < st.temperature) (_hu0 : 0 ≤ u) (hu1 : u < 1) :
    (st.currProfit ≤ newProfit →
      SASolver.acceptanceProb Real.exp st.currProfit newProfit st.temperature = 1 ∧
      SASolver.attempt Real.exp input st = some { st with
        sequence := sequence, gen := { gen with reals := reals }, currProfit := newProfit,
        history := st.history ++ [Event.accepted sequence] }) ∧
    (newProfit < st.currProfit →
      SASolver.acceptanceProb Real.exp st.currProfit newProfit st.temperature
        = Real.exp (-(st.currProfit - newProfit) / st.temperature) ∧
      (u ≤ Real.exp (-(st.currProfit - newProfit) / st.temperature) →
        SASolver.attempt Real.exp input st = some { st with
          sequence := sequence, gen := { gen with reals := reals }, currProfit := newProfit,
          history := st.history ++ [Event.accepted sequence] }) ∧
      (Real.exp (-(st.currProfit - newProfit) / st.temperature) < u →
        SASolver.attempt Real.exp input st = some { st with
          sequence := (sequence.swapTasks (toSizeT index1) (toSizeT index2)).2,
          gen := { gen with reals := reals } })) := by
  constructor
  · intro hle
    have hp := acceptanceProb_of_le st.currProfit newProfit st.temperature hle
    refine ⟨hp, ?_⟩
    simp only [SASolver.attempt, hperturb, hdraw, hp]
    rw [if_neg (by linarith)]
  · intro hlt
    have hp := acceptanceProb_of_lt st.currProfit newProfit st.temperature hlt
    have hd : (newProfit - st.currProfit) / st.temperature
        = -(st.currProfit - newProfit) / st.temperature := by ring
    rw [hd] at hp
    refine ⟨hp, ?_, ?_⟩
    · intro hu
      simp only [SASolver.attempt, hperturb, hdraw, hp]
      rw [if_neg (by linarith)]
    · intro hu
      simp only [SASolver.attempt, hperturb, hdraw, hp]
      rw [if_pos hu]

/-- C8, as stated, fails: for current score 1, new score 0 and temperature 1 the
acceptance probability used by the annealing loop is `exp(-1)`, not
`exp((1 - 0) / 1)`. -/
theorem acceptanceProb_not_exp_of_drop :
    (0 : ℝ) < 1 ∧
    SASolver.acceptanceProb Real.exp 1 0 1 ≠ Real.exp (((1 : ℝ) - 0) / 1) := by
  refine ⟨by norm_num, ?_⟩
  rw [acceptanceProb_of_lt 1 0 1 (by norm_num)]
  intro h
  have := Real.exp_injective h
  norm_num at this

/-- C8, amended: for a move with new score strictly below the current score,
the acceptance probability used by the annealing loop equals
`exp((newScore - currentScore) / temperature)`. -/
theorem acceptanceProb_downhill (currentScore newScore temperature : ℝ)
    (h : newScore < currentScore) :
    SASolver.acceptanceProb Real.exp currentScore newScore temperature
      = Real.exp ((newScore - currentScore) / temperature) := by
  unfold SASolver.acceptanceProb SASolver.accProb
  rw [if_neg (by linarith)]
  congr 1
  ring

/-- C5 (orchestrator selection): for every instance with positive profits and
every non-empty list of per-stream results, `SASolver::bestSequence` returns the
element of lowest position among those of maximum score: every earlier element
scores strictly less and every later element scores at most as much. -/
theorem bestSequence_first_maximum (input : Input ℝ) (sequences : List Output)
    (hp : PositiveProfits input) (hv : ∀ o ∈ sequences, ValidIndices input o)
    (hne : sequences ≠ []) :
    ∃ (before : List Output) (best : Output) (after : List Output),
      sequences = before ++ best :: after ∧
      SASolver.bestSequence Real.exp input sequences = best ∧
      (∀ o ∈ before, o.evaluate Real.exp input < best.evaluate Real.exp input) ∧
      ∀ o ∈ after, o.evaluate Real.exp input ≤ best.evaluate Real.exp input := by
  rcases bestSequenceLoop_spec Real.exp input sequences (-1) ⟨[]⟩ with
    ⟨_, hall⟩ | ⟨before, best, after, hsplit, hres, _, hb, ha⟩
  · exfalso
    cases sequences with
    | nil => exact hne rfl
    | cons o rest =>
      have h0 := evaluate_nonneg input hp o (hv o (List.mem_cons_self o rest))
      have h1 := hall o (List.mem_cons_self o rest)
      linarith
  · exact ⟨before, best, after, hsplit, hres, hb, ha⟩


/-! ## A concrete run -/

theorem threeTask_getDuration (F : Type) [LinearOrderedField F] :
    (threeTaskInput F).getDuration 0 = 1000 ∧ (threeTaskInput F).getDuration 1 = 1000 ∧
    (threeTaskInput F).getDuration 2 = 400 := ⟨rfl, rfl, rfl⟩

theorem threeTask_getDeadline (F : Type) [LinearOrderedField F] :
    (threeTaskInput F).getDeadline 0 = 1440 ∧ (threeTaskInput F).getDeadline 1 = 1440 ∧
    (threeTaskInput F).getDeadline 2 = 1440 := ⟨rfl, rfl, rfl⟩

theorem threeTask_getProfit (F : Type) [LinearOrderedField F] :
    (threeTaskInput F).getProfit 0 = 1 ∧ (threeTaskInput F).getProfit 1 = 5 ∧
    (threeTaskInput F).getProfit 2 = 3 := ⟨rfl, rfl, rfl⟩

theorem threeTask_score_021 :
    Output.evaluate Real.exp ⟨[0, 2, 1]⟩ (threeTaskInput ℝ) = 4 := by
  simp only [Output.evaluate, Output.evaluateLoop, threeTask_getDuration,
    threeTask_getDeadline, threeTask_getProfit]
  norm_num

theorem threeTask_score_120 :
    Output.evaluate Real.exp ⟨[1, 2, 0]⟩ (threeTaskInput ℝ) = 8 := by
  simp only [Output.evaluate, Output.evaluateLoop, threeTask_getDuration,
    threeTask_getDeadline, threeTask_getProfit]
  norm_num

theorem threeTask_score_012 :
    Output.evaluate Real.exp ⟨[0, 1, 2]⟩ (threeTaskInput ℝ) = 1 := by
  simp only [Output.evaluate, Output.evaluateLoop, threeTask_getDuration,
    threeTask_getDeadline, threeTask_getProfit]
  norm_num

theorem scripted_initial :
    SASolver.generateRandomSequence (threeTaskInput ℝ) (scriptedGen ℝ)
      = some (⟨[0, 2, 1]⟩, { scriptedGen ℝ with shuffles := [] }) := by
  rfl

theorem scripted_pairs :
    drawPairs (2 * (threeTaskInput ℝ).size * (threeTaskInput ℝ).size).toNat
      (scriptedGen ℝ).taskNums
      = some (List.replicate 18 (1, 2), [0, 2, 0, 2]) := by
  rfl


theorem acceptanceProb_pos (cur new t : ℝ) :
    0 < SASolver.acceptanceProb Real.exp cur new t := by
  unfold SASolver.acceptanceProb SASolver.accProb
  split
  · norm_num
  · exact Real.exp_pos _

theorem perturb_of_distinct (input : Input ℝ) (o : Output) (gen : Gen ℝ)
    (index1 index2 : Int) (rest : List Int) (htn : gen.taskNums = index1 :: index2 :: rest)
    (hne : index2 ≠ index1) :
    SASolver.perturb Real.exp input o gen
      = some (((o.swapTasks (toSizeT index1) (toSizeT index2)).2).evaluate Real.exp input,
          (o.swapTasks (toSizeT index1) (toSizeT index2)).2, index1, index2,
          { gen with taskNums := rest }) := by
  simp [SASolver.perturb, SASolver.drawIndex2, htn, hne]

theorem attempt_of_zero_draw (input : Input ℝ) (st : CoolState ℝ) (newProfit : ℝ)
    (sequence : Output) (index1 index2 : Int) (gen : Gen ℝ) (reals : List ℝ)
    (hperturb : SASolver.perturb Real.exp input st.sequence st.gen
      = some (newProfit, sequence, index1, index2, gen))
    (hdraw : gen.reals = 0 :: reals) :
    SASolver.attempt Real.exp input st = some { st with
      sequence := sequence, gen := { gen with reals := reals }, currProfit := newProfit,
      history := st.history ++ [Event.accepted sequence] } := by
  simp only [SASolver.attempt, hperturb, hdraw]
  rw [if_neg (not_lt.mpr (acceptanceProb_pos _ _ _).le)]

theorem scripted_calibration :
    SASolver.getInitTemperature Real.exp Real.log (threeTaskInput ℝ) ⟨[0, 2, 1]⟩
        { scriptedGen ℝ with shuffles := [] } (quickSettings ℝ).initAccRate
      = some (specInitTemperature Real.log
            (specDrops (Output.evaluate Real.exp ⟨[0, 2, 1]⟩ (threeTaskInput ℝ))
              ((List.replicate 18 ((1 : Int), (2 : Int))).map
                (trialScore Real.exp (threeTaskInput ℝ) ⟨[0, 2, 1]⟩)))
            (quickSettings ℝ).initAccRate,
          ⟨[0, 2, 1]⟩, { taskNums := [0, 2, 0, 2], reals := [0, 0], shuffles := [] }) := by
  rw [getInitTemperature_eq]
  rfl

theorem scripted_epochSize :
    SASolver.truncToInt ((quickSettings ℝ).epochSizeFactor * ((threeTaskInput ℝ).size : ℝ)
      * ((threeTaskInput ℝ).size : ℝ)) = 2 := by
  have h : (quickSettings ℝ).epochSizeFactor * ((threeTaskInput ℝ).size : ℝ)
      * ((threeTaskInput ℝ).size : ℝ) = ((2 : Int) : ℝ) := by
    simp only [quickSettings, threeTaskInput, Input.size]
    norm_num
  rw [h, truncToInt_intCast]

theorem scripted_attempts (t : ℝ) :
    SASolver.attempts Real.exp (threeTaskInput ℝ) 2
        { sequence := ⟨[0, 2, 1]⟩,
          gen := { taskNums := [0, 2, 0, 2], reals := [0, 0], shuffles := [] },
          currProfit := 4, temperature := t, lastEpochProfit := 4, rejectionCount := 0,
          epoch := 0, history := [] }
      = some
        { sequence := ⟨[0, 2, 1]⟩,
          gen := { taskNums := [], reals := [], shuffles := [] },
          currProfit := 4, temperature := t, lastEpochProfit := 4, rejectionCount := 0,
          epoch := 0,
          history := [Event.accepted ⟨[1, 2, 0]⟩, Event.accepted ⟨[0, 2, 1]⟩] } := by
  have hs1 : (Output.swapTasks ⟨[0, 2, 1]⟩ (toSizeT 0) (toSizeT 2)).2 = ⟨[1, 2, 0]⟩ := by decide
  have hs2 : (Output.swapTasks ⟨[1, 2, 0]⟩ (toSizeT 0) (toSizeT 2)).2 = ⟨[0, 2, 1]⟩ := by decide
  have a1 := attempt_of_zero_draw (threeTaskInput ℝ)
    { sequence := ⟨[0, 2, 1]⟩,
      gen := { taskNums := [0, 2, 0, 2], reals := [0, 0], shuffles := [] },
      currProfit := 4, temperature := t, lastEpochProfit := 4, rejectionCount := 0,
      epoch := 0, history := [] } _ _ 0 2 _ [0]
    (perturb_of_distinct (threeTaskInput ℝ) _ _ 0 2 [0, 2] rfl (by decide)) rfl
  have a2 := attempt_of_zero_draw (threeTaskInput ℝ)
    { sequence := ⟨[1, 2, 0]⟩,
      gen := { taskNums := [0, 2], reals := [0], shuffles := [] },
      currProfit := 8, temperature := t, lastEpochProfit := 4, rejectionCount := 0,
      epoch := 0, history := [Event.accepted ⟨[1, 2, 0]⟩] } _ _ 0 2 _ []
    (perturb_of_distinct (threeTaskInput ℝ) _ _ 0 2 [] rfl (by decide)) rfl
  simp only [hs1, hs2, threeTask_score_120, threeTask_score_021, List.nil_append,
    List.cons_append] at a1 a2
  simp only [SASolver.attempts, a1, a2]


theorem scripted_run :
    SASolver.solveThread Real.exp Real.log (threeTaskInput ℝ) 1 (scriptedGen ℝ)
        (quickSettings ℝ)
      = some (⟨[0, 2, 1]⟩, { taskNums := [], reals := [], shuffles := [] },
          [Event.accepted ⟨[1, 2, 0]⟩, Event.accepted ⟨[0, 2, 1]⟩,
            Event.runEnd ⟨[0, 2, 1]⟩]) := by
  have hmr : ((quickSettings ℝ).maxRestarts + 1).toNat = 1 := rfl
  have hmj : (quickSettings ℝ).maxRejections = 1 := rfl
  have hL : ((2 : Int)).toNat = 2 := rfl
  simp only [SASolver.solveThread, scripted_initial, hmr, SASolver.restartLoop,
    SASolver.solveInstance, scripted_calibration, scripted_epochSize, SASolver.coolLoop,
    SASolver.epochStep, threeTask_score_021, hmj, hL, scripted_attempts]
  norm_num [SASolver.PROFIT_GAIN_THRESH]


section RunEnds

variable {F : Type} [LinearOrderedField F]

theorem attempt_runEnd (exp : F → F) (input : Input F) (st st' : CoolState F)
    (h : SASolver.attempt exp input st = some st') (o : Output) :
    Event.runEnd o ∈ st'.history ↔ Event.runEnd o ∈ st.history := by
  unfold SASolver.attempt at h
  cases hp : SASolver.perturb exp input st.sequence st.gen with
  | none => simp [hp] at h
  | some r =>
    obtain ⟨newProfit, sequence, index1, index2, gen⟩ := r
    cases hr : gen.reals with
    | nil => simp [hp, hr] at h
    | cons u reals =>
      simp only [hp, hr] at h
      split at h
      · simp only [Option.some.injEq] at h
        rw [← h]
      · simp only [Option.some.injEq] at h
        rw [← h]
        simp

theorem attempts_runEnd (exp : F → F) (input : Input F) :
    ∀ (k : Nat) (st st' : CoolState F), SASolver.attempts exp input k st = some st' →
      ∀ o : Output, Event.runEnd o ∈ st'.history ↔ Event.runEnd o ∈ st.history
  | 0, st, st', h, o => by
    simp only [SASolver.attempts, Option.some.injEq] at h
    rw [h]
  | k + 1, st, st', h, o => by
    simp only [SASolver.attempts] at h
    cases ha : SASolver.attempt exp input st with
    | none => simp [ha] at h
    | some st1 =>
      simp only [ha] at h
      rw [attempts_runEnd exp input k st1 st' h o, attempt_runEnd exp input st st1 ha o]

theorem epochStep_runEnd (exp : F → F) (input : Input F) (s : Settings F) (L : Int)
    (st st' : CoolState F) (h : SASolver.epochStep exp input s L st = some st') (o : Output) :
    Event.runEnd o ∈ st'.history ↔ Event.runEnd o ∈ st.history := by
  unfold SASolver.epochStep at h
  cases ha : SASolver.attempts exp input L.toNat st with
  | none => simp [ha] at h
  | some st1 =>
    simp only [ha, Option.some.injEq] at h
    rw [← h]
    exact attempts_runEnd exp input L.toNat st st1 ha o

theorem coolLoop_runEnd (exp : F → F) (input : Input F) (s : Settings F) (L : Int) :
    ∀ (fuel : Nat) (st st' : CoolState F), SASolver.coolLoop exp input s L fuel st = some st' →
      ∀ o : Output, Event.runEnd o ∈ st'.history ↔ Event.runEnd o ∈ st.history
  | 0, st, st', h, o => by
    simp only [SASolver.coolLoop] at h
    split at h
    · simp at h
    · simp only [Option.some.injEq] at h
      rw [h]
  | fuel + 1, st, st', h, o => by
    simp only [SASolver.coolLoop] at h
    split at h
    · cases he : SASolver.epochStep exp input s L st with
      | none => simp [he] at h
      | some st1 =>
        simp only [he] at h
        rw [coolLoop_runEnd exp input s L fuel st1 st' h o,
          epochStep_runEnd exp input s L st st1 he o]
    · simp only [Option.some.injEq] at h
      rw [h]

theorem solveInstance_runEnd [FloorRing F] (exp log : F → F) (input : Input F) (fuel : Nat)
    (sequence : Output) (gen : Gen F) (s : Settings F) (history : List Event)
    (sequence' : Output) (gen' : Gen F) (history' : List Event)
    (h : SASolver.solveInstance exp log input fuel sequence gen s history
      = some (sequence', gen', history')) (o : Output) :
    Event.runEnd o ∈ history' ↔ (Event.runEnd o ∈ history ∨ o = sequence') := by
  unfold SASolver.solveInstance at h
  cases hc : SASolver.getInitTemperature exp log input sequence gen s.initAccRate with
  | none => simp [hc] at h
  | some r =>
    obtain ⟨temperature, sequence1, gen1⟩ := r
    simp only [hc] at h
    split at h
    · simp at h
    · rename_i st hcool
      simp only [Option.some.injEq, Prod.mk.injEq] at h
      obtain ⟨h1, _, h3⟩ := h
      rw [← h3, ← h1, List.mem_append, coolLoop_runEnd exp input s _ fuel _ st hcool o]
      simp

theorem restartLoop_spec [FloorRing F] (exp log : F → F) (input : Input F) (fuel : Nat) (s : Settings F) :
    ∀ (k : Nat) (currSequence bestSequence : Output) (maxProfit : F) (gen : Gen F)
      (history : List Event) (best : Output) (gen' : Gen F) (history' : List Event),
      maxProfit = bestSequence.evaluate exp input →
      (∀ o : Output, Event.runEnd o ∈ history → o.evaluate exp input ≤ maxProfit) →
      SASolver.restartLoop exp log input fuel s k currSequence bestSequence maxProfit gen
        history = some (best, gen', history') →
      maxProfit ≤ best.evaluate exp input ∧
      ∀ o : Output, Event.runEnd o ∈ history' → o.evaluate exp input ≤ best.evaluate exp input
  | 0, currSequence, bestSequence, maxProfit, gen, history, best, gen', history', hmax, hall,
      h => by
    simp only [SASolver.restartLoop, Option.some.injEq, Prod.mk.injEq] at h
    obtain ⟨h1, _, h3⟩ := h
    subst h1 h3
    exact ⟨hmax.le, fun o ho => hmax ▸ hall o ho⟩
  | k + 1, currSequence, bestSequence, maxProfit, gen, history, best, gen', history', hmax,
      hall, h => by
    simp only [SASolver.restartLoop] at h
    cases hs : SASolver.solveInstance exp log input fuel currSequence gen s history with
    | none => simp [hs] at h
    | some r =>
      obtain ⟨curr1, gen1, history1⟩ := r
      simp only [hs] at h
      have hmem := solveInstance_runEnd exp log input fuel currSequence gen s history
        curr1 gen1 history1 hs
      split at h
      · rename_i hgt
        have ih := restartLoop_spec exp log input fuel s k curr1 curr1
          (curr1.evaluate exp input) gen1 history1 best gen' history' rfl
          (by
            intro o ho
            rcases (hmem o).mp ho with ho | rfl
            · exact le_trans (hall o ho) hgt.le
            · exact le_refl _) h
        exact ⟨le_trans hgt.le ih.1, ih.2⟩
      · rename_i hle
        have ih := restartLoop_spec exp log input fuel s k curr1 bestSequence maxProfit gen1
          history1 best gen' history' hmax
          (by
            intro o ho
            rcases (hmem o).mp ho with ho | rfl
            · exact hall o ho
            · exact not_lt.mp hle) h
        exact ih

end RunEnds

/-- C6, as stated, fails.  On the three-task instance the stream starts from
`[0, 2, 1]` (score 4), keeps the move to `[1, 2, 0]` (score 8), keeps the move
back to `[0, 2, 1]` and freezes; its output is `[0, 2, 1]`, which scores less
than the state `[1, 2, 0]` held after the first kept move. -/
theorem solveThread_misses_kept_state :
    SASolver.solveThread Real.exp Real.log (threeTaskInput ℝ) 1 (scriptedGen ℝ)
        (quickSettings ℝ)
      = some (⟨[0, 2, 1]⟩, { taskNums := [], reals := [], shuffles := [] },
          [Event.accepted ⟨[1, 2, 0]⟩, Event.accepted ⟨[0, 2, 1]⟩,
            Event.runEnd ⟨[0, 2, 1]⟩]) ∧
    Event.accepted ⟨[1, 2, 0]⟩ ∈
      [Event.accepted ⟨[1, 2, 0]⟩, Event.accepted ⟨[0, 2, 1]⟩, Event.runEnd ⟨[0, 2, 1]⟩] ∧
    Output.evaluate Real.exp ⟨[0, 2, 1]⟩ (threeTaskInput ℝ)
      < Output.evaluate Real.exp ⟨[1, 2, 0]⟩ (threeTaskInput ℝ) := by
  refine ⟨scripted_run, by simp, ?_⟩
  rw [threeTask_score_021, threeTask_score_120]
  norm_num

/-- C6, amended: the candidate a single stream (`SASolver::solveThread`)
outputs scores at least as high as the stream's initial random candidate and as
the working sequence held at the end of each of its annealing runs. -/
theorem solveThread_best_of_run_ends (input : Input ℝ) (fuel : Nat) (gen : Gen ℝ)
    (s : Settings ℝ) (best : Output) (gen' : Gen ℝ) (history : List Event)
    (h : SASolver.solveThread Real.exp Real.log input fuel gen s = some (best, gen', history)) :
    (∃ (initial : Output) (gen₀ : Gen ℝ),
      SASolver.generateRandomSequence input gen = some (initial, gen₀) ∧
      initial.evaluate Real.exp input ≤ best.evaluate Real.exp input) ∧
    ∀ o : Output, Event.runEnd o ∈ history →
      o.evaluate Real.exp input ≤ best.evaluate Real.exp input := by
  unfold SASolver.solveThread at h
  cases hg : SASolver.generateRandomSequence input gen with
  | none => simp [hg] at h
  | some r =>
    obtain ⟨initial, gen₀⟩ := r
    simp only [hg] at h
    have hspec := restartLoop_spec Real.exp Real.log input fuel s _ initial initial
      (initial.evaluate Real.exp input) gen₀ [] best gen' history rfl (by simp) h
    exact ⟨⟨initial, gen₀, rfl, hspec.1⟩, hspec.2⟩


/-! ## Instances of the theorems on the concrete run -/

theorem threeTask_positiveDurations : PositiveDurations (threeTaskInput ℝ) := by
  intro i h0 h1
  have h3 : i < 3 := h1
  interval_cases i <;> simp [threeTask_getDuration]

theorem threeTask_positiveProfits : PositiveProfits (threeTaskInput ℝ) := by
  intro i h0 h1
  have h3 : i < 3 := h1
  interval_cases i <;> simp [threeTask_getProfit]

theorem threeTask_fits_02 :
    ∀ q : List Int, q <+: [0, 2] → totalDuration (threeTaskInput ℝ) q ≤ 1440 := by
  intro q hq
  have hsub : ∀ x ∈ q, x = 0 ∨ x = 2 := by
    intro x hx
    simpa using hq.subset hx
  have hlen := hq.length_le
  rcases q with _ | ⟨a, _ | ⟨b, _ | ⟨c, q⟩⟩⟩
  · simp [totalDuration]
  · obtain ⟨t, ht⟩ := hq
    simp only [List.cons_append, List.nil_append, List.cons.injEq] at ht
    rw [ht.1]
    simp [totalDuration, threeTask_getDuration]
  · obtain ⟨t, ht⟩ := hq
    simp only [List.cons_append, List.nil_append, List.cons.injEq] at ht
    rw [ht.1, ht.2.1]
    simp [totalDuration, threeTask_getDuration]
  · simp at hlen

theorem scripted_perturb :
    SASolver.perturb Real.exp (threeTaskInput ℝ) (scriptedState ℝ).sequence
        (scriptedState ℝ).gen
      = some (8, ⟨[1, 2, 0]⟩, 0, 2, { taskNums := [0, 2], reals := [0, 0], shuffles := [] }) := by
  have hs : (Output.swapTasks ⟨[0, 2, 1]⟩ (toSizeT 0) (toSizeT 2)).2 = ⟨[1, 2, 0]⟩ := by decide
  have h := perturb_of_distinct (threeTaskInput ℝ) (scriptedState ℝ).sequence
    (scriptedState ℝ).gen 0 2 [0, 2] rfl (by decide)
  rw [h]
  simp only [scriptedState, hs, threeTask_score_120]

theorem scripted_trial_drop :
    trialScore Real.exp (threeTaskInput ℝ) ⟨[0, 2, 1]⟩ (1, 2)
      < Output.evaluate Real.exp ⟨[0, 2, 1]⟩ (threeTaskInput ℝ) := by
  have hs : (Output.swapTasks ⟨[0, 2, 1]⟩ (toSizeT 1) (toSizeT 2)).2 = ⟨[0, 1, 2]⟩ := by decide
  simp only [trialScore, hs, threeTask_score_012, threeTask_score_021]
  norm_num

theorem evaluate_trim_witness :
    ValidIndices (threeTaskInput ℝ) ⟨[0, 1, 2]⟩ ∧
    Output.evaluate Real.exp ⟨[0, 1, 2]⟩ (threeTaskInput ℝ)
      = Output.evaluate Real.exp (Output.trim ⟨[0, 1, 2]⟩ (threeTaskInput ℝ)).2
          (threeTaskInput ℝ) :=
  ⟨by decide, evaluate_trim (threeTaskInput ℝ) ⟨[0, 1, 2]⟩ (by decide)⟩


theorem trim_keeps_longest_fit_witness :
    PositiveDurations (threeTaskInput ℝ) ∧ ValidIndices (threeTaskInput ℝ) ⟨[0, 2, 1]⟩ ∧
    ((Output.trim ⟨[0, 2, 1]⟩ (threeTaskInput ℝ)).1 = true ∧
      (Output.trim ⟨[0, 2, 1]⟩ (threeTaskInput ℝ)).2.taskSchedule <+: [0, 2, 1] ∧
      totalDuration (threeTaskInput ℝ)
        (Output.trim ⟨[0, 2, 1]⟩ (threeTaskInput ℝ)).2.taskSchedule ≤ 1440 ∧
      (∀ x ∈ (([0, 2, 1] : List Int).drop
          (Output.trim ⟨[0, 2, 1]⟩ (threeTaskInput ℝ)).2.taskSchedule.length).head?,
        totalDuration (threeTaskInput ℝ)
          (Output.trim ⟨[0, 2, 1]⟩ (threeTaskInput ℝ)).2.taskSchedule
          + (threeTaskInput ℝ).getDuration x > 1440) ∧
      ∀ q : List Int, q <+: [0, 2, 1] → totalDuration (threeTaskInput ℝ) q ≤ 1440 →
        q.length ≤ (Output.trim ⟨[0, 2, 1]⟩ (threeTaskInput ℝ)).2.taskSchedule.length) :=
  ⟨threeTask_positiveDurations, by decide,
    trim_keeps_longest_fit (threeTaskInput ℝ) ⟨[0, 2, 1]⟩ threeTask_positiveDurations
      (by decide)⟩

theorem evaluate_depends_on_fit_witness :
    (∀ q : List Int, q <+: [0, 2] → totalDuration (threeTaskInput ℝ) q ≤ 1440) ∧
    totalDuration (threeTaskInput ℝ) [0, 2] + (threeTaskInput ℝ).getDuration 1 > 1440 ∧
    totalDuration (threeTaskInput ℝ) [0, 2] + (threeTaskInput ℝ).getDuration 0 > 1440 ∧
    (Output.evaluate Real.exp ⟨[0, 2] ++ 1 :: []⟩ (threeTaskInput ℝ)
        = Output.evaluate Real.exp ⟨[0, 2] ++ 0 :: [1, 2]⟩ (threeTaskInput ℝ) ∧
      Output.evaluate Real.exp ⟨[0, 2] ++ 1 :: []⟩ (threeTaskInput ℝ)
        = specAccumulated Real.exp (threeTaskInput ℝ) [0, 2] 0) :=
  ⟨threeTask_fits_02, by decide, by decide,
    evaluate_depends_on_fit (threeTaskInput ℝ) [0, 2] [] [1, 2] 1 0 threeTask_fits_02
      (by decide) (by decide)⟩

theorem evaluate_single_decay_law_witness :
    (threeTaskInput ℝ).getDuration 2 ≤ 1440 ∧
    (((threeTaskInput ℝ).getDuration 2 - (threeTaskInput ℝ).getDeadline 2 > 0 →
        Output.evaluate Real.exp ⟨[2]⟩ (threeTaskInput ℝ) = (threeTaskInput ℝ).getProfit 2 *
          Real.exp (-0.017 *
            (((threeTaskInput ℝ).getDuration 2 - (threeTaskInput ℝ).getDeadline 2 : Int) : ℝ))) ∧
      ((threeTaskInput ℝ).getDuration 2 - (threeTaskInput ℝ).getDeadline 2 ≤ 0 →
        Output.evaluate Real.exp ⟨[2]⟩ (threeTaskInput ℝ) = (threeTaskInput ℝ).getProfit 2)) :=
  ⟨by decide, evaluate_single_decay_law (threeTaskInput ℝ) 2 (by decide)⟩

theorem bestSequence_first_maximum_witness :
    PositiveProfits (threeTaskInput ℝ) ∧
    (∀ o ∈ [(⟨[0, 2, 1]⟩ : Output), ⟨[1, 2, 0]⟩, ⟨[2, 1, 0]⟩],
      ValidIndices (threeTaskInput ℝ) o) ∧
    [(⟨[0, 2, 1]⟩ : Output), ⟨[1, 2, 0]⟩, ⟨[2, 1, 0]⟩] ≠ [] ∧
    ∃ (before : List Output) (best : Output) (after : List Output),
      [(⟨[0, 2, 1]⟩ : Output), ⟨[1, 2, 0]⟩, ⟨[2, 1, 0]⟩] = before ++ best :: after ∧
      SASolver.bestSequence Real.exp (threeTaskInput ℝ)
        [(⟨[0, 2, 1]⟩ : Output), ⟨[1, 2, 0]⟩, ⟨[2, 1, 0]⟩] = best ∧
      (∀ o ∈ before, o.evaluate Real.exp (threeTaskInput ℝ)
        < best.evaluate Real.exp (threeTaskInput ℝ)) ∧
      ∀ o ∈ after, o.evaluate Real.exp (threeTaskInput ℝ)
        ≤ best.evaluate Real.exp (threeTaskInput ℝ) :=
  ⟨threeTask_positiveProfits, by decide, by decide,
    bestSequence_first_maximum (threeTaskInput ℝ)
      [(⟨[0, 2, 1]⟩ : Output), ⟨[1, 2, 0]⟩, ⟨[2, 1, 0]⟩] threeTask_positiveProfits
      (by decide) (by decide)⟩

theorem solveThread_best_of_run_ends_witness :
    SASolver.solveThread Real.exp Real.log (threeTaskInput ℝ) 1 (scriptedGen ℝ)
        (quickSettings ℝ)
      = some (⟨[0, 2, 1]⟩, { taskNums := [], reals := [], shuffles := [] },
          [Event.accepted ⟨[1, 2, 0]⟩, Event.accepted ⟨[0, 2, 1]⟩,
            Event.runEnd ⟨[0, 2, 1]⟩]) ∧
    ((∃ (initial : Output) (gen₀ : Gen ℝ),
        SASolver.generateRandomSequence (threeTaskInput ℝ) (scriptedGen ℝ)
          = some (initial, gen₀) ∧
        initial.evaluate Real.exp (threeTaskInput ℝ)
          ≤ Output.evaluate Real.exp ⟨[0, 2, 1]⟩ (threeTaskInput ℝ)) ∧
      ∀ o : Output, Event.runEnd o ∈
          [Event.accepted ⟨[1, 2, 0]⟩, Event.accepted ⟨[0, 2, 1]⟩, Event.runEnd ⟨[0, 2, 1]⟩] →
        o.evaluate Real.exp (threeTaskInput ℝ)
          ≤ Output.evaluate Real.exp ⟨[0, 2, 1]⟩ (threeTaskInput ℝ)) :=
  ⟨scripted_run,
    solveThread_best_of_run_ends (threeTaskInput ℝ) 1 (scriptedGen ℝ) (quickSettings ℝ)
      ⟨[0, 2, 1]⟩ { taskNums := [], reals := [], shuffles := [] }
      [Event.accepted ⟨[1, 2, 0]⟩, Event.accepted ⟨[0, 2, 1]⟩, Event.runEnd ⟨[0, 2, 1]⟩]
      scripted_run⟩

theorem acceptanceProb_downhill_witness :
    (0 : ℝ) < 1 ∧
    SASolver.acceptanceProb Real.exp 1 0 1 = Real.exp (((0 : ℝ) - 1) / 1) :=
  ⟨by norm_num, acceptanceProb_downhill 1 0 1 (by norm_num)⟩

theorem getInitTemperature_keeps_candidate_witness :
    SASolver.getInitTemperature Real.exp Real.log (threeTaskInput ℝ) ⟨[0, 2, 1]⟩
        { scriptedGen ℝ with shuffles := [] } (quickSettings ℝ).initAccRate
      = some (specInitTemperature Real.log
            (specDrops (Output.evaluate Real.exp ⟨[0, 2, 1]⟩ (threeTaskInput ℝ))
              ((List.replicate 18 ((1 : Int), (2 : Int))).map
                (trialScore Real.exp (threeTaskInput ℝ) ⟨[0, 2, 1]⟩)))
            (quickSettings ℝ).initAccRate,
          ⟨[0, 2, 1]⟩, { taskNums := [0, 2, 0, 2], reals := [0, 0], shuffles := [] }) ∧
    (⟨[0, 2, 1]⟩ : Output) = ⟨[0, 2, 1]⟩ :=
  ⟨scripted_calibration,
    getInitTemperature_keeps_candidate (threeTaskInput ℝ) ⟨[0, 2, 1]⟩
      { scriptedGen ℝ with shuffles := [] } (quickSettings ℝ).initAccRate _ ⟨[0, 2, 1]⟩ _
      scripted_calibration⟩

theorem getInitTemperature_average_drop_witness :
    drawPairs (2 * (threeTaskInput ℝ).size * (threeTaskInput ℝ).size).toNat
        (scriptedGen ℝ).taskNums = some (List.replicate 18 (1, 2), [0, 2, 0, 2]) ∧
    (∃ pair ∈ List.replicate 18 ((1 : Int), (2 : Int)),
      trialScore Real.exp (threeTaskInput ℝ) ⟨[0, 2, 1]⟩ pair
        < Output.evaluate Real.exp ⟨[0, 2, 1]⟩ (threeTaskInput ℝ)) ∧
    (((List.replicate 18 ((1 : Int), (2 : Int))).length : Int)
        = 2 * (threeTaskInput ℝ).size * (threeTaskInput ℝ).size ∧
      SASolver.getInitTemperature Real.exp Real.log (threeTaskInput ℝ) ⟨[0, 2, 1]⟩
          (scriptedGen ℝ) 0.8
        = some
          (((specDrops (Output.evaluate Real.exp ⟨[0, 2, 1]⟩ (threeTaskInput ℝ))
                ((List.replicate 18 ((1 : Int), (2 : Int))).map
                  (trialScore Real.exp (threeTaskInput ℝ) ⟨[0, 2, 1]⟩))).sum
              / ((specDrops (Output.evaluate Real.exp ⟨[0, 2, 1]⟩ (threeTaskInput ℝ))
                ((List.replicate 18 ((1 : Int), (2 : Int))).map
                  (trialScore Real.exp (threeTaskInput ℝ) ⟨[0, 2, 1]⟩))).length : ℝ))
            / Real.log (1 / 0.8),
            ⟨[0, 2, 1]⟩, { scriptedGen ℝ with taskNums := [0, 2, 0, 2] })) :=
  ⟨scripted_pairs, ⟨(1, 2), by decide, scripted_trial_drop⟩,
    getInitTemperature_average_drop (threeTaskInput ℝ) ⟨[0, 2, 1]⟩ (scriptedGen ℝ) 0.8
      (List.replicate 18 (1, 2)) [0, 2, 0, 2] scripted_pairs
      ⟨(1, 2), by decide, scripted_trial_drop⟩⟩

theorem attempt_acceptance_law_witness :
    SASolver.perturb Real.exp (threeTaskInput ℝ) (scriptedState ℝ).sequence
        (scriptedState ℝ).gen
      = some (8, ⟨[1, 2, 0]⟩, 0, 2, { taskNums := [0, 2], reals := [0, 0], shuffles := [] }) ∧
    (0 : ℝ) < (scriptedState ℝ).temperature ∧ (0 : ℝ) ≤ 0 ∧ (0 : ℝ) < 1 ∧
    (((scriptedState ℝ).currProfit ≤ 8 →
      SASolver.acceptanceProb Real.exp (scriptedState ℝ).currProfit 8
          (scriptedState ℝ).temperature = 1 ∧
      SASolver.attempt Real.exp (threeTaskInput ℝ) (scriptedState ℝ) = some
        { scriptedState ℝ with
          sequence := ⟨[1, 2, 0]⟩,
          gen := { taskNums := [0, 2], reals := [0], shuffles := [] },
          currProfit := 8,
          history := (scriptedState ℝ).history ++ [Event.accepted ⟨[1, 2, 0]⟩] }) ∧
    (8 < (scriptedState ℝ).currProfit →
      SASolver.acceptanceProb Real.exp (scriptedState ℝ).currProfit 8
          (scriptedState ℝ).temperature
        = Real.exp (-((scriptedState ℝ).currProfit - 8) / (scriptedState ℝ).temperature) ∧
      ((0 : ℝ) ≤ Real.exp (-((scriptedState ℝ).currProfit - 8)
          / (scriptedState ℝ).temperature) →
        SASolver.attempt Real.exp (threeTaskInput ℝ) (scriptedState ℝ) = some
          { scriptedState ℝ with
            sequence := ⟨[1, 2, 0]⟩,
            gen := { taskNums := [0, 2], reals := [0], shuffles := [] },
            currProfit := 8,
            history := (scriptedState ℝ).history ++ [Event.accepted ⟨[1, 2, 0]⟩] }) ∧
      (Real.exp (-((scriptedState ℝ).currProfit - 8) / (scriptedState ℝ).temperature) < 0 →
        SASolver.attempt Real.exp (threeTaskInput ℝ) (scriptedState ℝ) = some
          { scriptedState ℝ with
            sequence := (Output.swapTasks ⟨[1, 2, 0]⟩ (toSizeT 0) (toSizeT 2)).2,
            gen := { taskNums := [0, 2], reals := [0], shuffles := [] } }))) :=
  ⟨scripted_perturb, by norm_num [scriptedState], le_refl _, by norm_num,
    attempt_acceptance_law (threeTaskInput ℝ) (scriptedState ℝ) 8 ⟨[1, 2, 0]⟩ 0 2
      { taskNums := [0, 2], reals := [0, 0], shuffles := [] } 0 [0] scripted_perturb rfl
      (by norm_num [scriptedState]) (le_refl _) (by norm_num)⟩

/-! ## Reverting a move -/

/-- C15 (reverting a move restores the candidate): for every schedule and every
pair of positions `i`, `j`, applying `Output::swapTasks(i, j)` twice yields the
original schedule. -/
theorem swapTasks_swapTasks_restores (o : Output) (i j : Nat) :
    ((o.swapTasks i j).2.swapTasks i j).2 = o :=
  swapTasks_twice o i j

/-! ## Validity check and trimming -/

theorem isValidForLoop_iff {F : Type} (input : Input F) (hd : PositiveDurations input) :
    ∀ (l : List Int) (time : Int), time ≤ 1440 → (∀ idx ∈ l, 0 ≤ idx) →
      (Output.isValidForLoop input l time = true ↔
        (∀ idx ∈ l, idx < input.size) ∧ time + totalDuration input l ≤ 1440)
  | [], time, ht, _ => by simp [Output.isValidForLoop, totalDuration, ht]
  | i :: rest, time, ht, hnn => by
    have hnn' : ∀ idx ∈ rest, 0 ≤ idx := fun idx h => hnn idx (List.mem_cons_of_mem i h)
    have htot : totalDuration input (i :: rest)
        = input.getDuration i + totalDuration input rest := by
      simp [totalDuration]
    by_cases hi : i ≥ input.size
    · simp only [Output.isValidForLoop, if_pos hi]
      constructor
      · intro h; exact absurd h (by simp)
      · intro h
        have := h.1 i (List.mem_cons_self i rest)
        omega
    · by_cases hfit : time + input.getDuration i > 1440
      · simp only [Output.isValidForLoop, if_neg hi, if_pos hfit]
        constructor
        · intro h; exact absurd h (by simp)
        · intro h
          have hrest := totalDuration_nonneg input hd rest
            (fun idx hidx => ⟨hnn' idx hidx, h.1 idx (List.mem_cons_of_mem i hidx)⟩)
          rw [htot] at h
          omega
      · simp only [Output.isValidForLoop, if_neg hi, if_neg hfit]
        rw [isValidForLoop_iff input hd rest (time + input.getDuration i) (by omega) hnn', htot]
        constructor
        · intro h
          refine ⟨?_, by omega⟩
          intro idx hidx
          rcases List.mem_cons.mp hidx with rfl | hidx
          · omega
          · exact h.1 idx hidx
        · intro h
          exact ⟨fun idx hidx => h.1 idx (List.mem_cons_of_mem i hidx), by omega⟩

/-- C19: for every instance with positive durations and every candidate with
non-negative indices, `Output::isValidFor` returns true if and only if every
index in the candidate is `< n` and the total duration of the tasks of the
(untrimmed) candidate is at most 1440. -/
theorem isValidFor_iff (input : Input ℝ) (o : Output) (hd : PositiveDurations input)
    (hnn : ∀ idx ∈ o.taskSchedule, 0 ≤ idx) :
    o.isValidFor input = true ↔
      (∀ idx ∈ o.taskSchedule, idx < input.size) ∧
        totalDuration input o.taskSchedule ≤ 1440 := by
  unfold Output.isValidFor
  rw [isValidForLoop_iff input hd o.taskSchedule 0 (by norm_num) hnn, zero_add]

theorem isValidForLoop_trimLoop {F : Type} (input : Input F) :
    ∀ (rest pre : List Int) (time : Int),
      (∀ l : List Int, Output.isValidForLoop input (pre ++ l) 0
        = Output.isValidForLoop input l time) →
      (Output.trimLoop input (pre ++ rest) rest pre.length time).1 = true →
      Output.isValidForLoop input
        (Output.trimLoop input (pre ++ rest) rest pre.length time).2.taskSchedule 0 = true
  | [], pre, time, hr, _ => by
    simp only [Output.trimLoop]
    rw [hr []]
    rfl
  | x :: rest, pre, time, hr, hflag => by
    by_cases hx : x ≥ input.size
    · simp [Output.trimLoop, hx] at hflag
    · by_cases hfit : time + input.getDuration x > 1440
      · simp only [Output.trimLoop, if_neg hx, if_pos hfit, List.take_left]
        have h0 := hr []
        rw [List.append_nil] at h0
        rw [h0]
        rfl
      · have hr' : ∀ l : List Int, Output.isValidForLoop input ((pre ++ [x]) ++ l) 0
            = Output.isValidForLoop input l (time + input.getDuration x) := by
          intro l
          rw [List.append_assoc, hr]
          show Output.isValidForLoop input (x :: l) time = _
          simp only [Output.isValidForLoop, if_neg hx, if_neg hfit]
        have ih := isValidForLoop_trimLoop input rest (pre ++ [x])
          (time + input.getDuration x) hr'
        simp only [Output.trimLoop, if_neg hx, if_neg hfit] at hflag ⊢
        simp only [List.append_assoc, List.singleton_append, List.length_append,
          List.length_singleton] at ih
        exact ih hflag

theorem trimLoop_of_isValidForLoop {F : Type} (input : Input F) (taskSchedule : List Int) :
    ∀ (rest : List Int) (i : Nat) (time : Int),
      Output.isValidForLoop input rest time = true →
      Output.trimLoop input taskSchedule rest i time = (true, ⟨taskSchedule⟩)
  | [], _, _, _ => rfl
  | x :: rest, i, time, h => by
    by_cases hx : x ≥ input.size
    · simp [Output.isValidForLoop, hx] at h
    · by_cases hfit : time + input.getDuration x > 1440
      · simp [Output.isValidForLoop, hx, hfit] at h
      · simp only [Output.isValidForLoop, if_neg hx, if_neg hfit] at h
        simp only [Output.trimLoop, if_neg hx, if_neg hfit]
        exact trimLoop_of_isValidForLoop input taskSchedule rest (i + 1) _ h

/-- C20 (trimming makes a schedule valid): for every instance and every schedule
with non-negative indices, if `Output::trim` returns true then
`Output::isValidFor` returns true on the trimmed schedule; and if `isValidFor`
was already true, `trim` returns true and leaves the schedule unchanged. -/
theorem trim_then_isValidFor (input : Input ℝ) (o : Output)
    (_hnn : ∀ idx ∈ o.taskSchedule, 0 ≤ idx) :
    ((o.trim input).1 = true → (o.trim input).2.isValidFor input = true) ∧
    (o.isValidFor input = true → (o.trim input).1 = true ∧ (o.trim input).2 = o) := by
  constructor
  · intro h
    have := isValidForLoop_trimLoop input o.taskSchedule [] 0 (fun _ => rfl)
    simp only [List.nil_append, List.length_nil] at this
    exact this h
  · intro h
    have := trimLoop_of_isValidForLoop input o.taskSchedule o.taskSchedule 0 0 h
    unfold Output.trim
    rw [this]
    exact ⟨rfl, rfl⟩

/-! ## Calibration without a drop -/

theorem scripted_flat_drops :
    specDrops (Output.evaluate Real.exp ⟨[0, 1, 2]⟩ (threeTaskInput ℝ))
      ((List.replicate 18 ((1 : Int), (2 : Int))).map
        (trialScore Real.exp (threeTaskInput ℝ) ⟨[0, 1, 2]⟩)) = [] := by
  have hs : (Output.swapTasks ⟨[0, 1, 2]⟩ (toSizeT 1) (toSizeT 2)).2 = ⟨[0, 2, 1]⟩ := by decide
  have ht : trialScore Real.exp (threeTaskInput ℝ) ⟨[0, 1, 2]⟩ (1, 2) = 4 := by
    simp only [trialScore, hs, threeTask_score_021]
  simp only [specDrops, List.map_replicate, ht, threeTask_score_012]
  norm_num [List.filter_replicate]

theorem scripted_no_drop :
    ∀ pair ∈ List.replicate 18 ((1 : Int), (2 : Int)),
      ¬ trialScore Real.exp (threeTaskInput ℝ) ⟨[0, 1, 2]⟩ pair
        < Output.evaluate Real.exp ⟨[0, 1, 2]⟩ (threeTaskInput ℝ) := by
  have hs : (Output.swapTasks ⟨[0, 1, 2]⟩ (toSizeT 1) (toSizeT 2)).2 = ⟨[0, 2, 1]⟩ := by decide
  intro pair hp
  rw [List.eq_of_mem_replicate hp]
  simp only [trialScore, hs, threeTask_score_021, threeTask_score_012]
  norm_num

/-- C11, as stated, fails.  On the three-task instance with seed candidate
`[0, 1, 2]` (score 1) every one of the eighteen trials exchanges positions 1 and
2 and scores 4, so no trial is a drop; `SASolver::getInitTemperature` still
returns a value to its caller, the quotient of `delta = 0` by `count = 0`
divided by `ln(1 / 0.8)`. -/
theorem getInitTemperature_returns_without_drop :
    (∀ pair ∈ List.replicate 18 ((1 : Int), (2 : Int)),
      ¬ trialScore Real.exp (threeTaskInput ℝ) ⟨[0, 1, 2]⟩ pair
        < Output.evaluate Real.exp ⟨[0, 1, 2]⟩ (threeTaskInput ℝ)) ∧
    SASolver.getInitTemperature Real.exp Real.log (threeTaskInput ℝ) ⟨[0, 1, 2]⟩
        (scriptedGen ℝ) 0.8
      = some ((0 : ℝ) / ((0 : Int) : ℝ) / Real.log (1 / 0.8), ⟨[0, 1, 2]⟩,
          { scriptedGen ℝ with taskNums := [0, 2, 0, 2] }) := by
  constructor
  · exact scripted_no_drop
  · rw [getInitTemperature_eq, scripted_pairs]
    simp only [scripted_flat_drops, specInitTemperature]
    simp

/-- C11, amended: `SASolver::getInitTemperature` has no failure path.  When the
random stream supplies the draws of the trials and no trial produces a score
strictly lower than the seed score, it returns a temperature value to its
caller as in every other case, with the candidate unchanged. -/
theorem getInitTemperature_no_failure (input : Input ℝ) (output : Output) (gen : Gen ℝ)
    (initAccRate : ℝ) (pairs : List (Int × Int)) (rest : List Int)
    (hdraw : drawPairs (2 * input.size * input.size).toNat gen.taskNums = some (pairs, rest))
    (_hflat : ∀ pair ∈ pairs,
      ¬ trialScore Real.exp input output pair < output.evaluate Real.exp input) :
    ∃ temperature : ℝ,
      SASolver.getInitTemperature Real.exp Real.log input output gen initAccRate
        = some (temperature, output, { gen with taskNums := rest }) := by
  rw [getInitTemperature_eq, hdraw]
  exact ⟨_, rfl⟩

/-! ## The empty instance -/

section EmptyInstance

variable {F : Type} [LinearOrderedField F]

end EmptyInstance

/-! ## The orchestrator -/

theorem mapM_map_some_of_forall {α γ β : Type} (c : α → γ) (f : γ → Option β) (g : α → β) :
    ∀ l : List α, (∀ x ∈ l, f (c x) = some (g x)) → (l.map c).mapM' f = some (l.map g)
  | [], _ => rfl
  | a :: l, h => by
    rw [List.map_cons, List.mapM'_cons, h a (List.mem_cons_self a l),
      mapM_map_some_of_forall c f g l (fun x hx => h x (List.mem_cons_of_mem a hx))]
    rfl

theorem mem_of_mapM_map_eq_some {α γ β : Type} (c : α → γ) (f : γ → Option β) :
    ∀ (l : List α) (ys : List β), (l.map c).mapM' f = some ys →
      ys.length = l.length ∧ ∀ y ∈ ys, ∃ x ∈ l, f (c x) = some y
  | [], ys, h => by
    simp only [List.map_nil, List.mapM'_nil] at h
    cases h
    exact ⟨rfl, by simp⟩
  | a :: l, ys, h => by
    rw [List.map_cons, List.mapM'_cons] at h
    cases hfa : f (c a) with
    | none => rw [hfa] at h; cases h
    | some b =>
      cases hl : (l.map c).mapM' f with
      | none => rw [hfa, hl] at h; cases h
      | some bs =>
        rw [hfa, hl] at h
        obtain ⟨hlen, hmem⟩ := mem_of_mapM_map_eq_some c f l bs hl
        cases h
        refine ⟨by simp [hlen], ?_⟩
        intro y hy
        rcases List.mem_cons.mp hy with rfl | hy
        · exact ⟨a, List.mem_cons_self a l, hfa⟩
        · obtain ⟨x, hx, hfx⟩ := hmem y hy
          exact ⟨x, List.mem_cons_of_mem a hx, hfx⟩

theorem threadIds_eq :
    ((List.range SASolver.NUM_THREADS : List Nat) : List Int)
      = (List.range SASolver.NUM_THREADS).map (fun tid : Nat => (tid : Int)) := by
  rfl

section Orchestrator

variable {F : Type} [LinearOrderedField F]

theorem solve_eq_of_threads [FloorRing F] (exp log : F → F) (input : Input F)
    (seedGen : Int → Gen F) (fuel : Nat) (seed : Int) (s : Settings F) (best : Nat → Output)
    (h : ∀ tid : Nat, tid < SASolver.NUM_THREADS → ∃ (gen' : Gen F) (history : List Event),
      SASolver.solveThread exp log input fuel (seedGen (seed + (tid : Int))) s
        = some (best tid, gen', history)) :
    SASolver.solve exp log input seedGen fuel seed s
      = some (SASolver.bestSequence exp input ((List.range SASolver.NUM_THREADS).map best)) := by
  unfold SASolver.solve
  rw [threadIds_eq, ← List.mapM'_eq_mapM, mapM_map_some_of_forall _ _ best]
  intro tid htid
  obtain ⟨gen', history, hrun⟩ := h tid (List.mem_range.mp htid)
  rw [hrun]
  rfl

theorem threads_of_solve_eq [FloorRing F] (exp log : F → F) (input : Input F)
    (seedGen : Int → Gen F) (fuel : Nat) (seed : Int) (s : Settings F) (out : Output)
    (h : SASolver.solve exp log input seedGen fuel seed s = some out) :
    ∃ bestSequences : List Output,
      bestSequences.length = SASolver.NUM_THREADS ∧
      out = SASolver.bestSequence exp input bestSequences ∧
      ∀ o ∈ bestSequences, ∃ (tid : Nat) (gen' : Gen F) (history : List Event),
        tid < SASolver.NUM_THREADS ∧
        SASolver.solveThread exp log input fuel (seedGen (seed + (tid : Int))) s
          = some (o, gen', history) := by
  unfold SASolver.solve at h
  rw [threadIds_eq, ← List.mapM'_eq_mapM] at h
  split at h
  · cases h
  · rename_i bestSequences hm
    simp only [Option.some.injEq] at h
    obtain ⟨hlen, hmem⟩ := mem_of_mapM_map_eq_some _ _ _ _ hm
    refine ⟨bestSequences, by simpa using hlen, h.symm, ?_⟩
    intro o ho
    obtain ⟨tid, htid, hrun⟩ := hmem o ho
    cases hr : SASolver.solveThread exp log input fuel (seedGen (seed + (tid : Int))) s with
    | none => rw [hr] at hrun; cases hrun
    | some r =>
      obtain ⟨o', gen', history⟩ := r
      rw [hr] at hrun
      simp only [Option.map_some', Option.some.injEq] at hrun
      subst hrun
      exact ⟨tid, gen', history, List.mem_range.mp htid, hr⟩

theorem bestSequenceLoop_const (exp : F → F) (input : Input F) (o : Output) :
    ∀ (l : List Output) (maxProfit : F), (∀ x ∈ l, x = o) →
      SASolver.bestSequenceLoop exp input l maxProfit o = o
  | [], _, _ => rfl
  | x :: l, maxProfit, h => by
    have hx : x = o := h x (List.mem_cons_self x l)
    subst hx
    simp only [SASolver.bestSequenceLoop]
    split
    · exact bestSequenceLoop_const exp input x l _ (fun y hy => h y (List.mem_cons_of_mem x hy))
    · exact bestSequenceLoop_const exp input x l _ (fun y hy => h y (List.mem_cons_of_mem x hy))

end Orchestrator

theorem drawIndex2_spec (index1 : Int) :
    ∀ (draws : List Int) (index2 : Int) (rest : List Int),
      SASolver.drawIndex2 index1 draws = some (index2, rest) →
      index2 ∈ draws ∧ index2 ≠ index1
  | [], _, _, h => by simp [SASolver.drawIndex2] at h
  | x :: draws, index2, rest, h => by
    simp only [SASolver.drawIndex2] at h
    split at h
    · obtain ⟨hm, hne⟩ := drawIndex2_spec index1 draws index2 rest h
      exact ⟨List.mem_cons_of_mem x hm, hne⟩
    · rename_i hx
      simp only [Option.some.injEq, Prod.mk.injEq] at h
      rw [← h.1]
      exact ⟨List.mem_cons_self x draws, hx⟩

theorem toSizeT_of_nonneg (i : Int) (h0 : 0 ≤ i) (h1 : i < 2 ^ 64) : toSizeT i = i.toNat := by
  unfold toSizeT
  rw [Int.emod_eq_of_lt h0 h1]

theorem swapTasks_length (o : Output) (i j : Nat) :
    (o.swapTasks i j).2.taskSchedule.length = o.taskSchedule.length := by
  unfold Output.swapTasks
  split <;> simp

theorem swapTasks_getElem? (o : Output) (i j : Nat) (hi : i < o.taskSchedule.length)
    (hj : j < o.taskSchedule.length) (k : Nat) :
    (o.swapTasks i j).2.taskSchedule[k]?
      = if k = j then o.taskSchedule[i]? else if k = i then o.taskSchedule[j]?
        else o.taskSchedule[k]? := by
  have h : ¬ (i ≥ o.taskSchedule.length ∨ j ≥ o.taskSchedule.length) := by omega
  simp only [Output.swapTasks, if_neg h, List.getElem?_set, List.length_set,
    List.getD_eq_getElem?_getD]
  by_cases hkj : k = j
  · subst hkj
    simp [hj, hi]
  · by_cases hki : k = i
    · subst hki
      simp [hkj, Ne.symm hkj, hi, hj]
    · simp [hkj, hki, Ne.symm hkj, Ne.symm hki]

/-- C14 (neighbor generator): for every instance with `n ≥ 2` and every candidate
of length `n`, whenever `SASolver::perturb` returns, the two reported positions
satisfy `0 ≤ index1, index2 < n` and `index1 ≠ index2`, the candidate differs
from its previous value exactly by the exchange of the entries at those two
positions, and the returned value is `Output::evaluate` of the exchanged
candidate. -/
theorem perturb_exchanges_two_positions (input : Input ℝ) (currOutput : Output)
    (gen : Gen ℝ) (_hn : 2 ≤ input.size) (hint : input.size ≤ 2 ^ 31 - 1)
    (hlen : (currOutput.taskSchedule.length : Int) = input.size)
    (hrange : TaskNumsInRange input gen)
    (newProfit : ℝ) (output' : Output) (index1 index2 : Int) (gen' : Gen ℝ)
    (h : SASolver.perturb Real.exp input currOutput gen
      = some (newProfit, output', index1, index2, gen')) :
    (0 ≤ index1 ∧ index1 < input.size) ∧ (0 ≤ index2 ∧ index2 < input.size) ∧
    index1 ≠ index2 ∧
    output'.taskSchedule.length = currOutput.taskSchedule.length ∧
    output'.taskSchedule[index1.toNat]? = currOutput.taskSchedule[index2.toNat]? ∧
    output'.taskSchedule[index2.toNat]? = currOutput.taskSchedule[index1.toNat]? ∧
    (∀ k : Nat, k ≠ index1.toNat → k ≠ index2.toNat →
      output'.taskSchedule[k]? = currOutput.taskSchedule[k]?) ∧
    newProfit = output'.evaluate Real.exp input := by
  unfold SASolver.perturb at h
  cases hg : gen.taskNums with
  | nil => simp [hg] at h
  | cons i1 rest =>
    cases hd : SASolver.drawIndex2 i1 rest with
    | none => simp [hg, hd] at h
    | some r =>
      obtain ⟨i2, rest'⟩ := r
      simp only [hg, hd, Option.some.injEq, Prod.mk.injEq] at h
      obtain ⟨hp, ho, h1, h2, _⟩ := h
      subst h1 h2
      obtain ⟨hmem, hne⟩ := drawIndex2_spec i1 rest i2 rest' hd
      have hr1 := hrange i1 (by rw [hg]; exact List.mem_cons_self i1 rest)
      have hr2 := hrange i2 (by rw [hg]; exact List.mem_cons_of_mem i1 hmem)
      have ht1 : toSizeT i1 = i1.toNat := toSizeT_of_nonneg i1 hr1.1 (by omega)
      have ht2 : toSizeT i2 = i2.toNat := toSizeT_of_nonneg i2 hr2.1 (by omega)
      have hlt1 : i1.toNat < currOutput.taskSchedule.length := by omega
      have hlt2 : i2.toNat < currOutput.taskSchedule.length := by omega
      have hne' : i1.toNat ≠ i2.toNat := by omega
      rw [ht1, ht2] at ho hp
      subst ho
      refine ⟨⟨hr1.1, by omega⟩, ⟨hr2.1, by omega⟩, Ne.symm hne, swapTasks_length _ _ _,
        ?_, ?_, ?_, hp.symm⟩
      · rw [swapTasks_getElem? currOutput _ _ hlt1 hlt2, if_neg hne', if_pos rfl]
      · rw [swapTasks_getElem? currOutput _ _ hlt1 hlt2, if_pos rfl]
      · intro k hk1 hk2
        rw [swapTasks_getElem? currOutput _ _ hlt1 hlt2, if_neg hk2, if_neg hk1]

/-! ## Annealing runs on the three-task instance -/

theorem scripted_pairs_append (tn : List Int) :
    drawPairs (2 * (threeTaskInput ℝ).size * (threeTaskInput ℝ).size).toNat
      ((scriptedGen ℝ).taskNums ++ tn)
      = some (List.replicate 18 (1, 2), 0 :: 2 :: 0 :: 2 :: tn) := by
  rfl

theorem scripted_attempts_append (t : ℝ) (rc ep : Int) (tn : List Int) (rl : List ℝ)
    (sh : List Nat) (history : List Event) :
    SASolver.attempts Real.exp (threeTaskInput ℝ) 2
        { sequence := ⟨[0, 2, 1]⟩,
          gen := { taskNums := 0 :: 2 :: 0 :: 2 :: tn, reals := 0 :: 0 :: rl, shuffles := sh },
          currProfit := 4, temperature := t, lastEpochProfit := 4, rejectionCount := rc,
          epoch := ep, history := history }
      = some
        { sequence := ⟨[0, 2, 1]⟩,
          gen := { taskNums := tn, reals := rl, shuffles := sh },
          currProfit := 4, temperature := t, lastEpochProfit := 4, rejectionCount := rc,
          epoch := ep,
          history := history ++ [Event.accepted ⟨[1, 2, 0]⟩, Event.accepted ⟨[0, 2, 1]⟩] } := by
  have hs1 : (Output.swapTasks ⟨[0, 2, 1]⟩ (toSizeT 0) (toSizeT 2)).2 = ⟨[1, 2, 0]⟩ := by decide
  have hs2 : (Output.swapTasks ⟨[1, 2, 0]⟩ (toSizeT 0) (toSizeT 2)).2 = ⟨[0, 2, 1]⟩ := by decide
  have a1 := attempt_of_zero_draw (threeTaskInput ℝ)
    { sequence := ⟨[0, 2, 1]⟩,
      gen := { taskNums := 0 :: 2 :: 0 :: 2 :: tn, reals := 0 :: 0 :: rl, shuffles := sh },
      currProfit := 4, temperature := t, lastEpochProfit := 4, rejectionCount := rc,
      epoch := ep, history := history } _ _ 0 2 _ (0 :: rl)
    (perturb_of_distinct (threeTaskInput ℝ) _ _ 0 2 (0 :: 2 :: tn) rfl (by decide)) rfl
  have a2 := attempt_of_zero_draw (threeTaskInput ℝ)
    { sequence := ⟨[1, 2, 0]⟩,
      gen := { taskNums := 0 :: 2 :: tn, reals := 0 :: rl, shuffles := sh },
      currProfit := 8, temperature := t, lastEpochProfit := 4, rejectionCount := rc,
      epoch := ep, history := history ++ [Event.accepted ⟨[1, 2, 0]⟩] } _ _ 0 2 _ rl
    (perturb_of_distinct (threeTaskInput ℝ) _ _ 0 2 tn rfl (by decide)) rfl
  simp only [hs1, hs2, threeTask_score_120, threeTask_score_021, List.append_assoc,
    List.singleton_append] at a1 a2
  simp only [SASolver.attempts, a1, a2]

theorem scripted_solveInstance (s : Settings ℝ) (hrej : s.maxRejections = 1)
    (heps : s.epochSizeFactor = 2 / 9) (fuel : Nat) (tn : List Int) (rl : List ℝ)
    (sh : List Nat) (history : List Event) :
    SASolver.solveInstance Real.exp Real.log (threeTaskInput ℝ) (fuel + 1) ⟨[0, 2, 1]⟩
        { taskNums := (scriptedGen ℝ).taskNums ++ tn, reals := 0 :: 0 :: rl, shuffles := sh }
        s history
      = some (⟨[0, 2, 1]⟩, { taskNums := tn, reals := rl, shuffles := sh },
          history ++ [Event.accepted ⟨[1, 2, 0]⟩, Event.accepted ⟨[0, 2, 1]⟩,
            Event.runEnd ⟨[0, 2, 1]⟩]) := by
  have hL : SASolver.truncToInt (s.epochSizeFactor * ((threeTaskInput ℝ).size : ℝ)
      * ((threeTaskInput ℝ).size : ℝ)) = 2 := by
    have h : s.epochSizeFactor * ((threeTaskInput ℝ).size : ℝ)
        * ((threeTaskInput ℝ).size : ℝ) = ((2 : Int) : ℝ) := by
      rw [heps]
      simp only [threeTaskInput, Input.size]
      norm_num
    rw [h, truncToInt_intCast]
  have h2 : ((2 : Int)).toNat = 2 := rfl
  have hthresh : (4 : ℝ) - 4 < SASolver.PROFIT_GAIN_THRESH := by
    norm_num [SASolver.PROFIT_GAIN_THRESH]
  simp only [SASolver.solveInstance, getInitTemperature_eq, scripted_pairs_append, hL,
    threeTask_score_021]
  cases fuel with
  | zero =>
    simp only [SASolver.coolLoop, SASolver.epochStep, hrej, h2, scripted_attempts_append,
      hthresh]
    norm_num
  | succ fuel =>
    simp only [SASolver.coolLoop, SASolver.epochStep, hrej, h2, scripted_attempts_append,
      hthresh]
    norm_num

theorem scripted_solveThread (s : Settings ℝ) (hres : s.maxRestarts = 0)
    (hrej : s.maxRejections = 1) (heps : s.epochSizeFactor = 2 / 9) (fuel : Nat) :
    SASolver.solveThread Real.exp Real.log (threeTaskInput ℝ) (fuel + 1) (scriptedGen ℝ) s
      = some (⟨[0, 2, 1]⟩, { taskNums := [], reals := [], shuffles := [] },
          [Event.accepted ⟨[1, 2, 0]⟩, Event.accepted ⟨[0, 2, 1]⟩,
            Event.runEnd ⟨[0, 2, 1]⟩]) := by
  have hgen : ({ scriptedGen ℝ with shuffles := [] } : Gen ℝ)
      = { taskNums := (scriptedGen ℝ).taskNums ++ [], reals := 0 :: 0 :: [],
          shuffles := [] } := rfl
  have hk : (s.maxRestarts + 1).toNat = 1 := by rw [hres]; rfl
  simp only [SASolver.solveThread, scripted_initial, hk, SASolver.restartLoop, hgen,
    scripted_solveInstance s hrej heps fuel [] [] [] [], threeTask_score_021, List.nil_append]
  norm_num

theorem bestSequence_eight_021 :
    SASolver.bestSequence Real.exp (threeTaskInput ℝ)
      ((List.range SASolver.NUM_THREADS).map (fun _ => (⟨[0, 2, 1]⟩ : Output)))
      = ⟨[0, 2, 1]⟩ := by
  have hl : (List.range SASolver.NUM_THREADS).map (fun _ => (⟨[0, 2, 1]⟩ : Output))
      = ⟨[0, 2, 1]⟩ :: List.replicate 7 ⟨[0, 2, 1]⟩ := rfl
  have hgt : Output.evaluate Real.exp ⟨[0, 2, 1]⟩ (threeTaskInput ℝ) > -1 := by
    rw [threeTask_score_021]; norm_num
  rw [hl, SASolver.bestSequence, SASolver.bestSequenceLoop]
  simp only [if_pos hgt]
  exact bestSequenceLoop_const Real.exp (threeTaskInput ℝ) ⟨[0, 2, 1]⟩ _ _
    (fun x hx => List.eq_of_mem_replicate hx)

/-! ## Settings are not checked -/

/-- C12, as stated, fails.  With `alpha = 2`, outside `(0, 1)`, every stream of
`SASolver::solve` anneals (each keeps two moves) and `solve` returns the
candidate `[0, 2, 1]`; no error is reported. -/
theorem solve_accepts_alpha_two :
    ¬ ((0 : ℝ) < (alphaTwoSettings ℝ).alpha ∧ (alphaTwoSettings ℝ).alpha < 1) ∧
    SASolver.solveThread Real.exp Real.log (threeTaskInput ℝ) 1 (scriptedGen ℝ)
        (alphaTwoSettings ℝ)
      = some (⟨[0, 2, 1]⟩, { taskNums := [], reals := [], shuffles := [] },
          [Event.accepted ⟨[1, 2, 0]⟩, Event.accepted ⟨[0, 2, 1]⟩,
            Event.runEnd ⟨[0, 2, 1]⟩]) ∧
    SASolver.solve Real.exp Real.log (threeTaskInput ℝ) (fun _ => scriptedGen ℝ) 1 0
        (alphaTwoSettings ℝ)
      = some ⟨[0, 2, 1]⟩ := by
  refine ⟨?_, scripted_solveThread (alphaTwoSettings ℝ) rfl rfl rfl 0, ?_⟩
  · norm_num [alphaTwoSettings]
  · rw [solve_eq_of_threads Real.exp Real.log (threeTaskInput ℝ) (fun _ => scriptedGen ℝ) 1 0
      (alphaTwoSettings ℝ) (fun _ => ⟨[0, 2, 1]⟩)
      (fun _ _ => ⟨_, _, scripted_solveThread (alphaTwoSettings ℝ) rfl rfl rfl 0⟩),
      bestSequence_eight_021]

/-- C12, amended: `SASolver::solve` does not check its settings.  For every
`Settings`, in range or not, it runs the `NUM_THREADS` streams with the settings
as given and, when each of them returns, returns the best of their candidates
as selected by `SASolver::bestSequence`; no error is reported. -/
theorem solve_runs_with_any_settings (input : Input ℝ) (seedGen : Int → Gen ℝ)
    (fuel : Nat) (seed : Int) (s : Settings ℝ) (best : Nat → Output)
    (h : ∀ tid : Nat, tid < SASolver.NUM_THREADS → ∃ (gen' : Gen ℝ) (history : List Event),
      SASolver.solveThread Real.exp Real.log input fuel (seedGen (seed + (tid : Int))) s
        = some (best tid, gen', history)) :
    SASolver.solve Real.exp Real.log input seedGen fuel seed s
      = some (SASolver.bestSequence Real.exp input
          ((List.range SASolver.NUM_THREADS).map best)) :=
  solve_eq_of_threads Real.exp Real.log input seedGen fuel seed s best h

/-! ## Restarts -/

section Restarts

variable {F : Type} [LinearOrderedField F] [FloorRing F]

theorem restartLoop_succ (exp log : F → F) (input : Input F) (fuel : Nat) (s : Settings F)
    (k : Nat) (currSequence bestSequence : Output) (maxProfit : F) (gen : Gen F)
    (history : List Event) (curr₁ : Output) (gen₁ : Gen F) (history₁ : List Event)
    (hrun : SASolver.solveInstance exp log input fuel currSequence gen s history
      = some (curr₁, gen₁, history₁)) :
    SASolver.restartLoop exp log input fuel s (k + 1) currSequence bestSequence maxProfit gen
        history
      = SASolver.restartLoop exp log input fuel s k curr₁
          (if curr₁.evaluate exp input > maxProfit then curr₁ else bestSequence)
          (if curr₁.evaluate exp input > maxProfit then curr₁.evaluate exp input
            else maxProfit)
          gen₁ history₁ := by
  simp only [SASolver.restartLoop, hrun]
  split
  · rfl
  · rfl

end Restarts

theorem restart_initial :
    SASolver.generateRandomSequence (threeTaskInput ℝ) (restartGen ℝ)
      = some (⟨[0, 2, 1]⟩,
          { taskNums := (scriptedGen ℝ).taskNums ++ (scriptedGen ℝ).taskNums,
            reals := 0 :: 0 :: [0, 0], shuffles := [0, 0] }) := by
  rfl

theorem restart_fresh :
    SASolver.generateRandomSequence (threeTaskInput ℝ)
        { taskNums := (scriptedGen ℝ).taskNums, reals := [0, 0], shuffles := [0, 0] }
      = some (⟨[2, 0, 1]⟩,
          { taskNums := (scriptedGen ℝ).taskNums, reals := [0, 0], shuffles := [] }) := by
  rfl

theorem restart_run :
    SASolver.solveThread Real.exp Real.log (threeTaskInput ℝ) 1 (restartGen ℝ)
        (restartSettings ℝ)
      = some (⟨[0, 2, 1]⟩, { taskNums := [], reals := [], shuffles := [0, 0] },
          [Event.accepted ⟨[1, 2, 0]⟩, Event.accepted ⟨[0, 2, 1]⟩, Event.runEnd ⟨[0, 2, 1]⟩,
            Event.accepted ⟨[1, 2, 0]⟩, Event.accepted ⟨[0, 2, 1]⟩,
            Event.runEnd ⟨[0, 2, 1]⟩]) := by
  have hk : ((restartSettings ℝ).maxRestarts + 1).toNat = 2 := rfl
  have hgen : ({ taskNums := (scriptedGen ℝ).taskNums, reals := [0, 0],
                 shuffles := [0, 0] } : Gen ℝ)
      = { taskNums := (scriptedGen ℝ).taskNums ++ [], reals := 0 :: 0 :: [],
          shuffles := [0, 0] } := rfl
  simp only [SASolver.solveThread, restart_initial, hk, SASolver.restartLoop,
    scripted_solveInstance (restartSettings ℝ) rfl rfl 0 (scriptedGen ℝ).taskNums [0, 0]
      [0, 0] [], threeTask_score_021, List.nil_append, gt_iff_lt, lt_self_iff_false,
    if_false, hgen,
    scripted_solveInstance (restartSettings ℝ) rfl rfl 0 [] [] [0, 0]
      [Event.accepted ⟨[1, 2, 0]⟩, Event.accepted ⟨[0, 2, 1]⟩, Event.runEnd ⟨[0, 2, 1]⟩],
    List.cons_append]

/-- C16, as stated, fails.  With one restart on the three-task instance, the
first annealing run starts from `[0, 2, 1]` and leaves `[0, 2, 1]`; a fresh
permutation generated at that point would be `[2, 0, 1]`; the restart iteration
anneals from `[0, 2, 1]` (its first kept move, an exchange of positions 0 and
2, gives `[1, 2, 0]`), and the two shuffle positions are still unused when the
stream ends. -/
theorem restart_reuses_previous_candidate :
    SASolver.solveInstance Real.exp Real.log (threeTaskInput ℝ) 1 ⟨[0, 2, 1]⟩
        { taskNums := (scriptedGen ℝ).taskNums ++ (scriptedGen ℝ).taskNums,
          reals := 0 :: 0 :: [0, 0], shuffles := [0, 0] } (restartSettings ℝ) []
      = some (⟨[0, 2, 1]⟩,
          { taskNums := (scriptedGen ℝ).taskNums, reals := [0, 0], shuffles := [0, 0] },
          [] ++ [Event.accepted ⟨[1, 2, 0]⟩, Event.accepted ⟨[0, 2, 1]⟩,
            Event.runEnd ⟨[0, 2, 1]⟩]) ∧
    SASolver.generateRandomSequence (threeTaskInput ℝ)
        { taskNums := (scriptedGen ℝ).taskNums, reals := [0, 0], shuffles := [0, 0] }
      = some (⟨[2, 0, 1]⟩,
          { taskNums := (scriptedGen ℝ).taskNums, reals := [0, 0], shuffles := [] }) ∧
    (⟨[2, 0, 1]⟩ : Output) ≠ ⟨[0, 2, 1]⟩ ∧
    SASolver.solveThread Real.exp Real.log (threeTaskInput ℝ) 1 (restartGen ℝ)
        (restartSettings ℝ)
      = some (⟨[0, 2, 1]⟩, { taskNums := [], reals := [], shuffles := [0, 0] },
          [Event.accepted ⟨[1, 2, 0]⟩, Event.accepted ⟨[0, 2, 1]⟩, Event.runEnd ⟨[0, 2, 1]⟩,
            Event.accepted ⟨[1, 2, 0]⟩, Event.accepted ⟨[0, 2, 1]⟩,
            Event.runEnd ⟨[0, 2, 1]⟩]) :=
  ⟨scripted_solveInstance (restartSettings ℝ) rfl rfl 0 (scriptedGen ℝ).taskNums [0, 0]
      [0, 0] [],
    restart_fresh, by decide, restart_run⟩

/-- C16, amended: for every `k ≥ 1`, the `k`-th restart iteration of
`SASolver::solveThread` begins its annealing run, with a fresh temperature
calibration, from the candidate left by the previous annealing run and with
the generator as that run left it; no new random permutation is generated. -/
theorem restart_continues_previous_run (input : Input ℝ) (fuel : Nat) (s : Settings ℝ)
    (k : Nat) (currSequence bestSequence : Output) (maxProfit : ℝ) (gen : Gen ℝ)
    (history : List Event) (curr₁ : Output) (gen₁ : Gen ℝ) (history₁ : List Event)
    (hrun : SASolver.solveInstance Real.exp Real.log input fuel currSequence gen s history
      = some (curr₁, gen₁, history₁)) :
    ∃ (best₁ : Output) (max₁ : ℝ),
      SASolver.restartLoop Real.exp Real.log input fuel s (k + 2) currSequence bestSequence
          maxProfit gen history
        = match SASolver.solveInstance Real.exp Real.log input fuel curr₁ gen₁ s history₁ with
          | none => none
          | some (curr₂, gen₂, history₂) =>
            if curr₂.evaluate Real.exp input > max₁ then
              SASolver.restartLoop Real.exp Real.log input fuel s k curr₂ curr₂
                (curr₂.evaluate Real.exp input) gen₂ history₂
            else
              SASolver.restartLoop Real.exp Real.log input fuel s k curr₂ best₁ max₁ gen₂
                history₂ := by
  refine ⟨if curr₁.evaluate Real.exp input > maxProfit then curr₁ else bestSequence,
    if curr₁.evaluate Real.exp input > maxProfit then curr₁.evaluate Real.exp input
      else maxProfit, ?_⟩
  rw [restartLoop_succ Real.exp Real.log input fuel s (k + 1) currSequence bestSequence
    maxProfit gen history curr₁ gen₁ history₁ hrun]
  simp only [SASolver.restartLoop]
  cases SASolver.solveInstance Real.exp Real.log input fuel curr₁ gen₁ s history₁ with
  | none => rfl
  | some r => rfl

/-- C17 (monotone improvement per stream): in `SASolver::solveThread` the
recorded best score never decreases from one restart iteration to the next and
the recorded best candidate keeps evaluating to the recorded best score; the
loop is entered with the initial random candidate recorded as best with its
score, and the stream's final output scores at least as high as that initial
candidate. -/
theorem solveThread_best_is_monotone (input : Input ℝ) (fuel : Nat) (s : Settings ℝ)
    (k : Nat) (currSequence bestSequence : Output) (maxProfit : ℝ) (gen : Gen ℝ)
    (history : List Event) (curr₁ : Output) (gen₁ : Gen ℝ) (history₁ : List Event)
    (hinv : maxProfit = bestSequence.evaluate Real.exp input)
    (hrun : SASolver.solveInstance Real.exp Real.log input fuel currSequence gen s history
      = some (curr₁, gen₁, history₁)) :
    (∃ (best₁ : Output) (max₁ : ℝ),
      SASolver.restartLoop Real.exp Real.log input fuel s (k + 1) currSequence bestSequence
          maxProfit gen history
        = SASolver.restartLoop Real.exp Real.log input fuel s k curr₁ best₁ max₁ gen₁
            history₁ ∧
      maxProfit ≤ max₁ ∧ max₁ = best₁.evaluate Real.exp input) ∧
    (∀ (gen₀ : Gen ℝ) (initial : Output) (gen₀' : Gen ℝ),
      SASolver.generateRandomSequence input gen₀ = some (initial, gen₀') →
      SASolver.solveThread Real.exp Real.log input fuel gen₀ s
        = SASolver.restartLoop Real.exp Real.log input fuel s (s.maxRestarts + 1).toNat
            initial initial (initial.evaluate Real.exp input) gen₀' [] ∧
      ∀ (out : Output) (gen' : Gen ℝ) (history' : List Event),
        SASolver.solveThread Real.exp Real.log input fuel gen₀ s
          = some (out, gen', history') →
        initial.evaluate Real.exp input ≤ out.evaluate Real.exp input) := by
  constructor
  · refine ⟨_, _, restartLoop_succ Real.exp Real.log input fuel s k currSequence bestSequence
      maxProfit gen history curr₁ gen₁ history₁ hrun, ?_, ?_⟩
    · split
      · rename_i hgt; exact hgt.le
      · exact le_refl _
    · split
      · rfl
      · exact hinv
  · intro gen₀ initial gen₀' hg
    have hst : SASolver.solveThread Real.exp Real.log input fuel gen₀ s
        = SASolver.restartLoop Real.exp Real.log input fuel s (s.maxRestarts + 1).toNat
            initial initial (initial.evaluate Real.exp input) gen₀' [] := by
      simp only [SASolver.solveThread, hg]
    refine ⟨hst, ?_⟩
    intro out gen' history' hout
    rw [hst] at hout
    exact (restartLoop_spec Real.exp Real.log input fuel s _ initial initial
      (initial.evaluate Real.exp input) gen₀' [] out gen' history' rfl (by simp) hout).1

/-! ## Candidates are permutations of the task indices -/

theorem getD_cons_set_perm (a : Int) :
    ∀ (t : List Int) (j : Nat), j < t.length → (t.getD j 0 :: t.set j a).Perm (a :: t)
  | [], _, h => by simp at h
  | b :: t, 0, _ => by
    simp only [List.getD_cons_zero, List.set_cons_zero]
    exact List.Perm.swap a b t
  | b :: t, j + 1, h => by
    have hj : j < t.length := by simpa using h
    simp only [List.getD_cons_succ, List.set_cons_succ]
    exact (List.Perm.swap b (t.getD j 0) (t.set j a)).trans
      (((getD_cons_set_perm a t j hj).cons b).trans (List.Perm.swap a b t))

theorem set_set_perm :
    ∀ (l : List Int) (i j : Nat), i < l.length → j < l.length →
      ((l.set i (l.getD j 0)).set j (l.getD i 0)).Perm l
  | [], _, _, h, _ => by simp at h
  | a :: t, 0, 0, _, _ => by simp
  | a :: t, 0, j + 1, _, hj => by
    have hj' : j < t.length := by simpa using hj
    simp only [List.set_cons_zero, List.getD_cons_succ, List.getD_cons_zero,
      List.set_cons_succ]
    exact getD_cons_set_perm a t j hj'
  | a :: t, i + 1, 0, hi, _ => by
    have hi' : i < t.length := by simpa using hi
    simp only [List.set_cons_zero, List.getD_cons_succ, List.getD_cons_zero,
      List.set_cons_succ]
    exact getD_cons_set_perm a t i hi'
  | a :: t, i + 1, j + 1, hi, hj => by
    have hi' : i < t.length := by simpa using hi
    have hj' : j < t.length := by simpa using hj
    simp only [List.getD_cons_succ, List.set_cons_succ]
    exact (set_set_perm t i j hi' hj').cons a

theorem swapTasks_perm (o : Output) (i j : Nat) :
    (o.swapTasks i j).2.taskSchedule.Perm o.taskSchedule := by
  by_cases h : i ≥ o.taskSchedule.length ∨ j ≥ o.taskSchedule.length
  · simp only [Output.swapTasks, if_pos h]
    exact List.Perm.refl _
  · simp only [Output.swapTasks, if_neg h]
    exact set_set_perm o.taskSchedule i j (by omega) (by omega)

theorem shuffleLoop_perm :
    ∀ (is : List Nat) (o : Output) (draws : List Nat) (o' : Output) (draws' : List Nat),
      shuffleLoop is o draws = some (o', draws') → o'.taskSchedule.Perm o.taskSchedule
  | [], o, draws, o', draws', h => by
    simp only [shuffleLoop, Option.some.injEq, Prod.mk.injEq] at h
    rw [← h.1]
  | _ :: _, _, [], _, _, h => by simp [shuffleLoop] at h
  | i :: is, o, d :: draws, o', draws', h => by
    simp only [shuffleLoop] at h
    exact (shuffleLoop_perm is _ draws o' draws' h).trans (swapTasks_perm o i (d % (i + 1)))

section Permutations

variable {F : Type} [LinearOrderedField F]

theorem generateRandomSequence_perm [FloorRing F] (input : Input F) (gen : Gen F) (o : Output)
    (gen' : Gen F) (h : SASolver.generateRandomSequence input gen = some (o, gen')) :
    IsPermutationOfTasks input o := by
  unfold SASolver.generateRandomSequence shuffle at h
  split at h
  · cases h
  · rename_i o₁ draws hs
    simp only [Option.some.injEq, Prod.mk.injEq] at h
    rw [← h.1]
    exact shuffleLoop_perm _ _ _ _ _ hs

theorem perturb_perm (exp : F → F) (input : Input F) (o : Output) (gen : Gen F)
    (newProfit : F) (o' : Output) (index1 index2 : Int) (gen' : Gen F)
    (h : SASolver.perturb exp input o gen = some (newProfit, o', index1, index2, gen')) :
    o'.taskSchedule.Perm o.taskSchedule := by
  unfold SASolver.perturb at h
  cases hg : gen.taskNums with
  | nil => simp [hg] at h
  | cons i1 rest =>
    cases hd : SASolver.drawIndex2 i1 rest with
    | none => simp [hg, hd] at h
    | some r =>
      obtain ⟨i2, rest'⟩ := r
      simp only [hg, hd, Option.some.injEq, Prod.mk.injEq] at h
      rw [← h.2.1]
      exact swapTasks_perm o _ _

theorem attempt_perm (exp : F → F) (input : Input F) (st st' : CoolState F)
    (h : SASolver.attempt exp input st = some st') :
    st'.sequence.taskSchedule.Perm st.sequence.taskSchedule := by
  unfold SASolver.attempt at h
  cases hp : SASolver.perturb exp input st.sequence st.gen with
  | none => simp [hp] at h
  | some r =>
    obtain ⟨newProfit, sequence, index1, index2, gen⟩ := r
    have hperm := perturb_perm exp input _ _ _ _ _ _ _ hp
    cases hr : gen.reals with
    | nil => simp [hp, hr] at h
    | cons u reals =>
      simp only [hp, hr] at h
      split at h
      · simp only [Option.some.injEq] at h
        rw [← h]
        exact (swapTasks_perm sequence _ _).trans hperm
      · simp only [Option.some.injEq] at h
        rw [← h]
        exact hperm

theorem attempts_perm (exp : F → F) (input : Input F) :
    ∀ (k : Nat) (st st' : CoolState F), SASolver.attempts exp input k st = some st' →
      st'.sequence.taskSchedule.Perm st.sequence.taskSchedule
  | 0, st, st', h => by
    simp only [SASolver.attempts, Option.some.injEq] at h
    rw [h]
  | k + 1, st, st', h => by
    simp only [SASolver.attempts] at h
    cases ha : SASolver.attempt exp input st with
    | none => simp [ha] at h
    | some st1 =>
      simp only [ha] at h
      exact (attempts_perm exp input k st1 st' h).trans (attempt_perm exp input st st1 ha)

theorem epochStep_perm (exp : F → F) (input : Input F) (s : Settings F) (L : Int)
    (st st' : CoolState F) (h : SASolver.epochStep exp input s L st = some st') :
    st'.sequence.taskSchedule.Perm st.sequence.taskSchedule := by
  unfold SASolver.epochStep at h
  cases ha : SASolver.attempts exp input L.toNat st with
  | none => simp [ha] at h
  | some st1 =>
    simp only [ha, Option.some.injEq] at h
    rw [← h]
    exact attempts_perm exp input L.toNat st st1 ha

theorem coolLoop_perm (exp : F → F) (input : Input F) (s : Settings F) (L : Int) :
    ∀ (fuel : Nat) (st st' : CoolState F), SASolver.coolLoop exp input s L fuel st = some st' →
      st'.sequence.taskSchedule.Perm st.sequence.taskSchedule
  | 0, st, st', h => by
    simp only [SASolver.coolLoop] at h
    split at h
    · simp at h
    · simp only [Option.some.injEq] at h
      rw [h]
  | fuel + 1, st, st', h => by
    simp only [SASolver.coolLoop] at h
    split at h
    · cases he : SASolver.epochStep exp input s L st with
      | none => simp [he] at h
      | some st1 =>
        simp only [he] at h
        exact (coolLoop_perm exp input s L fuel st1 st' h).trans
          (epochStep_perm exp input s L st st1 he)
    · simp only [Option.some.injEq] at h
      rw [h]

theorem getInitTemperature_output [FloorRing F] (exp log : F → F) (input : Input F)
    (output : Output) (gen : Gen F) (initAccRate t : F) (output' : Output) (gen' : Gen F)
    (h : SASolver.getInitTemperature exp log input output gen initAccRate
      = some (t, output', gen')) :
    output' = output := by
  unfold SASolver.getInitTemperature at h
  simp only [sampleLoop_eq] at h
  split at h
  · cases h
  · rename_i count delta o₁ g₁ hs
    simp only [Option.some.injEq, Prod.mk.injEq] at h
    split at hs
    · cases hs
    · simp only [Option.some.injEq, Prod.mk.injEq] at hs
      rw [← h.2.1, ← hs.2.2.1]

theorem solveInstance_perm [FloorRing F] (exp log : F → F) (input : Input F) (fuel : Nat)
    (sequence : Output) (gen : Gen F) (s : Settings F) (history : List Event)
    (sequence' : Output) (gen' : Gen F) (history' : List Event)
    (h : SASolver.solveInstance exp log input fuel sequence gen s history
      = some (sequence', gen', history')) :
    sequence'.taskSchedule.Perm sequence.taskSchedule := by
  unfold SASolver.solveInstance at h
  cases hc : SASolver.getInitTemperature exp log input sequence gen s.initAccRate with
  | none => simp [hc] at h
  | some r =>
    obtain ⟨temperature, sequence1, gen1⟩ := r
    have hsame := getInitTemperature_output exp log input sequence gen s.initAccRate
      temperature sequence1 gen1 hc
    simp only [hc] at h
    split at h
    · simp at h
    · rename_i st hcool
      simp only [Option.some.injEq, Prod.mk.injEq] at h
      rw [← h.1]
      have := coolLoop_perm exp input s _ fuel _ st hcool
      simpa [hsame] using this

theorem restartLoop_perm [FloorRing F] (exp log : F → F) (input : Input F) (fuel : Nat)
    (s : Settings F) (target : List Int) :
    ∀ (k : Nat) (currSequence bestSequence : Output) (maxProfit : F) (gen : Gen F)
      (history : List Event) (best : Output) (gen' : Gen F) (history' : List Event),
      currSequence.taskSchedule.Perm target → bestSequence.taskSchedule.Perm target →
      SASolver.restartLoop exp log input fuel s k currSequence bestSequence maxProfit gen
        history = some (best, gen', history') →
      best.taskSchedule.Perm target
  | 0, _, bestSequence, _, _, _, best, _, _, _, hb, h => by
    simp only [SASolver.restartLoop, Option.some.injEq, Prod.mk.injEq] at h
    rw [← h.1]
    exact hb
  | k + 1, currSequence, bestSequence, maxProfit, gen, history, best, gen', history', hc,
      hb, h => by
    simp only [SASolver.restartLoop] at h
    cases hs : SASolver.solveInstance exp log input fuel currSequence gen s history with
    | none => simp [hs] at h
    | some r =>
      obtain ⟨curr1, gen1, history1⟩ := r
      simp only [hs] at h
      have hc1 := (solveInstance_perm exp log input fuel currSequence gen s history curr1
        gen1 history1 hs).trans hc
      split at h
      · exact restartLoop_perm exp log input fuel s target k curr1 curr1 _ gen1 history1 best
          gen' history' hc1 hc1 h
      · exact restartLoop_perm exp log input fuel s target k curr1 bestSequence _ gen1
          history1 best gen' history' hc1 hb h

theorem solveThread_perm [FloorRing F] (exp log : F → F) (input : Input F) (fuel : Nat)
    (gen : Gen F) (s : Settings F) (best : Output) (gen' : Gen F) (history : List Event)
    (h : SASolver.solveThread exp log input fuel gen s = some (best, gen', history)) :
    IsPermutationOfTasks input best := by
  unfold SASolver.solveThread at h
  cases hg : SASolver.generateRandomSequence input gen with
  | none => simp [hg] at h
  | some r =>
    obtain ⟨initial, gen₀⟩ := r
    simp only [hg] at h
    have hi := generateRandomSequence_perm input gen initial gen₀ hg
    exact restartLoop_perm exp log input fuel s _ _ initial initial _ gen₀ [] best gen'
      history hi hi h

end Permutations

theorem validIndices_of_permutation {F : Type} (input : Input F) (o : Output)
    (h : IsPermutationOfTasks input o) : ValidIndices input o := by
  intro idx hidx
  have hm := h.subset hidx
  simp only [List.mem_map, List.mem_range] at hm
  obtain ⟨k, hk, rfl⟩ := hm
  constructor
  · exact Int.ofNat_nonneg k
  · have : (k : Int) < (input.size.toNat : Int) := by exact_mod_cast hk
    unfold Input.size at this ⊢
    show (k : Int) < input.n
    omega

/-! ## Instances of the theorems on concrete inputs -/

theorem scripted_taskNums_in_range :
    TaskNumsInRange (threeTaskInput ℝ) (scriptedState ℝ).gen := by
  intro x hx
  have hx' : x = 0 ∨ x = 2 := by
    have h4 : x = 0 ∨ x = 2 ∨ x = 0 ∨ x = 2 := by simpa [scriptedState] using hx
    rcases h4 with h | h | h | h
    · exact Or.inl h
    · exact Or.inr h
    · exact Or.inl h
    · exact Or.inr h
  have hn : (threeTaskInput ℝ).size = 3 := rfl
  rcases hx' with rfl | rfl <;> rw [hn] <;> omega

theorem getInitTemperature_no_failure_witness :
    drawPairs (2 * (threeTaskInput ℝ).size * (threeTaskInput ℝ).size).toNat
        (scriptedGen ℝ).taskNums = some (List.replicate 18 (1, 2), [0, 2, 0, 2]) ∧
    (∀ pair ∈ List.replicate 18 ((1 : Int), (2 : Int)),
      ¬ trialScore Real.exp (threeTaskInput ℝ) ⟨[0, 1, 2]⟩ pair
        < Output.evaluate Real.exp ⟨[0, 1, 2]⟩ (threeTaskInput ℝ)) ∧
    ∃ temperature : ℝ,
      SASolver.getInitTemperature Real.exp Real.log (threeTaskInput ℝ) ⟨[0, 1, 2]⟩
          (scriptedGen ℝ) 0.8
        = some (temperature, ⟨[0, 1, 2]⟩, { scriptedGen ℝ with taskNums := [0, 2, 0, 2] }) :=
  ⟨scripted_pairs, scripted_no_drop,
    getInitTemperature_no_failure (threeTaskInput ℝ) ⟨[0, 1, 2]⟩ (scriptedGen ℝ) 0.8
      (List.replicate 18 (1, 2)) [0, 2, 0, 2] scripted_pairs scripted_no_drop⟩

theorem solve_runs_with_any_settings_witness :
    (∀ tid : Nat, tid < SASolver.NUM_THREADS → ∃ (gen' : Gen ℝ) (history : List Event),
      SASolver.solveThread Real.exp Real.log (threeTaskInput ℝ) 1
          ((fun _ => scriptedGen ℝ) ((0 : Int) + (tid : Int))) (alphaTwoSettings ℝ)
        = some ((fun _ => (⟨[0, 2, 1]⟩ : Output)) tid, gen', history)) ∧
    SASolver.solve Real.exp Real.log (threeTaskInput ℝ) (fun _ => scriptedGen ℝ) 1 0
        (alphaTwoSettings ℝ)
      = some (SASolver.bestSequence Real.exp (threeTaskInput ℝ)
          ((List.range SASolver.NUM_THREADS).map (fun _ => (⟨[0, 2, 1]⟩ : Output)))) :=
  ⟨fun _ _ => ⟨_, _, scripted_solveThread (alphaTwoSettings ℝ) rfl rfl rfl 0⟩,
    solve_runs_with_any_settings (threeTaskInput ℝ) (fun _ => scriptedGen ℝ) 1 0
      (alphaTwoSettings ℝ) (fun _ => ⟨[0, 2, 1]⟩)
      (fun _ _ => ⟨_, _, scripted_solveThread (alphaTwoSettings ℝ) rfl rfl rfl 0⟩)⟩

theorem perturb_exchanges_two_positions_witness :
    2 ≤ (threeTaskInput ℝ).size ∧ (threeTaskInput ℝ).size ≤ 2 ^ 31 - 1 ∧
    (((scriptedState ℝ).sequence.taskSchedule.length : Int) = (threeTaskInput ℝ).size) ∧
    TaskNumsInRange (threeTaskInput ℝ) (scriptedState ℝ).gen ∧
    SASolver.perturb Real.exp (threeTaskInput ℝ) (scriptedState ℝ).sequence
        (scriptedState ℝ).gen
      = some (8, ⟨[1, 2, 0]⟩, 0, 2, { taskNums := [0, 2], reals := [0, 0], shuffles := [] }) ∧
    ((0 ≤ (0 : Int) ∧ (0 : Int) < (threeTaskInput ℝ).size) ∧
      (0 ≤ (2 : Int) ∧ (2 : Int) < (threeTaskInput ℝ).size) ∧
      (0 : Int) ≠ 2 ∧
      (⟨[1, 2, 0]⟩ : Output).taskSchedule.length
        = (scriptedState ℝ).sequence.taskSchedule.length ∧
      (⟨[1, 2, 0]⟩ : Output).taskSchedule[(0 : Int).toNat]?
        = (scriptedState ℝ).sequence.taskSchedule[(2 : Int).toNat]? ∧
      (⟨[1, 2, 0]⟩ : Output).taskSchedule[(2 : Int).toNat]?
        = (scriptedState ℝ).sequence.taskSchedule[(0 : Int).toNat]? ∧
      (∀ k : Nat, k ≠ (0 : Int).toNat → k ≠ (2 : Int).toNat →
        (⟨[1, 2, 0]⟩ : Output).taskSchedule[k]?
          = (scriptedState ℝ).sequence.taskSchedule[k]?) ∧
      (8 : ℝ) = Output.evaluate Real.exp ⟨[1, 2, 0]⟩ (threeTaskInput ℝ)) :=
  ⟨by decide, by decide, rfl, scripted_taskNums_in_range, scripted_perturb,
    perturb_exchanges_two_positions (threeTaskInput ℝ) (scriptedState ℝ).sequence
      (scriptedState ℝ).gen (by decide) (by decide) rfl scripted_taskNums_in_range
      8 ⟨[1, 2, 0]⟩ 0 2 { taskNums := [0, 2], reals := [0, 0], shuffles := [] }
      scripted_perturb⟩

theorem isValidFor_iff_witness :
    PositiveDurations (threeTaskInput ℝ) ∧
    (∀ idx ∈ (⟨[0, 2]⟩ : Output).taskSchedule, 0 ≤ idx) ∧
    (Output.isValidFor ⟨[0, 2]⟩ (threeTaskInput ℝ) = true ↔
      (∀ idx ∈ (⟨[0, 2]⟩ : Output).taskSchedule, idx < (threeTaskInput ℝ).size) ∧
        totalDuration (threeTaskInput ℝ) (⟨[0, 2]⟩ : Output).taskSchedule ≤ 1440) :=
  ⟨threeTask_positiveDurations, by decide,
    isValidFor_iff (threeTaskInput ℝ) ⟨[0, 2]⟩ threeTask_positiveDurations (by decide)⟩

theorem trim_then_isValidFor_witness :
    (∀ idx ∈ (⟨[0, 2, 1]⟩ : Output).taskSchedule, 0 ≤ idx) ∧
    (((Output.trim ⟨[0, 2, 1]⟩ (threeTaskInput ℝ)).1 = true →
        (Output.trim ⟨[0, 2, 1]⟩ (threeTaskInput ℝ)).2.isValidFor (threeTaskInput ℝ) = true) ∧
      (Output.isValidFor ⟨[0, 2, 1]⟩ (threeTaskInput ℝ) = true →
        (Output.trim ⟨[0, 2, 1]⟩ (threeTaskInput ℝ)).1 = true ∧
        (Output.trim ⟨[0, 2, 1]⟩ (threeTaskInput ℝ)).2 = ⟨[0, 2, 1]⟩)) :=
  ⟨by decide, trim_then_isValidFor (threeTaskInput ℝ) ⟨[0, 2, 1]⟩ (by decide)⟩

theorem restart_first_run :
    SASolver.solveInstance Real.exp Real.log (threeTaskInput ℝ) 1 ⟨[0, 2, 1]⟩
        { taskNums := (scriptedGen ℝ).taskNums ++ (scriptedGen ℝ).taskNums,
          reals := 0 :: 0 :: [0, 0], shuffles := [0, 0] } (restartSettings ℝ) []
      = some (⟨[0, 2, 1]⟩,
          { taskNums := (scriptedGen ℝ).taskNums, reals := [0, 0], shuffles := [0, 0] },
          [] ++ [Event.accepted ⟨[1, 2, 0]⟩, Event.accepted ⟨[0, 2, 1]⟩,
            Event.runEnd ⟨[0, 2, 1]⟩]) :=
  scripted_solveInstance (restartSettings ℝ) rfl rfl 0 (scriptedGen ℝ).taskNums [0, 0]
    [0, 0] []

theorem restart_continues_previous_run_witness :
    SASolver.solveInstance Real.exp Real.log (threeTaskInput ℝ) 1 ⟨[0, 2, 1]⟩
        { taskNums := (scriptedGen ℝ).taskNums ++ (scriptedGen ℝ).taskNums,
          reals := 0 :: 0 :: [0, 0], shuffles := [0, 0] } (restartSettings ℝ) []
      = some (⟨[0, 2, 1]⟩,
          { taskNums := (scriptedGen ℝ).taskNums, reals := [0, 0], shuffles := [0, 0] },
          [] ++ [Event.accepted ⟨[1, 2, 0]⟩, Event.accepted ⟨[0, 2, 1]⟩,
            Event.runEnd ⟨[0, 2, 1]⟩]) ∧
    ∃ (best₁ : Output) (max₁ : ℝ),
      SASolver.restartLoop Real.exp Real.log (threeTaskInput ℝ) 1 (restartSettings ℝ) (0 + 2)
          ⟨[0, 2, 1]⟩ ⟨[0, 2, 1]⟩ 4
          { taskNums := (scriptedGen ℝ).taskNums ++ (scriptedGen ℝ).taskNums,
            reals := 0 :: 0 :: [0, 0], shuffles := [0, 0] } []
        = match SASolver.solveInstance Real.exp Real.log (threeTaskInput ℝ) 1 ⟨[0, 2, 1]⟩
              { taskNums := (scriptedGen ℝ).taskNums, reals := [0, 0], shuffles := [0, 0] }
              (restartSettings ℝ)
              ([] ++ [Event.accepted ⟨[1, 2, 0]⟩, Event.accepted ⟨[0, 2, 1]⟩,
                Event.runEnd ⟨[0, 2, 1]⟩]) with
          | none => none
          | some (curr₂, gen₂, history₂) =>
            if curr₂.evaluate Real.exp (threeTaskInput ℝ) > max₁ then
              SASolver.restartLoop Real.exp Real.log (threeTaskInput ℝ) 1 (restartSettings ℝ)
                0 curr₂ curr₂ (curr₂.evaluate Real.exp (threeTaskInput ℝ)) gen₂ history₂
            else
              SASolver.restartLoop Real.exp Real.log (threeTaskInput ℝ) 1 (restartSettings ℝ)
                0 curr₂ best₁ max₁ gen₂ history₂ :=
  ⟨restart_first_run,
    restart_continues_previous_run (threeTaskInput ℝ) 1 (restartSettings ℝ) 0 ⟨[0, 2, 1]⟩
      ⟨[0, 2, 1]⟩ 4 _ [] ⟨[0, 2, 1]⟩ _ _ restart_first_run⟩

theorem solveThread_best_is_monotone_witness :
    (4 : ℝ) = Output.evaluate Real.exp ⟨[0, 2, 1]⟩ (threeTaskInput ℝ) ∧
    SASolver.solveInstance Real.exp Real.log (threeTaskInput ℝ) 1 ⟨[0, 2, 1]⟩
        { taskNums := (scriptedGen ℝ).taskNums ++ (scriptedGen ℝ).taskNums,
          reals := 0 :: 0 :: [0, 0], shuffles := [0, 0] } (restartSettings ℝ) []
      = some (⟨[0, 2, 1]⟩,
          { taskNums := (scriptedGen ℝ).taskNums, reals := [0, 0], shuffles := [0, 0] },
          [] ++ [Event.accepted ⟨[1, 2, 0]⟩, Event.accepted ⟨[0, 2, 1]⟩,
            Event.runEnd ⟨[0, 2, 1]⟩]) ∧
    ((∃ (best₁ : Output) (max₁ : ℝ),
      SASolver.restartLoop Real.exp Real.log (threeTaskInput ℝ) 1 (restartSettings ℝ) (1 + 1)
          ⟨[0, 2, 1]⟩ ⟨[0, 2, 1]⟩ 4
          { taskNums := (scriptedGen ℝ).taskNums ++ (scriptedGen ℝ).taskNums,
            reals := 0 :: 0 :: [0, 0], shuffles := [0, 0] } []
        = SASolver.restartLoop Real.exp Real.log (threeTaskInput ℝ) 1 (restartSettings ℝ) 1
            ⟨[0, 2, 1]⟩ best₁ max₁
            { taskNums := (scriptedGen ℝ).taskNums, reals := [0, 0], shuffles := [0, 0] }
            ([] ++ [Event.accepted ⟨[1, 2, 0]⟩, Event.accepted ⟨[0, 2, 1]⟩,
              Event.runEnd ⟨[0, 2, 1]⟩]) ∧
      (4 : ℝ) ≤ max₁ ∧ max₁ = best₁.evaluate Real.exp (threeTaskInput ℝ)) ∧
    (∀ (gen₀ : Gen ℝ) (initial : Output) (gen₀' : Gen ℝ),
      SASolver.generateRandomSequence (threeTaskInput ℝ) gen₀ = some (initial, gen₀') →
      SASolver.solveThread Real.exp Real.log (threeTaskInput ℝ) 1 gen₀ (restartSettings ℝ)
        = SASolver.restartLoop Real.exp Real.log (threeTaskInput ℝ) 1 (restartSettings ℝ)
            ((restartSettings ℝ).maxRestarts + 1).toNat
            initial initial (initial.evaluate Real.exp (threeTaskInput ℝ)) gen₀' [] ∧
      ∀ (out : Output) (gen' : Gen ℝ) (history' : List Event),
        SASolver.solveThread Real.exp Real.log (threeTaskInput ℝ) 1 gen₀ (restartSettings ℝ)
          = some (out, gen', history') →
        initial.evaluate Real.exp (threeTaskInput ℝ)
          ≤ out.evaluate Real.exp (threeTaskInput ℝ))) :=
  ⟨threeTask_score_021.symm, restart_first_run,
    solveThread_best_is_monotone (threeTaskInput ℝ) 1 (restartSettings ℝ) 1 ⟨[0, 2, 1]⟩
      ⟨[0, 2, 1]⟩ 4 _ [] ⟨[0, 2, 1]⟩ _ _ threeTask_score_021.symm restart_first_run⟩

/-! ## Scenarios of the scoring model -/

/-- C29 (empty-schedule identity): for every instance, `Output::evaluate` of the
empty candidate is 0. -/
theorem evaluate_empty (input : Input ℝ) : Output.evaluate Real.exp ⟨[]⟩ input = 0 :=
  rfl

theorem scenario_accessors (F : Type) [LinearOrderedField F] :
    ((scenarioInput F).getDuration 0 = 5 ∧ (scenarioInput F).getDuration 1 = 5 ∧
      (scenarioInput F).getDuration 2 = 5) ∧
    ((scenarioInput F).getDeadline 0 = 10 ∧ (scenarioInput F).getDeadline 1 = 20 ∧
      (scenarioInput F).getDeadline 2 = 30) ∧
    ((scenarioInput F).getProfit 0 = 10 ∧ (scenarioInput F).getProfit 1 = 10 ∧
      (scenarioInput F).getProfit 2 = 10) :=
  ⟨⟨rfl, rfl, rfl⟩, ⟨rfl, rfl, rfl⟩, ⟨rfl, rfl, rfl⟩⟩

/-- C28 (concrete scenario): for the instance with deadlines `[10, 20, 30]`,
durations `[5, 5, 5]` and profits `[10, 10, 10]`, `Output::evaluate` of the
candidate `[0, 1, 2]` is exactly 30: the tasks finish at times 5, 10, 15, none
is late and no decay is applied. -/
theorem evaluate_scenario :
    Output.evaluate Real.exp ⟨[0, 1, 2]⟩ (scenarioInput ℝ) = 30 ∧
    Output.evaluate Real.exp ⟨[0, 1, 2]⟩ (scenarioInput ℝ)
      = (scenarioInput ℝ).getProfit 0 + (scenarioInput ℝ).getProfit 1
        + (scenarioInput ℝ).getProfit 2 := by
  have h := scenario_accessors ℝ
  simp only [Output.evaluate, Output.evaluateLoop, h.1.1, h.1.2.1, h.1.2.2, h.2.1.1,
    h.2.1.2.1, h.2.1.2.2, h.2.2.1, h.2.2.2.1, h.2.2.2.2]
  norm_num

/-! ## Return values of `swapTasks` and `trim` -/

/-- C22: `Output::swapTasks(i, j)` returns true if and only if both `i` and `j`
are less than the schedule length; when it returns true the entries at `i` and
`j` are exchanged and every other entry is unchanged (the length too); when it
returns false the schedule is entirely unchanged. -/
theorem swapTasks_flag_and_effect (o : Output) (i j : Nat) :
    ((o.swapTasks i j).1 = true ↔ i < o.taskSchedule.length ∧ j < o.taskSchedule.length) ∧
    ((o.swapTasks i j).1 = true →
      (o.swapTasks i j).2.taskSchedule.length = o.taskSchedule.length ∧
      (o.swapTasks i j).2.taskSchedule[i]? = o.taskSchedule[j]? ∧
      (o.swapTasks i j).2.taskSchedule[j]? = o.taskSchedule[i]? ∧
      ∀ k : Nat, k ≠ i → k ≠ j → (o.swapTasks i j).2.taskSchedule[k]? = o.taskSchedule[k]?) ∧
    ((o.swapTasks i j).1 = false → (o.swapTasks i j).2 = o) := by
  have hflag : (o.swapTasks i j).1 = true ↔
      i < o.taskSchedule.length ∧ j < o.taskSchedule.length := by
    unfold Output.swapTasks
    split
    · rename_i h
      constructor
      · intro hc; exact absurd hc (by simp)
      · intro hc; omega
    · rename_i h
      constructor
      · intro _; omega
      · intro _; rfl
  refine ⟨hflag, ?_, ?_⟩
  · intro h
    obtain ⟨hi, hj⟩ := hflag.mp h
    refine ⟨swapTasks_length o i j, ?_, ?_, ?_⟩
    · rw [swapTasks_getElem? o i j hi hj]
      by_cases hij : i = j
      · rw [if_pos hij, hij]
      · rw [if_neg hij, if_pos rfl]
    · rw [swapTasks_getElem? o i j hi hj, if_pos rfl]
    · intro k hki hkj
      rw [swapTasks_getElem? o i j hi hj, if_neg hkj, if_neg hki]
  · intro h
    unfold Output.swapTasks at h ⊢
    split
    · rfl
    · rename_i hn
      rw [if_neg hn] at h
      cases h

theorem trimLoop_flag_false_iff {F : Type} (input : Input F) (taskSchedule : List Int) :
    ∀ (rest : List Int) (i : Nat) (time : Int), time ≤ 1440 →
      ((Output.trimLoop input taskSchedule rest i time).1 = false ↔
        ∃ (pre : List Int) (x : Int) (post : List Int), rest = pre ++ x :: post ∧
          x ≥ input.size ∧ (∀ idx ∈ pre, idx < input.size) ∧
          ∀ q : List Int, q <+: pre → time + totalDuration input q ≤ 1440)
  | [], i, time, _ => by
    simp [Output.trimLoop]
  | x :: rest, i, time, ht => by
    by_cases hx : x ≥ input.size
    · simp only [Output.trimLoop, if_pos hx, true_iff]
      refine ⟨[], x, rest, rfl, hx, by simp, ?_⟩
      intro q hq
      rw [List.prefix_nil.mp hq]
      simpa [totalDuration] using ht
    · by_cases hfit : time + input.getDuration x > 1440
      · simp only [Output.trimLoop, if_neg hx, if_pos hfit]
        constructor
        · intro h; cases h
        · rintro ⟨pre, y, post, hsplit, hy, _, hq⟩
          exfalso
          cases pre with
          | nil =>
            simp only [List.nil_append, List.cons.injEq] at hsplit
            rw [← hsplit.1] at hy
            exact hx hy
          | cons a pre =>
            simp only [List.cons_append, List.cons.injEq] at hsplit
            have := hq [a] ⟨pre, rfl⟩
            rw [← hsplit.1] at this
            simp only [totalDuration, List.map_cons, List.map_nil, List.sum_cons,
              List.sum_nil, add_zero] at this
            omega
      · simp only [Output.trimLoop, if_neg hx, if_neg hfit]
        rw [trimLoop_flag_false_iff input taskSchedule rest (i + 1)
          (time + input.getDuration x) (by omega)]
        constructor
        · rintro ⟨pre, y, post, hsplit, hy, hpre, hq⟩
          refine ⟨x :: pre, y, post, by rw [hsplit]; rfl, hy, ?_, ?_⟩
          · intro idx hidx
            rcases List.mem_cons.mp hidx with rfl | hidx
            · omega
            · exact hpre idx hidx
          · intro q hq'
            cases q with
            | nil => simpa [totalDuration] using ht
            | cons a q =>
              obtain ⟨rfl, hq''⟩ := List.cons_prefix_cons.mp hq'
              have := hq q hq''
              simp only [totalDuration, List.map_cons, List.sum_cons] at this ⊢
              omega
        · rintro ⟨pre, y, post, hsplit, hy, hpre, hq⟩
          cases pre with
          | nil =>
            simp only [List.nil_append, List.cons.injEq] at hsplit
            rw [← hsplit.1] at hy
            exact absurd hy hx
          | cons a pre =>
            simp only [List.cons_append, List.cons.injEq] at hsplit
            obtain ⟨rfl, hrest⟩ := hsplit
            refine ⟨pre, y, post, hrest, hy,
              fun idx hidx => hpre idx (List.mem_cons_of_mem _ hidx), ?_⟩
            intro q hq'
            have := hq (x :: q) (List.cons_prefix_cons.mpr ⟨rfl, hq'⟩)
            simp only [totalDuration, List.map_cons, List.sum_cons] at this ⊢
            omega

/-- C21, as stated, fails.  On the three-task instance (`n = 3`) the schedule
`[0, 1, 7]` contains the out-of-bounds index 7, but the elapsed time exceeds 1440
at its second entry: `Output::trim` cuts the schedule to `[0]` and returns
true without examining the third entry. -/
theorem trim_true_with_index_out_of_bounds :
    (7 : Int) ∈ (⟨[0, 1, 7]⟩ : Output).taskSchedule ∧ (7 : Int) ≥ (threeTaskInput ℝ).size ∧
    Output.trim ⟨[0, 1, 7]⟩ (threeTaskInput ℝ) = (true, ⟨[0]⟩) :=
  ⟨by decide, by decide, rfl⟩

/-- C21, amended: `Output::trim` returns false exactly when an index `≥ n` occurs
in the schedule at a position whose earlier entries are all in bounds and have
running totals of at most 1440 (an out-of-bounds index after the first
overflowing entry is cut off unexamined); it returns true for every schedule
all of whose indices are in bounds. -/
theorem trim_flag_false_iff (input : Input ℝ) (o : Output) :
    ((o.trim input).1 = false ↔
      ∃ (pre : List Int) (x : Int) (post : List Int), o.taskSchedule = pre ++ x :: post ∧
        x ≥ input.size ∧ (∀ idx ∈ pre, idx < input.size) ∧
        ∀ q : List Int, q <+: pre → totalDuration input q ≤ 1440) ∧
    ((∀ idx ∈ o.taskSchedule, idx < input.size) → (o.trim input).1 = true) := by
  have h := trimLoop_flag_false_iff input o.taskSchedule o.taskSchedule 0 0 (by norm_num)
  simp only [zero_add] at h
  refine ⟨h, ?_⟩
  intro hall
  cases hflag : (o.trim input).1 with
  | true => rfl
  | false =>
    exfalso
    obtain ⟨pre, x, post, hsplit, hx, _, _⟩ := h.mp hflag
    have := hall x (by rw [hsplit]; simp)
    omega

/-! ## Invariants of the cooling loop -/

section Cooling

variable {F : Type} [LinearOrderedField F]

theorem perturb_spec (exp : F → F) (input : Input F) (o : Output) (gen : Gen F)
    (newProfit : F) (o' : Output) (index1 index2 : Int) (gen' : Gen F)
    (h : SASolver.perturb exp input o gen = some (newProfit, o', index1, index2, gen')) :
    o' = (o.swapTasks (toSizeT index1) (toSizeT index2)).2 ∧
    newProfit = o'.evaluate exp input := by
  unfold SASolver.perturb at h
  cases hg : gen.taskNums with
  | nil => simp [hg] at h
  | cons i1 rest =>
    cases hd : SASolver.drawIndex2 i1 rest with
    | none => simp [hg, hd] at h
    | some r =>
      obtain ⟨i2, rest'⟩ := r
      simp only [hg, hd, Option.some.injEq, Prod.mk.injEq] at h
      obtain ⟨hp, ho, h1, h2, _⟩ := h
      subst h1 h2
      rw [← ho, ← hp]
      exact ⟨rfl, rfl⟩

theorem attempt_tracks_score (exp : F → F) (input : Input F) (st st' : CoolState F)
    (hinv : st.currProfit = st.sequence.evaluate exp input)
    (h : SASolver.attempt exp input st = some st') :
    st'.currProfit = st'.sequence.evaluate exp input := by
  unfold SASolver.attempt at h
  cases hp : SASolver.perturb exp input st.sequence st.gen with
  | none => simp [hp] at h
  | some r =>
    obtain ⟨newProfit, sequence, index1, index2, gen⟩ := r
    obtain ⟨hseq, hnew⟩ := perturb_spec exp input _ _ _ _ _ _ _ hp
    cases hr : gen.reals with
    | nil => simp [hp, hr] at h
    | cons u reals =>
      simp only [hp, hr] at h
      split at h
      · simp only [Option.some.injEq] at h
        rw [← h]
        simp only
        rw [hseq, swapTasks_twice]
        exact hinv
      · simp only [Option.some.injEq] at h
        rw [← h]
        exact hnew

theorem attempts_tracks_score (exp : F → F) (input : Input F) :
    ∀ (k : Nat) (st st' : CoolState F), st.currProfit = st.sequence.evaluate exp input →
      SASolver.attempts exp input k st = some st' →
      st'.currProfit = st'.sequence.evaluate exp input
  | 0, st, st', hinv, h => by
    simp only [SASolver.attempts, Option.some.injEq] at h
    rw [← h]
    exact hinv
  | k + 1, st, st', hinv, h => by
    simp only [SASolver.attempts] at h
    cases ha : SASolver.attempt exp input st with
    | none => simp [ha] at h
    | some st1 =>
      simp only [ha] at h
      exact attempts_tracks_score exp input k st1 st'
        (attempt_tracks_score exp input st st1 hinv ha) h

theorem attempt_frame (exp : F → F) (input : Input F) (st st' : CoolState F)
    (h : SASolver.attempt exp input st = some st') :
    st'.temperature = st.temperature ∧ st'.lastEpochProfit = st.lastEpochProfit ∧
    st'.rejectionCount = st.rejectionCount ∧ st'.epoch = st.epoch := by
  unfold SASolver.attempt at h
  cases hp : SASolver.perturb exp input st.sequence st.gen with
  | none => simp [hp] at h
  | some r =>
    obtain ⟨newProfit, sequence, index1, index2, gen⟩ := r
    cases hr : gen.reals with
    | nil => simp [hp, hr] at h
    | cons u reals =>
      simp only [hp, hr] at h
      split at h
      · simp only [Option.some.injEq] at h
        rw [← h]
        exact ⟨rfl, rfl, rfl, rfl⟩
      · simp only [Option.some.injEq] at h
        rw [← h]
        exact ⟨rfl, rfl, rfl, rfl⟩

theorem attempts_frame (exp : F → F) (input : Input F) :
    ∀ (k : Nat) (st st' : CoolState F), SASolver.attempts exp input k st = some st' →
      st'.temperature = st.temperature ∧ st'.lastEpochProfit = st.lastEpochProfit ∧
      st'.rejectionCount = st.rejectionCount ∧ st'.epoch = st.epoch
  | 0, st, st', h => by
    simp only [SASolver.attempts, Option.some.injEq] at h
    rw [← h]
    exact ⟨rfl, rfl, rfl, rfl⟩
  | k + 1, st, st', h => by
    simp only [SASolver.attempts] at h
    cases ha : SASolver.attempt exp input st with
    | none => simp [ha] at h
    | some st1 =>
      simp only [ha] at h
      obtain ⟨a1, a2, a3, a4⟩ := attempt_frame exp input st st1 ha
      obtain ⟨b1, b2, b3, b4⟩ := attempts_frame exp input k st1 st' h
      exact ⟨b1.trans a1, b2.trans a2, b3.trans a3, b4.trans a4⟩

theorem epochStep_of_attempts (exp : F → F) (input : Input F) (s : Settings F) (L : Int)
    (st st₁ : CoolState F) (hatt : SASolver.attempts exp input L.toNat st = some st₁) :
    SASolver.epochStep exp input s L st = some { st₁ with
      temperature := st.temperature * s.alpha,
      rejectionCount :=
        if st₁.currProfit - st.lastEpochProfit < SASolver.PROFIT_GAIN_THRESH then
          st.rejectionCount + 1
        else 0,
      lastEpochProfit := st₁.currProfit,
      epoch := st.epoch + 1 } := by
  obtain ⟨h1, h2, h3, h4⟩ := attempts_frame exp input L.toNat st st₁ hatt
  simp only [SASolver.epochStep, hatt, h1, h2, h3, h4]

theorem coolLoop_exit_streak (exp : F → F) (input : Input F) (s : Settings F) (L : Int) :
    ∀ (fuel : Nat) (st st' : CoolState F), 0 ≤ st.rejectionCount →
      st.rejectionCount ≤ s.maxRejections →
      SASolver.coolLoop exp input s L fuel st = some st' →
      st'.rejectionCount = s.maxRejections
  | 0, st, st', _, hle, h => by
    simp only [SASolver.coolLoop] at h
    split at h
    · cases h
    · simp only [Option.some.injEq] at h
      rw [← h]
      omega
  | fuel + 1, st, st', h0, hle, h => by
    simp only [SASolver.coolLoop] at h
    split at h
    · rename_i hlt
      cases he : SASolver.epochStep exp input s L st with
      | none => simp [he] at h
      | some st1 =>
        simp only [he] at h
        have hrc : 0 ≤ st1.rejectionCount ∧ st1.rejectionCount ≤ s.maxRejections := by
          unfold SASolver.epochStep at he
          cases ha : SASolver.attempts exp input L.toNat st with
          | none => simp [ha] at he
          | some st2 =>
            obtain ⟨_, _, h3, _⟩ := attempts_frame exp input L.toNat st st2 ha
            simp only [ha, Option.some.injEq] at he
            rw [← he]
            simp only
            split
            · rw [h3]; omega
            · omega
        exact coolLoop_exit_streak exp input s L fuel st1 st' hrc.1 hrc.2 h
    · simp only [Option.some.injEq] at h
      rw [← h]
      omega

end Cooling

/-- C24 (epoch bookkeeping and freeze): when the attempts of an epoch of
`SASolver::solveInstance` leave the state `st₁`, the epoch ends with the
temperature multiplied by `alpha`, the rejection streak equal to `streak + 1`
if (current score - last epoch score) is below `PROFIT_GAIN_THRESH = 1e-3` and
to 0 otherwise, and the last epoch score equal to the current score; the
cooling loop runs another epoch as long as the streak is below `maxRejections`
and exits as soon as it is not, so that it exits with the streak equal to
`maxRejections` when it started from a streak between 0 and `maxRejections`,
and runs no epoch at all when `maxRejections ≤ 0`. -/
theorem epoch_bookkeeping_and_freeze (input : Input ℝ) (s : Settings ℝ) (L : Int)
    (st st₁ : CoolState ℝ)
    (hatt : SASolver.attempts Real.exp input L.toNat st = some st₁) :
    (SASolver.PROFIT_GAIN_THRESH : ℝ) = 1e-3 ∧
    SASolver.epochStep Real.exp input s L st = some { st₁ with
      temperature := st.temperature * s.alpha,
      rejectionCount :=
        if st₁.currProfit - st.lastEpochProfit < SASolver.PROFIT_GAIN_THRESH then
          st.rejectionCount + 1
        else 0,
      lastEpochProfit := st₁.currProfit,
      epoch := st.epoch + 1 } ∧
    (∀ (fuel : Nat) (st₀ : CoolState ℝ), st₀.rejectionCount < s.maxRejections →
      SASolver.coolLoop Real.exp input s L (fuel + 1) st₀
        = match SASolver.epochStep Real.exp input s L st₀ with
          | none => none
          | some st' => SASolver.coolLoop Real.exp input s L fuel st') ∧
    (∀ (fuel : Nat) (st₀ : CoolState ℝ), ¬ st₀.rejectionCount < s.maxRejections →
      SASolver.coolLoop Real.exp input s L fuel st₀ = some st₀) ∧
    (∀ (fuel : Nat) (st₀ st' : CoolState ℝ), 0 ≤ st₀.rejectionCount →
      st₀.rejectionCount ≤ s.maxRejections →
      SASolver.coolLoop Real.exp input s L fuel st₀ = some st' →
      st'.rejectionCount = s.maxRejections) ∧
    (∀ (fuel : Nat) (st₀ : CoolState ℝ), s.maxRejections ≤ 0 → st₀.rejectionCount = 0 →
      SASolver.coolLoop Real.exp input s L fuel st₀ = some st₀) := by
  refine ⟨rfl, epochStep_of_attempts Real.exp input s L st st₁ hatt, ?_, ?_, ?_, ?_⟩
  · intro fuel st₀ hlt
    simp only [SASolver.coolLoop, if_pos hlt]
    cases SASolver.epochStep Real.exp input s L st₀ with
    | none => rfl
    | some st' => rfl
  · intro fuel st₀ hge
    cases fuel with
    | zero => simp only [SASolver.coolLoop, if_neg hge]
    | succ fuel => simp only [SASolver.coolLoop, if_neg hge]
  · intro fuel st₀ st' h0 hle h
    exact coolLoop_exit_streak Real.exp input s L fuel st₀ st' h0 hle h
  · intro fuel st₀ hmax hrc
    have hge : ¬ st₀.rejectionCount < s.maxRejections := by omega
    cases fuel with
    | zero => simp only [SASolver.coolLoop, if_neg hge]
    | succ fuel => simp only [SASolver.coolLoop, if_neg hge]

/-- C30 (tracked-score invariant): if `currProfit` equals `Output::evaluate` of
the working sequence before a perturbation attempt of
`SASolver::solveInstance`, it does so after the attempt, whether the move was
kept or reverted; hence after any number of attempts and after the bookkeeping
of an epoch; and the calibration that precedes the loop leaves the score of the
sequence equal to the `currProfit` computed before it. -/
theorem currProfit_tracks_sequence (input : Input ℝ) (st st' : CoolState ℝ)
    (hinv : st.currProfit = st.sequence.evaluate Real.exp input)
    (hatt : SASolver.attempt Real.exp input st = some st') :
    st'.currProfit = st'.sequence.evaluate Real.exp input ∧
    (∀ (k : Nat) (st'' : CoolState ℝ), SASolver.attempts Real.exp input k st = some st'' →
      st''.currProfit = st''.sequence.evaluate Real.exp input) ∧
    (∀ (s : Settings ℝ) (L : Int) (st'' : CoolState ℝ),
      SASolver.epochStep Real.exp input s L st = some st'' →
      st''.currProfit = st''.sequence.evaluate Real.exp input) ∧
    (∀ (sequence : Output) (gen : Gen ℝ) (initAccRate t : ℝ) (sequence₁ : Output)
      (gen₁ : Gen ℝ),
      SASolver.getInitTemperature Real.exp Real.log input sequence gen initAccRate
        = some (t, sequence₁, gen₁) →
      sequence.evaluate Real.exp input = sequence₁.evaluate Real.exp input) := by
  refine ⟨attempt_tracks_score Real.exp input st st' hinv hatt, ?_, ?_, ?_⟩
  · intro k st'' h
    exact attempts_tracks_score Real.exp input k st st'' hinv h
  · intro s L st'' h
    unfold SASolver.epochStep at h
    cases ha : SASolver.attempts Real.exp input L.toNat st with
    | none => simp [ha] at h
    | some st1 =>
      simp only [ha, Option.some.injEq] at h
      rw [← h]
      exact attempts_tracks_score Real.exp input L.toNat st st1 hinv ha
  · intro sequence gen initAccRate t sequence₁ gen₁ h
    rw [getInitTemperature_output Real.exp Real.log input sequence gen initAccRate t
      sequence₁ gen₁ h]

theorem scripted_attempt :
    SASolver.attempt Real.exp (threeTaskInput ℝ) (scriptedState ℝ) = some
      { scriptedState ℝ with
        sequence := ⟨[1, 2, 0]⟩,
        gen := { taskNums := [0, 2], reals := [0], shuffles := [] },
        currProfit := 8,
        history := (scriptedState ℝ).history ++ [Event.accepted ⟨[1, 2, 0]⟩] } :=
  attempt_of_zero_draw (threeTaskInput ℝ) (scriptedState ℝ) 8 ⟨[1, 2, 0]⟩ 0 2
    { taskNums := [0, 2], reals := [0, 0], shuffles := [] } [0] scripted_perturb rfl

theorem scripted_epoch_attempts :
    SASolver.attempts Real.exp (threeTaskInput ℝ) ((2 : Int)).toNat (scriptedState ℝ)
      = some { scriptedState ℝ with
          gen := { taskNums := [], reals := [], shuffles := [] },
          history := [] ++ [Event.accepted ⟨[1, 2, 0]⟩, Event.accepted ⟨[0, 2, 1]⟩] } :=
  scripted_attempts_append 1 0 0 [] [] [] []

theorem currProfit_tracks_sequence_witness :
    (scriptedState ℝ).currProfit
      = (scriptedState ℝ).sequence.evaluate Real.exp (threeTaskInput ℝ) ∧
    SASolver.attempt Real.exp (threeTaskInput ℝ) (scriptedState ℝ) = some
      { scriptedState ℝ with
        sequence := ⟨[1, 2, 0]⟩,
        gen := { taskNums := [0, 2], reals := [0], shuffles := [] },
        currProfit := 8,
        history := (scriptedState ℝ).history ++ [Event.accepted ⟨[1, 2, 0]⟩] } ∧
    ((8 : ℝ) = Output.evaluate Real.exp ⟨[1, 2, 0]⟩ (threeTaskInput ℝ) ∧
    (∀ (k : Nat) (st'' : CoolState ℝ),
      SASolver.attempts Real.exp (threeTaskInput ℝ) k (scriptedState ℝ) = some st'' →
      st''.currProfit = st''.sequence.evaluate Real.exp (threeTaskInput ℝ)) ∧
    (∀ (s : Settings ℝ) (L : Int) (st'' : CoolState ℝ),
      SASolver.epochStep Real.exp (threeTaskInput ℝ) s L (scriptedState ℝ) = some st'' →
      st''.currProfit = st''.sequence.evaluate Real.exp (threeTaskInput ℝ)) ∧
    (∀ (sequence : Output) (gen : Gen ℝ) (initAccRate t : ℝ) (sequence₁ : Output)
      (gen₁ : Gen ℝ),
      SASolver.getInitTemperature Real.exp Real.log (threeTaskInput ℝ) sequence gen
        initAccRate = some (t, sequence₁, gen₁) →
      sequence.evaluate Real.exp (threeTaskInput ℝ)
        = sequence₁.evaluate Real.exp (threeTaskInput ℝ))) :=
  ⟨threeTask_score_021.symm, scripted_attempt,
    currProfit_tracks_sequence (threeTaskInput ℝ) (scriptedState ℝ) _
      threeTask_score_021.symm scripted_attempt⟩

theorem epoch_bookkeeping_and_freeze_witness :
    SASolver.attempts Real.exp (threeTaskInput ℝ) ((2 : Int)).toNat (scriptedState ℝ)
      = some { scriptedState ℝ with
          gen := { taskNums := [], reals := [], shuffles := [] },
          history := [] ++ [Event.accepted ⟨[1, 2, 0]⟩, Event.accepted ⟨[0, 2, 1]⟩] } ∧
    SASolver.epochStep Real.exp (threeTaskInput ℝ) (quickSettings ℝ) 2 (scriptedState ℝ)
      = some { scriptedState ℝ with
          gen := { taskNums := [], reals := [], shuffles := [] },
          history := [] ++ [Event.accepted ⟨[1, 2, 0]⟩, Event.accepted ⟨[0, 2, 1]⟩],
          temperature := (scriptedState ℝ).temperature * (quickSettings ℝ).alpha,
          rejectionCount :=
            if (scriptedState ℝ).currProfit - (scriptedState ℝ).lastEpochProfit
                < (SASolver.PROFIT_GAIN_THRESH : ℝ) then
              (scriptedState ℝ).rejectionCount + 1
            else 0,
          lastEpochProfit := (scriptedState ℝ).currProfit,
          epoch := (scriptedState ℝ).epoch + 1 } :=
  ⟨scripted_epoch_attempts,
    (epoch_bookkeeping_and_freeze (threeTaskInput ℝ) (quickSettings ℝ) 2 (scriptedState ℝ) _
      scripted_epoch_attempts).2.1⟩

/-! ## Stream results and the epoch budget -/

section EpochBudget

variable {F : Type} [LinearOrderedField F]

theorem coolLoop_fuel_succ (exp : F → F) (input : Input F) (s : Settings F) (L : Int) :
    ∀ (fuel : Nat) (st st' : CoolState F), SASolver.coolLoop exp input s L fuel st = some st' →
      SASolver.coolLoop exp input s L (fuel + 1) st = some st'
  | 0, st, st', h => by
    simp only [SASolver.coolLoop] at h ⊢
    split at h
    · cases h
    · rename_i hge
      rw [if_neg hge]
      exact h
  | fuel + 1, st, st', h => by
    rw [SASolver.coolLoop] at h ⊢
    split at h
    · rename_i hlt
      rw [if_pos hlt]
      cases he : SASolver.epochStep exp input s L st with
      | none => simp [he] at h
      | some st1 =>
        simp only [he] at h ⊢
        exact coolLoop_fuel_succ exp input s L fuel st1 st' h
    · rename_i hge
      rw [if_neg hge]
      exact h

theorem coolLoop_fuel_le (exp : F → F) (input : Input F) (s : Settings F) (L : Int)
    (fuel fuel' : Nat) (hle : fuel ≤ fuel') (st st' : CoolState F)
    (h : SASolver.coolLoop exp input s L fuel st = some st') :
    SASolver.coolLoop exp input s L fuel' st = some st' := by
  induction fuel', hle using Nat.le_induction with
  | base => exact h
  | succ k _ ih => exact coolLoop_fuel_succ exp input s L k st st' ih

theorem solveInstance_fuel_le [FloorRing F] (exp log : F → F) (input : Input F)
    (fuel fuel' : Nat) (hle : fuel ≤ fuel') (sequence : Output) (gen : Gen F)
    (s : Settings F) (history : List Event) (r : Output × Gen F × List Event)
    (h : SASolver.solveInstance exp log input fuel sequence gen s history = some r) :
    SASolver.solveInstance exp log input fuel' sequence gen s history = some r := by
  unfold SASolver.solveInstance at h ⊢
  cases hc : SASolver.getInitTemperature exp log input sequence gen s.initAccRate with
  | none => simp [hc] at h
  | some c =>
    obtain ⟨temperature, sequence1, gen1⟩ := c
    simp only [hc] at h ⊢
    split at h
    · cases h
    · rename_i st hcool
      rw [coolLoop_fuel_le exp input s _ fuel fuel' hle _ st hcool]
      exact h

theorem restartLoop_fuel_le [FloorRing F] (exp log : F → F) (input : Input F)
    (fuel fuel' : Nat) (hle : fuel ≤ fuel') (s : Settings F) :
    ∀ (k : Nat) (currSequence bestSequence : Output) (maxProfit : F) (gen : Gen F)
      (history : List Event) (r : Output × Gen F × List Event),
      SASolver.restartLoop exp log input fuel s k currSequence bestSequence maxProfit gen
        history = some r →
      SASolver.restartLoop exp log input fuel' s k currSequence bestSequence maxProfit gen
        history = some r
  | 0, _, _, _, _, _, _, h => by
    simp only [SASolver.restartLoop] at h ⊢
    exact h
  | k + 1, currSequence, bestSequence, maxProfit, gen, history, r, h => by
    simp only [SASolver.restartLoop] at h ⊢
    cases hs : SASolver.solveInstance exp log input fuel currSequence gen s history with
    | none => simp [hs] at h
    | some r1 =>
      obtain ⟨curr1, gen1, history1⟩ := r1
      rw [solveInstance_fuel_le exp log input fuel fuel' hle currSequence gen s history _ hs]
      simp only [hs] at h ⊢
      split at h
      · rename_i hgt
        rw [if_pos hgt]
        exact restartLoop_fuel_le exp log input fuel fuel' hle s k _ _ _ _ _ r h
      · rename_i hgt
        rw [if_neg hgt]
        exact restartLoop_fuel_le exp log input fuel fuel' hle s k _ _ _ _ _ r h

theorem solveThread_fuel_le [FloorRing F] (exp log : F → F) (input : Input F)
    (fuel fuel' : Nat) (hle : fuel ≤ fuel') (gen : Gen F) (s : Settings F)
    (r : Output × Gen F × List Event)
    (h : SASolver.solveThread exp log input fuel gen s = some r) :
    SASolver.solveThread exp log input fuel' gen s = some r := by
  unfold SASolver.solveThread at h ⊢
  cases hg : SASolver.generateRandomSequence input gen with
  | none => simp [hg] at h
  | some g =>
    obtain ⟨initial, gen₀⟩ := g
    simp only [hg] at h ⊢
    exact restartLoop_fuel_le exp log input fuel fuel' hle s _ _ _ _ _ _ r h

end EpochBudget

theorem readLoop_snoc {F : Type} [LinearOrderedField F] (last : TaskLine F) :
    ∀ (lines : List (TaskLine F)) (i : Int) (valid : Bool),
      Input.readLoop (lines ++ [last]) i valid
        = (decide (last.taskIndex = i + (lines.length : Int) + 1)
            && Input.validateTask last.deadline last.duration last.profit)
  | [], i, valid => by
    simp [Input.readLoop]
  | line :: lines, i, valid => by
    rw [List.cons_append, Input.readLoop, readLoop_snoc last lines (i + 1)]
    have h : i + 1 + (lines.length : Int) + 1 = i + ((line :: lines).length : Int) + 1 := by
      simp only [List.length_cons, Nat.cast_add, Nat.cast_one]; ring
    rw [h]

/-- C26 fails on the code.  The member `valid` is overwritten for every task
line, so `Input::isValid` reports the check of the last line only: the file with
task count 2 and the two valid lines `1 10 5 1` and `2 10 5 1`, read with preset
100, is reported valid although 2 is not in `76..100`, and so is the file
whose first line `1 0 5 1` has the invalid deadline 0. -/
theorem isValid_reports_last_line_only :
    (∀ (n preset : Int) (lines : List (TaskLine ℝ)) (last : TaskLine ℝ),
      (Input.readFile n (lines ++ [last]) preset).2
        = (decide (last.taskIndex = (lines.length : Int) + 1)
            && Input.validateTask last.deadline last.duration last.profit)) ∧
    Input.validateTaskNumber 2 100 = false ∧
    (Input.readFile 2 [⟨1, 10, 5, (1 : ℝ)⟩, ⟨2, 10, 5, 1⟩] 100).2 = true ∧
    Input.validateTask 0 5 (1 : ℝ) = false ∧
    (Input.readFile 2 [⟨1, 0, 5, (1 : ℝ)⟩, ⟨2, 10, 5, 1⟩] 100).2 = true := by
  have hgen : ∀ (n preset : Int) (lines : List (TaskLine ℝ)) (last : TaskLine ℝ),
      (Input.readFile n (lines ++ [last]) preset).2
        = (decide (last.taskIndex = (lines.length : Int) + 1)
            && Input.validateTask last.deadline last.duration last.profit) := by
    intro n preset lines last
    simp only [Input.readFile, readLoop_snoc, zero_add]
  have hv : Input.validateTask 10 5 (1 : ℝ) = true := by
    simp only [Input.validateTask, Input.DEADLINE_MIN, Input.DEADLINE_MAX, Input.DURATION_MIN,
      Input.DURATION_MAX, Input.PROFIT_MIN_EXCLUSIVE, Input.PROFIT_MAX_EXCLUSIVE]
    norm_num
  refine ⟨hgen, by decide, ?_, by decide, ?_⟩
  · have := hgen 2 100 [⟨1, 10, 5, (1 : ℝ)⟩] ⟨2, 10, 5, 1⟩
    simp only [List.singleton_append] at this
    rw [this, hv]
    rfl
  · have := hgen 2 100 [⟨1, 0, 5, (1 : ℝ)⟩] ⟨2, 10, 5, 1⟩
    simp only [List.singleton_append] at this
    rw [this, hv]
    rfl

/-! ## The exhaustive baseline -/

section Naive

variable {F : Type} [LinearOrderedField F]

theorem naive_solveLoop_spec (exp : F → F) (input : Input F) :
    ∀ (l : List (List Int)) (best : Output) (maxProfit : F),
      maxProfit = best.evaluate exp input →
      maxProfit ≤ (NaiveSolver.solveLoop exp input l best maxProfit).evaluate exp input ∧
      ∀ schedule ∈ l, Output.evaluate exp ⟨schedule⟩ input
        ≤ (NaiveSolver.solveLoop exp input l best maxProfit).evaluate exp input
  | [], best, maxProfit, h => by
    simp only [NaiveSolver.solveLoop]
    exact ⟨h.le, by simp⟩
  | schedule :: rest, best, maxProfit, h => by
    simp only [NaiveSolver.solveLoop]
    split
    · rename_i hgt
      obtain ⟨h1, h2⟩ := naive_solveLoop_spec exp input rest ⟨schedule⟩
        (Output.evaluate exp ⟨schedule⟩ input) rfl
      refine ⟨le_trans hgt.le h1, ?_⟩
      intro sch hsch
      rcases List.mem_cons.mp hsch with rfl | hsch
      · exact h1
      · exact h2 sch hsch
    · rename_i hgt
      obtain ⟨h1, h2⟩ := naive_solveLoop_spec exp input rest best maxProfit h
      refine ⟨h1, ?_⟩
      intro sch hsch
      rcases List.mem_cons.mp hsch with rfl | hsch
      · exact le_trans (not_lt.mp hgt) h1
      · exact h2 sch hsch

theorem mem_visitedSchedules (schedule l : List Int) :
    l ∈ NaiveSolver.visitedSchedules schedule ↔ l.Perm schedule := by
  unfold NaiveSolver.visitedSchedules
  rw [(List.perm_insertionSort _ _).mem_iff, List.mem_permutations]

end Naive

/-- C23 (the exhaustive baseline is optimal): for every instance, the score of
the schedule returned by `NaiveSolver::solve` is at least the score of every
permutation of the `n` task indices; in particular it is at least the score of
any result that `SASolver::solve` returns for the same instance. -/
theorem naive_solve_is_optimal (input : Input ℝ) :
    (∀ o : Output, IsPermutationOfTasks input o →
      o.evaluate Real.exp input ≤ (NaiveSolver.solve Real.exp input).evaluate Real.exp input) ∧
    (∀ (seedGen : Int → Gen ℝ) (fuel : Nat) (seed : Int) (s : Settings ℝ) (out : Output),
      SASolver.solve Real.exp Real.log input seedGen fuel seed s = some out →
      out.evaluate Real.exp input
        ≤ (NaiveSolver.solve Real.exp input).evaluate Real.exp input) := by
  obtain ⟨h0, hall⟩ := naive_solveLoop_spec Real.exp input
    (NaiveSolver.visitedSchedules (taskIndices input)) ⟨[]⟩ 0 rfl
  have hperm : ∀ o : Output, IsPermutationOfTasks input o →
      o.evaluate Real.exp input
        ≤ (NaiveSolver.solve Real.exp input).evaluate Real.exp input := by
    intro o ho
    exact hall o.taskSchedule ((mem_visitedSchedules _ _).mpr ho)
  refine ⟨hperm, ?_⟩
  intro seedGen fuel seed s out h
  obtain ⟨bestSequences, _, hout, hmem⟩ :=
    threads_of_solve_eq Real.exp Real.log input seedGen fuel seed s out h
  rw [hout, SASolver.bestSequence]
  rcases bestSequenceLoop_spec Real.exp input bestSequences (-1) ⟨[]⟩ with
    ⟨hres, _⟩ | ⟨before, best, after, hsplit, hres, _, _, _⟩
  · rw [hres]
    exact h0
  · rw [hres]
    obtain ⟨tid, gen', history, _, hrun⟩ := hmem best (by rw [hsplit]; simp)
    exact hperm best (solveThread_perm Real.exp Real.log input fuel _ s best gen' history hrun)


/-! ## The greedy baselines -/

section Greedy

theorem taskIndices_nodup {F : Type} (input : Input F) : (taskIndices input).Nodup :=
  List.Nodup.map (fun _ _ h => Int.ofNat.inj h) (List.nodup_range _)

theorem taskIndices_length {F : Type} (input : Input F) :
    (taskIndices input).length = input.size.toNat := by
  simp [taskIndices]

theorem mem_taskIndices {F : Type} (input : Input F) (x : Int) :
    x ∈ taskIndices input ↔ ∃ k : Nat, k < input.size.toNat ∧ x = (k : Int) := by
  unfold taskIndices
  simp only [List.mem_map, List.mem_range]
  constructor
  · rintro ⟨k, hk, rfl⟩
    exact ⟨k, hk, rfl⟩
  · rintro ⟨k, hk, rfl⟩
    exact ⟨k, hk, rfl⟩

theorem isTaken_setTaken (taken : List Bool) (i j : Nat) (hi : i < taken.length) :
    GreedySolver.isTaken (GreedySolver.setTaken taken (i : Int) true) (j : Int) = true ↔
      (j = i ∨ GreedySolver.isTaken taken (j : Int) = true) := by
  simp only [GreedySolver.isTaken, GreedySolver.setTaken, vecAt,
    if_pos (Int.ofNat_nonneg _), Int.toNat_ofNat, List.getD_eq_getElem?_getD,
    List.getElem?_set]
  by_cases h : i = j
  · subst h
    simp [hi]
  · have h2 : ¬ j = i := fun e => h e.symm
    simp [h, h2]

theorem setTaken_length (taken : List Bool) (i : Int) (val : Bool) :
    (GreedySolver.setTaken taken i val).length = taken.length := by
  unfold GreedySolver.setTaken
  split <;> simp

theorem leastOverdueLoop_keeps {F : Type} (input : Input F) (taken : List Bool) (time : Int)
    (P : Int → Prop) :
    ∀ (is : List Int) (m res : Int),
      (∀ i ∈ is, GreedySolver.isTaken taken i = false → P i) → P res →
      P (GreedySolver.leastOverdueLoop input taken time is m res) := by
  intro is
  induction is with
  | nil => intro m res _ h; exact h
  | cons i is ih =>
    intro m res hall h
    have hall2 : ∀ x ∈ is, GreedySolver.isTaken taken x = false → P x :=
      fun x hx => hall x (List.mem_cons_of_mem _ hx)
    by_cases ht : GreedySolver.isTaken taken i = true
    · simp only [GreedySolver.leastOverdueLoop, if_pos ht]
      exact ih _ _ hall2 h
    · simp only [GreedySolver.leastOverdueLoop, if_neg ht]
      split
      · exact ih _ _ hall2 (hall i (List.mem_cons_self _ _) (by simpa using ht))
      · exact ih _ _ hall2 h

theorem leastOverdueLoop_finds {F : Type} (input : Input F) (taken : List Bool) (time : Int)
    (P : Int → Prop) :
    ∀ (is : List Int) (m res : Int),
      (∀ i ∈ is, GreedySolver.isTaken taken i = false → P i) → (P res ∨ m = -1) →
      (∃ i ∈ is, GreedySolver.isTaken taken i = false) →
      P (GreedySolver.leastOverdueLoop input taken time is m res) := by
  intro is
  induction is with
  | nil => intro m res _ _ hex; obtain ⟨x, hx, _⟩ := hex; cases hx
  | cons i is ih =>
    intro m res hall hinv hex
    have hall2 : ∀ x ∈ is, GreedySolver.isTaken taken x = false → P x :=
      fun x hx => hall x (List.mem_cons_of_mem _ hx)
    by_cases ht : GreedySolver.isTaken taken i = true
    · simp only [GreedySolver.leastOverdueLoop, if_pos ht]
      refine ih _ _ hall2 hinv ?_
      obtain ⟨x, hx, hxu⟩ := hex
      rcases List.mem_cons.1 hx with rfl | hx2
      · rw [ht] at hxu; cases hxu
      · exact ⟨x, hx2, hxu⟩
    · simp only [GreedySolver.leastOverdueLoop, if_neg ht]
      split
      · exact leastOverdueLoop_keeps input taken time P _ _ _ hall2
          (hall i (List.mem_cons_self _ _) (by simpa using ht))
      · rename_i hc
        have hm : ¬ m = -1 := fun e => hc (Or.inr e)
        exact leastOverdueLoop_keeps input taken time P _ _ _ hall2 (hinv.resolve_right hm)

theorem leastOverdueIndex_untaken {F : Type} (input : Input F) (taken : List Bool) (time : Int)
    (hex : ∃ i ∈ taskIndices input, GreedySolver.isTaken taken i = false) :
    GreedySolver.leastOverdueIndex input taken time ∈ taskIndices input ∧
      GreedySolver.isTaken taken (GreedySolver.leastOverdueIndex input taken time) = false :=
  leastOverdueLoop_finds input taken time
    (fun x => x ∈ taskIndices input ∧ GreedySolver.isTaken taken x = false)
    (taskIndices input) (-1) (-1) (fun _ hi hu => ⟨hi, hu⟩) (Or.inr rfl) hex

theorem pickLoop_perm {F : Type} (input : Input F) (pick : List Bool → Int → Int)
    (hpick : ∀ taken time, taken.length = input.size.toNat →
      (∃ i ∈ taskIndices input, GreedySolver.isTaken taken i = false) →
      pick taken time ∈ taskIndices input ∧
        GreedySolver.isTaken taken (pick taken time) = false) :
    ∀ (k : Nat) (taken : List Bool) (time : Int) (seq : List Int),
      k + seq.length = input.size.toNat → taken.length = input.size.toNat → seq.Nodup →
      (∀ x ∈ seq, x ∈ taskIndices input) →
      (∀ x ∈ taskIndices input, GreedySolver.isTaken taken x = true ↔ x ∈ seq) →
      (GreedySolver.pickLoop input pick k taken time seq).Perm (taskIndices input) := by
  intro k
  induction k with
  | zero =>
    intro taken time seq hk _ hnd hsub _
    simp only [GreedySolver.pickLoop]
    exact (List.subperm_of_subset hnd hsub).perm_of_length_le
      (by rw [taskIndices_length]; omega)
  | succ k ih =>
    intro taken time seq hk hlen hnd hsub hiff
    simp only [GreedySolver.pickLoop]
    have hex : ∃ i ∈ taskIndices input, GreedySolver.isTaken taken i = false := by
      by_contra hno
      push_neg at hno
      have hsup : taskIndices input ⊆ seq := fun x hx =>
        (hiff x hx).1 (by simpa using hno x hx)
      have hle := (List.subperm_of_subset (taskIndices_nodup input) hsup).length_le
      rw [taskIndices_length] at hle
      omega
    obtain ⟨hmem, hunt⟩ := hpick taken time hlen hex
    have hnot : pick taken time ∉ seq := fun hin => by
      rw [(hiff _ hmem).2 hin] at hunt
      cases hunt
    obtain ⟨j, hj, hje⟩ := (mem_taskIndices input _).1 hmem
    refine ih _ _ _ ?_ ?_ ?_ ?_ ?_
    · simp only [List.length_append, List.length_singleton]
      omega
    · rw [setTaken_length]
      exact hlen
    · rw [← List.concat_eq_append]
      exact List.Nodup.concat hnot hnd
    · intro x hx
      rcases List.mem_append.1 hx with h | h
      · exact hsub x h
      · rw [List.mem_singleton.1 h]
        exact hmem
    · intro x hx
      obtain ⟨i, _, rfl⟩ := (mem_taskIndices input _).1 hx
      rw [hje, isTaken_setTaken taken j i (by omega), List.mem_append, List.mem_singleton]
      constructor
      · rintro (h | h)
        · exact Or.inr (by rw [h])
        · exact Or.inl ((hiff _ hx).1 h)
      · rintro (h | h)
        · exact Or.inr ((hiff _ hx).2 h)
        · exact Or.inl (by exact_mod_cast h)

theorem resetTaken_untaken {F : Type} (input : Input F) (x : Int) :
    GreedySolver.isTaken (GreedySolver.resetTaken input) x = false := by
  unfold GreedySolver.isTaken GreedySolver.resetTaken vecAt
  split
  · rw [List.getD_eq_getElem?_getD, List.getElem?_replicate]
    split <;> rfl
  · rfl

theorem pickLoop_from_reset {F : Type} (input : Input F) (pick : List Bool → Int → Int)
    (hpick : ∀ taken time, taken.length = input.size.toNat →
      (∃ i ∈ taskIndices input, GreedySolver.isTaken taken i = false) →
      pick taken time ∈ taskIndices input ∧
        GreedySolver.isTaken taken (pick taken time) = false) :
    (GreedySolver.pickLoop input pick input.size.toNat (GreedySolver.resetTaken input) 0
      []).Perm (taskIndices input) := by
  refine pickLoop_perm input pick hpick _ _ _ _ (by simp)
    (by simp [GreedySolver.resetTaken]) List.nodup_nil (fun x hx => by cases hx) ?_
  intro x _
  rw [resetTaken_untaken]
  simp

variable {F : Type} [LinearOrderedField F]

theorem maxProfitLoop_cons_untaken (exp : F → F) (input : Input F) (taken : List Bool)
    (time : Int) (i : Int) (is : List Int) (m : WithBot F) (index : Int)
    (ht : ¬ GreedySolver.isTaken taken i = true) :
    ∃ profit : F, GreedySolver.maxProfitLoop exp input taken time (i :: is) m index =
      if (profit : WithBot F) > m then
        GreedySolver.maxProfitLoop exp input taken time is (profit : WithBot F) i
      else GreedySolver.maxProfitLoop exp input taken time is m index :=
  ⟨if time + input.getDuration i - input.getDeadline i > 0 then
      input.getProfit i *
        exp (-0.017 * ((time + input.getDuration i - input.getDeadline i : Int) : F))
    else input.getProfit i, by rw [GreedySolver.maxProfitLoop, if_neg ht]⟩

theorem maxProfitLoop_keeps (exp : F → F) (input : Input F) (taken : List Bool) (time : Int)
    (P : Int → Prop) :
    ∀ (is : List Int) (m : WithBot F) (index : Int),
      (∀ i ∈ is, GreedySolver.isTaken taken i = false → P i) → P index →
      P (GreedySolver.maxProfitLoop exp input taken time is m index) := by
  intro is
  induction is with
  | nil => intro m res _ h; exact h
  | cons i is ih =>
    intro m res hall h
    have hall2 : ∀ x ∈ is, GreedySolver.isTaken taken x = false → P x :=
      fun x hx => hall x (List.mem_cons_of_mem _ hx)
    by_cases ht : GreedySolver.isTaken taken i = true
    · simp only [GreedySolver.maxProfitLoop, if_pos ht]
      exact ih _ _ hall2 h
    · obtain ⟨profit, hstep⟩ := maxProfitLoop_cons_untaken exp input taken time i is m res ht
      rw [hstep]
      split
      · exact ih _ _ hall2 (hall i (List.mem_cons_self _ _) (by simpa using ht))
      · exact ih _ _ hall2 h

theorem maxProfitLoop_finds (exp : F → F) (input : Input F) (taken : List Bool) (time : Int)
    (P : Int → Prop) :
    ∀ (is : List Int) (m : WithBot F) (index : Int),
      (∀ i ∈ is, GreedySolver.isTaken taken i = false → P i) → (P index ∨ m = ⊥) →
      (∃ i ∈ is, GreedySolver.isTaken taken i = false) →
      P (GreedySolver.maxProfitLoop exp input taken time is m index) := by
  intro is
  induction is with
  | nil => intro m res _ _ hex; obtain ⟨x, hx, _⟩ := hex; cases hx
  | cons i is ih =>
    intro m res hall hinv hex
    have hall2 : ∀ x ∈ is, GreedySolver.isTaken taken x = false → P x :=
      fun x hx => hall x (List.mem_cons_of_mem _ hx)
    by_cases ht : GreedySolver.isTaken taken i = true
    · simp only [GreedySolver.maxProfitLoop, if_pos ht]
      refine ih _ _ hall2 hinv ?_
      obtain ⟨x, hx, hxu⟩ := hex
      rcases List.mem_cons.1 hx with rfl | hx2
      · rw [ht] at hxu; cases hxu
      · exact ⟨x, hx2, hxu⟩
    · obtain ⟨profit, hstep⟩ := maxProfitLoop_cons_untaken exp input taken time i is m res ht
      rw [hstep]
      split
      · exact maxProfitLoop_keeps exp input taken time P _ _ _ hall2
          (hall i (List.mem_cons_self _ _) (by simpa using ht))
      · rename_i hc
        have hm : ¬ m = ⊥ := fun e => hc (by rw [e]; exact WithBot.bot_lt_coe _)
        exact maxProfitLoop_keeps exp input taken time P _ _ _ hall2 (hinv.resolve_right hm)

theorem maxProfitIndex_untaken (exp : F → F) (input : Input F) (taken : List Bool)
    (time : Int) (hex : ∃ i ∈ taskIndices input, GreedySolver.isTaken taken i = false) :
    GreedySolver.maxProfitIndex exp input taken time ∈ taskIndices input ∧
      GreedySolver.isTaken taken (GreedySolver.maxProfitIndex exp input taken time) = false :=
  maxProfitLoop_finds exp input taken time
    (fun x => x ∈ taskIndices input ∧ GreedySolver.isTaken taken x = false)
    (taskIndices input) ⊥ (-1) (fun _ hi hu => ⟨hi, hu⟩) (Or.inr rfl) hex

theorem sixBaselines_perm (exp : F → F) (sort : (Int → Int → Bool) → List Int → List Int)
    (hsort : ∀ less l, (sort less l).Perm l) (input : Input F) :
    ∀ o ∈ sixBaselines exp sort input, IsPermutationOfTasks input o := by
  intro o ho
  simp only [sixBaselines, List.mem_cons, List.mem_singleton, List.not_mem_nil,
    or_false] at ho
  rcases ho with rfl | rfl | rfl | rfl | rfl | rfl
  · exact hsort _ _
  · exact hsort _ _
  · exact pickLoop_from_reset input _
      (fun taken time _ hex => leastOverdueIndex_untaken input taken time hex)
  · exact pickLoop_from_reset input _
      (fun taken time _ hex => maxProfitIndex_untaken exp input taken time hex)
  · exact (List.reverse_perm _).trans ((hsort _ _).trans (List.reverse_perm _))
  · exact (List.reverse_perm _).trans ((hsort _ _).trans (List.reverse_perm _))

theorem consider_foldl (exp : F → F) (input : Input F) :
    ∀ (l : List Output) (state : F × Output), state.1 = state.2.evaluate exp input →
      (l.foldl (fun st o => GreedySolver.consider exp input o st) state).1 =
          (l.foldl (fun st o => GreedySolver.consider exp input o st) state).2.evaluate
            exp input ∧
        state.1 ≤ (l.foldl (fun st o => GreedySolver.consider exp input o st) state).1 ∧
        (∀ o ∈ l, o.evaluate exp input ≤
          (l.foldl (fun st o => GreedySolver.consider exp input o st) state).1) ∧
        ((l.foldl (fun st o => GreedySolver.consider exp input o st) state).2 = state.2 ∨
          (l.foldl (fun st o => GreedySolver.consider exp input o st) state).2 ∈ l) := by
  intro l
  induction l with
  | nil =>
    intro state h
    exact ⟨h, le_refl _, (fun _ ho => by cases ho), Or.inl rfl⟩
  | cons a l ih =>
    intro state h
    simp only [List.foldl_cons]
    by_cases hc : a.evaluate exp input > state.1
    · have hstep : GreedySolver.consider exp input a state = (a.evaluate exp input, a) := by
        simp only [GreedySolver.consider, if_pos hc]
      rw [hstep]
      obtain ⟨h1, h2, h3, h4⟩ := ih (a.evaluate exp input, a) rfl
      refine ⟨h1, le_trans (le_of_lt hc) h2, ?_, ?_⟩
      · intro o ho
        rcases List.mem_cons.1 ho with rfl | ho2
        · exact h2
        · exact h3 o ho2
      · rcases h4 with h4 | h4
        · exact Or.inr (by rw [h4]; exact List.mem_cons_self _ _)
        · exact Or.inr (List.mem_cons_of_mem _ h4)
    · have hstep : GreedySolver.consider exp input a state = state := by
        simp only [GreedySolver.consider, if_neg hc]
      rw [hstep]
      obtain ⟨h1, h2, h3, h4⟩ := ih state h
      refine ⟨h1, h2, ?_, ?_⟩
      · intro o ho
        rcases List.mem_cons.1 ho with rfl | ho2
        · exact le_trans (not_lt.1 hc) h2
        · exact h3 o ho2
      · rcases h4 with h4 | h4
        · exact Or.inl h4
        · exact Or.inr (List.mem_cons_of_mem _ h4)

theorem greedy_solve_eq_foldl (exp : F → F) (sort : (Int → Int → Bool) → List Int → List Int)
    (input : Input F) :
    GreedySolver.solve exp sort input =
      ((sixBaselines exp sort input).foldl
        (fun st o => GreedySolver.consider exp input o st) (0, ⟨[]⟩)).2 :=
  rfl

theorem insertionSortBy_perm (less : Int → Int → Bool) (l : List Int) :
    (insertionSortBy less l).Perm l :=
  List.perm_insertionSort _ l

/-- Claim C27: for every instance with positive profits, each of the six
baseline schedules (`solveDeadline`, `solveDuration`, `solveLeastOverdue`,
`solveMostProfitable`, `solveProfit`, `solveProfitRate`) is a permutation of
all `n` task indices, and the score of the schedule that `GreedySolver::solve`
returns is the maximum of their six scores: no baseline scores more, and one of
them scores exactly as much. `std::sort` is any procedure `sort` that returns a
rearrangement of its input. -/
theorem greedy_solve_is_best_baseline (sort : (Int → Int → Bool) → List Int → List Int)
    (hsort : ∀ less l, (sort less l).Perm l) (input : Input ℝ)
    (hp : PositiveProfits input) :
    (∀ o ∈ sixBaselines Real.exp sort input, IsPermutationOfTasks input o) ∧
    (∀ o ∈ sixBaselines Real.exp sort input,
      o.evaluate Real.exp input ≤
        (GreedySolver.solve Real.exp sort input).evaluate Real.exp input) ∧
    (∃ o ∈ sixBaselines Real.exp sort input,
      (GreedySolver.solve Real.exp sort input).evaluate Real.exp input =
        o.evaluate Real.exp input) := by
  have hperm := sixBaselines_perm Real.exp sort hsort input
  obtain ⟨h1, h2, h3, h4⟩ := consider_foldl Real.exp input
    (sixBaselines Real.exp sort input) (0, ⟨[]⟩) rfl
  rw [greedy_solve_eq_foldl]
  refine ⟨hperm, ?_, ?_⟩
  · intro o ho
    rw [← h1]
    exact h3 o ho
  · rcases h4 with h4 | h4
    · refine ⟨GreedySolver.solveDeadline sort input, List.mem_cons_self _ _, ?_⟩
      have hd : GreedySolver.solveDeadline sort input ∈ sixBaselines Real.exp sort input :=
        List.mem_cons_self _ _
      have hle := h3 _ hd
      have hge := evaluate_nonneg input hp _ (validIndices_of_permutation input _ (hperm _ hd))
      rw [h1, h4] at hle
      rw [h4]
      have h0 : Output.evaluate Real.exp ⟨[]⟩ input = 0 := rfl
      rw [h0] at hle ⊢
      exact le_antisymm hge hle |>.symm ▸ rfl
    · exact ⟨_, h4, rfl⟩

theorem greedy_solve_is_best_baseline_witness :
    (∀ less l, (insertionSortBy less l).Perm l) ∧ PositiveProfits (threeTaskInput ℝ) ∧
    (∀ o ∈ sixBaselines Real.exp insertionSortBy (threeTaskInput ℝ),
      IsPermutationOfTasks (threeTaskInput ℝ) o) ∧
    (∀ o ∈ sixBaselines Real.exp insertionSortBy (threeTaskInput ℝ),
      o.evaluate Real.exp (threeTaskInput ℝ) ≤
        (GreedySolver.solve Real.exp insertionSortBy (threeTaskInput ℝ)).evaluate Real.exp
          (threeTaskInput ℝ)) ∧
    (∃ o ∈ sixBaselines Real.exp insertionSortBy (threeTaskInput ℝ),
      (GreedySolver.solve Real.exp insertionSortBy (threeTaskInput ℝ)).evaluate Real.exp
          (threeTaskInput ℝ) =
        o.evaluate Real.exp (threeTaskInput ℝ)) :=
  ⟨insertionSortBy_perm, threeTask_positiveProfits,
    greedy_solve_is_best_baseline insertionSortBy insertionSortBy_perm (threeTaskInput ℝ)
      threeTask_positiveProfits⟩

end Greedy


/-! ## Score bounds -/

section ScoreBounds

theorem totalProfit_nonneg {F : Type} [LinearOrderedField F] (input : Input F)
    (hp : NonnegProfits input) :
    ∀ l : List Int, (∀ idx ∈ l, 0 ≤ idx ∧ idx < input.size) → 0 ≤ totalProfit input l
  | [], _ => le_refl _
  | i :: rest, hv => by
    have hi := hv i (List.mem_cons_self i rest)
    have ih := totalProfit_nonneg input hp rest
      (fun idx hidx => hv idx (List.mem_cons_of_mem i hidx))
    simp only [totalProfit, List.map_cons, List.sum_cons] at ih ⊢
    exact add_nonneg (hp i hi.1 hi.2) ih

theorem specContribution_le (input : Input ℝ) (finish i : Int)
    (hi : 0 ≤ input.getProfit i) :
    specContribution Real.exp input finish i ≤ input.getProfit i := by
  unfold specContribution
  split
  · rename_i hlate
    have hpos : (0 : ℝ) < ((finish - input.getDeadline i : Int) : ℝ) := by exact_mod_cast hlate
    have hle : Real.exp (-0.017 * ((finish - input.getDeadline i : Int) : ℝ)) ≤ 1 := by
      rw [Real.exp_le_one_iff]
      nlinarith
    exact mul_le_of_le_one_right hi hle
  · exact le_refl _

theorem evaluateLoop_le (input : Input ℝ) (hp : NonnegProfits input) :
    ∀ (l : List Int) (time : Int) (res : ℝ), (∀ idx ∈ l, 0 ≤ idx ∧ idx < input.size) →
      Output.evaluateLoop Real.exp input l time res ≤ res + totalProfit input l
  | [], _, res, _ => by simp [Output.evaluateLoop, totalProfit]
  | i :: rest, time, res, hv => by
    have hi := hv i (List.mem_cons_self i rest)
    have hrest : ∀ idx ∈ rest, 0 ≤ idx ∧ idx < input.size :=
      fun idx hidx => hv idx (List.mem_cons_of_mem i hidx)
    have hsum : totalProfit input (i :: rest) = input.getProfit i + totalProfit input rest := by
      simp only [totalProfit, List.map_cons, List.sum_cons]
    by_cases h : time + input.getDuration i > 1440
    · rw [evaluateLoop_cons_overflow Real.exp input i rest time res h]
      have := totalProfit_nonneg input hp (i :: rest) hv
      linarith
    · rw [evaluateLoop_cons_fit Real.exp input i rest time res h, hsum]
      have hc := specContribution_le input (time + input.getDuration i) i (hp i hi.1 hi.2)
      have ih := evaluateLoop_le input hp rest (time + input.getDuration i)
        (res + specContribution Real.exp input (time + input.getDuration i) i) hrest
      linarith

theorem evaluateLoop_append_ge (input : Input ℝ) (hp : NonnegProfits input) (more : List Int)
    (hmore : ∀ idx ∈ more, 0 ≤ idx ∧ idx < input.size) :
    ∀ (l : List Int) (time : Int) (res : ℝ),
      Output.evaluateLoop Real.exp input l time res
        ≤ Output.evaluateLoop Real.exp input (l ++ more) time res
  | [], time, res => by
    rw [List.nil_append]
    exact evaluateLoop_ge Real.exp (fun x => (Real.exp_pos x).le) input hp more time res hmore
  | i :: rest, time, res => by
    rw [List.cons_append]
    by_cases h : time + input.getDuration i > 1440
    · rw [evaluateLoop_cons_overflow Real.exp input i rest time res h,
        evaluateLoop_cons_overflow Real.exp input i (rest ++ more) time res h]
    · rw [evaluateLoop_cons_fit Real.exp input i rest time res h,
        evaluateLoop_cons_fit Real.exp input i (rest ++ more) time res h]
      exact evaluateLoop_append_ge input hp more hmore rest _ _

end ScoreBounds

/-- C32 (score bounds): for every instance with non-negative profits and every
candidate with valid indices, the score `Output::evaluate` of the candidate lies
between 0 and the sum of the profits of its tasks, and appending further tasks
(with valid indices) never lowers the score; so the sentinel `-1` of
`SASolver::bestSequence` is below the score, `bestSequence` of the candidate
alone returns it, and the sentinel 0 of `NaiveSolver::solve` and
`GreedySolver::solve` is not above the score. -/
theorem score_bounds (input : Input ℝ) (hp : NonnegProfits input) (o : Output)
    (hv : ValidIndices input o) :
    0 ≤ o.evaluate Real.exp input ∧
    o.evaluate Real.exp input ≤ totalProfit input o.taskSchedule ∧
    (∀ more : List Int, (∀ idx ∈ more, 0 ≤ idx ∧ idx < input.size) →
      o.evaluate Real.exp input
        ≤ Output.evaluate Real.exp ⟨o.taskSchedule ++ more⟩ input) ∧
    (-1 : ℝ) < o.evaluate Real.exp input ∧
    SASolver.bestSequence Real.exp input [o] = o := by
  have h0 : 0 ≤ o.evaluate Real.exp input :=
    evaluateLoop_ge Real.exp (fun x => (Real.exp_pos x).le) input hp o.taskSchedule 0 0 hv
  have hgt : o.evaluate Real.exp input > -1 := by linarith
  refine ⟨h0, ?_, ?_, hgt, ?_⟩
  · have h := evaluateLoop_le input hp o.taskSchedule 0 0 hv
    rw [zero_add] at h
    exact h
  · intro more hmore
    exact evaluateLoop_append_ge input hp more hmore o.taskSchedule 0 0
  · simp only [SASolver.bestSequence, SASolver.bestSequenceLoop, if_pos hgt]

theorem threeTask_nonnegProfits : NonnegProfits (threeTaskInput ℝ) :=
  fun i h0 h1 => (threeTask_positiveProfits i h0 h1).le

theorem score_bounds_witness :
    NonnegProfits (threeTaskInput ℝ) ∧ ValidIndices (threeTaskInput ℝ) ⟨[0, 2]⟩ ∧
    0 ≤ Output.evaluate Real.exp ⟨[0, 2]⟩ (threeTaskInput ℝ) ∧
    Output.evaluate Real.exp ⟨[0, 2]⟩ (threeTaskInput ℝ)
      ≤ totalProfit (threeTaskInput ℝ) [0, 2] ∧
    (∀ more : List Int, (∀ idx ∈ more, 0 ≤ idx ∧ idx < (threeTaskInput ℝ).size) →
      Output.evaluate Real.exp ⟨[0, 2]⟩ (threeTaskInput ℝ)
        ≤ Output.evaluate Real.exp ⟨[0, 2] ++ more⟩ (threeTaskInput ℝ)) ∧
    (-1 : ℝ) < Output.evaluate Real.exp ⟨[0, 2]⟩ (threeTaskInput ℝ) ∧
    SASolver.bestSequence Real.exp (threeTaskInput ℝ) [⟨[0, 2]⟩] = ⟨[0, 2]⟩ :=
  ⟨threeTask_nonnegProfits, by decide,
    score_bounds (threeTaskInput ℝ) threeTask_nonnegProfits ⟨[0, 2]⟩ (by decide)⟩


/-! ## Single-task instances -/

section SingleTask

theorem drawIndex2_none_iff (index1 : Int) :
    ∀ draws : List Int, SASolver.drawIndex2 index1 draws = none ↔ ∀ x ∈ draws, x = index1
  | [] => by simp [SASolver.drawIndex2]
  | x :: rest => by
    by_cases h : x = index1
    · rw [SASolver.drawIndex2, if_pos h, drawIndex2_none_iff index1 rest]
      simp [h]
    · simp [SASolver.drawIndex2, h]

theorem drawIndex2_first_different (index1 x : Int) (hx : x ≠ index1) (rest : List Int) :
    ∀ pre : List Int, (∀ y ∈ pre, y = index1) →
      SASolver.drawIndex2 index1 (pre ++ x :: rest) = some (x, rest)
  | [], _ => by simp [SASolver.drawIndex2, hx]
  | y :: pre, h => by
    have hy : y = index1 := h y (List.mem_cons_self _ _)
    rw [List.cons_append, SASolver.drawIndex2, if_pos hy]
    exact drawIndex2_first_different index1 x hx rest pre
      (fun z hz => h z (List.mem_cons_of_mem _ hz))

theorem perturb_first_different (input : Input ℝ) (o : Output) (index1 x : Int)
    (pre rest : List Int) (reals : List ℝ) (shuffles : List Nat)
    (hpre : ∀ y ∈ pre, y = index1) (hx : x ≠ index1) :
    SASolver.perturb Real.exp input o
        { taskNums := index1 :: (pre ++ x :: rest), reals := reals, shuffles := shuffles }
      = some (Output.evaluate Real.exp (o.swapTasks (toSizeT index1) (toSizeT x)).2 input,
          (o.swapTasks (toSizeT index1) (toSizeT x)).2, index1, x,
          { taskNums := rest, reals := reals, shuffles := shuffles }) := by
  simp only [SASolver.perturb, drawIndex2_first_different index1 x hx rest pre hpre]

theorem single_draws_eq (input : Input ℝ) (hn : input.size = 1) (gen : Gen ℝ)
    (hr : TaskNumsInRange input gen) : ∀ x ∈ gen.taskNums, x = 0 := by
  intro x hx
  have h := hr x hx
  rw [hn] at h
  omega

theorem single_drawIndex2 (input : Input ℝ) (hn : input.size = 1) (gen : Gen ℝ)
    (hr : TaskNumsInRange input gen) (index1 : Int) (rest : List Int)
    (hg : gen.taskNums = index1 :: rest) : SASolver.drawIndex2 index1 rest = none := by
  have h0 := single_draws_eq input hn gen hr
  rw [hg] at h0
  rw [drawIndex2_none_iff]
  intro x hx
  rw [h0 x (List.mem_cons_of_mem _ hx), h0 index1 (List.mem_cons_self _ _)]

theorem single_perturb (input : Input ℝ) (hn : input.size = 1) (gen : Gen ℝ)
    (hr : TaskNumsInRange input gen) (o : Output) :
    SASolver.perturb Real.exp input o gen = none := by
  cases hg : gen.taskNums with
  | nil => simp only [SASolver.perturb, hg]
  | cons index1 rest =>
    simp only [SASolver.perturb, hg, single_drawIndex2 input hn gen hr index1 rest hg]

theorem single_getInitTemperature (input : Input ℝ) (hn : input.size = 1) (gen : Gen ℝ)
    (hr : TaskNumsInRange input gen) (o : Output) (initAccRate : ℝ) :
    SASolver.getInitTemperature Real.exp Real.log input o gen initAccRate = none := by
  have hL : (SASolver.truncToInt ((SASolver.INIT_TEMP_SAMPLE_SIZE_FACTOR : ℝ)
      * (input.size : ℝ) * (input.size : ℝ))).toNat = 1 + 1 := by
    rw [sampleSize_eq, hn]
    rfl
  simp only [SASolver.getInitTemperature, hL, SASolver.sampleLoop,
    single_perturb input hn gen hr o]

theorem single_solveInstance (input : Input ℝ) (hn : input.size = 1) (gen : Gen ℝ)
    (hr : TaskNumsInRange input gen) (fuel : Nat) (o : Output) (s : Settings ℝ)
    (history : List Event) :
    SASolver.solveInstance Real.exp Real.log input fuel o gen s history = none := by
  simp only [SASolver.solveInstance, single_getInitTemperature input hn gen hr]

theorem generateRandomSequence_taskNums (input : Input ℝ) (gen gen' : Gen ℝ) (o : Output)
    (h : SASolver.generateRandomSequence input gen = some (o, gen')) :
    gen'.taskNums = gen.taskNums := by
  unfold SASolver.generateRandomSequence shuffle at h
  split at h
  · cases h
  · simp only [Option.some.injEq, Prod.mk.injEq] at h
    rw [← h.2]

theorem single_solveThread (input : Input ℝ) (hn : input.size = 1) (gen : Gen ℝ)
    (hr : TaskNumsInRange input gen) (fuel : Nat) (s : Settings ℝ)
    (hs : 0 ≤ s.maxRestarts) :
    SASolver.solveThread Real.exp Real.log input fuel gen s = none := by
  have hk : (s.maxRestarts + 1).toNat = s.maxRestarts.toNat + 1 := by omega
  unfold SASolver.solveThread
  cases hgen : SASolver.generateRandomSequence input gen with
  | none => rfl
  | some r =>
    obtain ⟨currSequence, gen'⟩ := r
    have hr' : TaskNumsInRange input gen' := by
      intro x hx
      rw [generateRandomSequence_taskNums input gen gen' currSequence hgen] at hx
      exact hr x hx
    simp only [hk, SASolver.restartLoop, single_solveInstance input hn gen' hr']

theorem single_solve (input : Input ℝ) (hn : input.size = 1) (seedGen : Int → Gen ℝ)
    (fuel : Nat) (seed : Int) (s : Settings ℝ)
    (hr : ∀ tid : Nat, tid < SASolver.NUM_THREADS →
      TaskNumsInRange input (seedGen (seed + (tid : Int))))
    (hs : 0 ≤ s.maxRestarts) :
    SASolver.solve Real.exp Real.log input seedGen fuel seed s = none := by
  cases h : SASolver.solve Real.exp Real.log input seedGen fuel seed s with
  | none => rfl
  | some out =>
    exfalso
    obtain ⟨bestSequences, hlen, _, hmem⟩ :=
      threads_of_solve_eq Real.exp Real.log input seedGen fuel seed s out h
    cases bestSequences with
    | nil => cases hlen
    | cons o rest =>
      obtain ⟨tid, gen', history, htid, hrun⟩ := hmem o (List.mem_cons_self _ _)
      rw [single_solveThread input hn _ (hr tid htid) fuel s hs] at hrun
      cases hrun

theorem oneTask_nonnegProfits : NonnegProfits (oneTaskInput ℝ) := by
  intro i h0 h1
  have h : i < 1 := h1
  have hi : i = 0 := by omega
  subst hi
  have hp : (oneTaskInput ℝ).getProfit 0 = 1 := rfl
  rw [hp]
  norm_num

theorem zeroGen_in_range : TaskNumsInRange (oneTaskInput ℝ) (zeroGen ℝ) := by
  intro x hx
  have hn : (oneTaskInput ℝ).size = 1 := rfl
  have h0 : x = 0 := by simpa [zeroGen] using hx
  rw [hn, h0]
  decide

theorem noRun_solveThread :
    SASolver.solveThread Real.exp Real.log (oneTaskInput ℝ) 0 (zeroGen ℝ) (noRunSettings ℝ)
      = some (⟨[0]⟩, zeroGen ℝ, []) :=
  rfl

theorem bestSequence_eight_0 :
    SASolver.bestSequence Real.exp (oneTaskInput ℝ)
      ((List.range SASolver.NUM_THREADS).map (fun _ => (⟨[0]⟩ : Output)))
      = ⟨[0]⟩ := by
  have hl : (List.range SASolver.NUM_THREADS).map (fun _ => (⟨[0]⟩ : Output))
      = ⟨[0]⟩ :: List.replicate 7 ⟨[0]⟩ := rfl
  have h0 : 0 ≤ Output.evaluate Real.exp ⟨[0]⟩ (oneTaskInput ℝ) :=
    evaluateLoop_ge Real.exp (fun x => (Real.exp_pos x).le) (oneTaskInput ℝ)
      oneTask_nonnegProfits [0] 0 0 (by decide)
  have hgt : Output.evaluate Real.exp ⟨[0]⟩ (oneTaskInput ℝ) > -1 := by linarith
  rw [hl, SASolver.bestSequence, SASolver.bestSequenceLoop]
  simp only [if_pos hgt]
  exact bestSequenceLoop_const Real.exp (oneTaskInput ℝ) ⟨[0]⟩ _ _
    (fun x hx => List.eq_of_mem_replicate hx)

end SingleTask

/-- C31, as stated, fails.  With `maxRestarts = -1` the loop
`for (restart = -1; restart < s.maxRestarts; ++restart)` of
`SASolver::solveThread` makes no annealing run, so `SASolver::perturb` is never
called: on the single-task instance, with every draw of `uniformTaskNumDist`
equal to 0, each stream returns its initial sequence `[0]` and
`SASolver::solve` returns `[0]`. -/
theorem solve_returns_on_single_task :
    (oneTaskInput ℝ).size = 1 ∧ TaskNumsInRange (oneTaskInput ℝ) (zeroGen ℝ) ∧
    (noRunSettings ℝ).maxRestarts = -1 ∧
    SASolver.solveThread Real.exp Real.log (oneTaskInput ℝ) 0 (zeroGen ℝ) (noRunSettings ℝ)
      = some (⟨[0]⟩, zeroGen ℝ, []) ∧
    SASolver.solve Real.exp Real.log (oneTaskInput ℝ) (fun _ => zeroGen ℝ) 0 0
        (noRunSettings ℝ)
      = some ⟨[0]⟩ := by
  refine ⟨rfl, zeroGen_in_range, rfl, noRun_solveThread, ?_⟩
  rw [solve_eq_of_threads Real.exp Real.log (oneTaskInput ℝ) (fun _ => zeroGen ℝ) 0 0
    (noRunSettings ℝ) (fun _ => ⟨[0]⟩) (fun _ _ => ⟨_, _, noRun_solveThread⟩),
    bestSequence_eight_0]

/-- C31, amended: for an instance with exactly one task (`n = 1`) and every
random stream (all draws of `uniformTaskNumDist` lie in `[0, 0]`), the loop of
`SASolver::perturb` that redraws `index2` until it differs from `index1` does
not exit, however many values the stream supplies, so `perturb` does not
return; since calibration calls `perturb` `2*n*n = 2` times, `SASolver::solve`
does not return, whatever number of epochs it is allowed, whenever the settings
make at least one annealing run (`maxRestarts ≥ 0`).  For `n ≥ 2`, `perturb`
returns as soon as the stream yields a second value different from the first:
it reports that value as `index2` and leaves the values after it in the
stream. -/
theorem single_task_never_finishes (input : Input ℝ) :
    (input.size = 1 →
      (∀ gen : Gen ℝ, TaskNumsInRange input gen →
        (∀ (index1 : Int) (rest : List Int), gen.taskNums = index1 :: rest →
          SASolver.drawIndex2 index1 rest = none) ∧
        ∀ o : Output, SASolver.perturb Real.exp input o gen = none) ∧
      (SASolver.truncToInt ((SASolver.INIT_TEMP_SAMPLE_SIZE_FACTOR : ℝ)
        * (input.size : ℝ) * (input.size : ℝ)) = 2) ∧
      ∀ (seedGen : Int → Gen ℝ) (fuel : Nat) (seed : Int) (s : Settings ℝ),
        (∀ tid : Nat, tid < SASolver.NUM_THREADS →
          TaskNumsInRange input (seedGen (seed + (tid : Int)))) →
        0 ≤ s.maxRestarts →
        SASolver.solve Real.exp Real.log input seedGen fuel seed s = none) ∧
    (2 ≤ input.size →
      ∀ (o : Output) (index1 x : Int) (pre rest : List Int) (reals : List ℝ)
        (shuffles : List Nat), (∀ y ∈ pre, y = index1) → x ≠ index1 →
        SASolver.perturb Real.exp input o
            { taskNums := index1 :: (pre ++ x :: rest), reals := reals, shuffles := shuffles }
          = some (Output.evaluate Real.exp (o.swapTasks (toSizeT index1) (toSizeT x)).2 input,
              (o.swapTasks (toSizeT index1) (toSizeT x)).2, index1, x,
              { taskNums := rest, reals := reals, shuffles := shuffles })) := by
  constructor
  · intro hn
    refine ⟨fun gen hr => ⟨fun index1 rest hg =>
      single_drawIndex2 input hn gen hr index1 rest hg, single_perturb input hn gen hr⟩,
      ?_, fun seedGen fuel seed s hr hs => single_solve input hn seedGen fuel seed s hr hs⟩
    rw [sampleSize_eq, hn]
    rfl
  · intro _ o index1 x pre rest reals shuffles hpre hx
    exact perturb_first_different input o index1 x pre rest reals shuffles hpre hx

theorem single_task_never_finishes_witness :
    (oneTaskInput ℝ).size = 1 ∧ TaskNumsInRange (oneTaskInput ℝ) (zeroGen ℝ) ∧
    (0 : Int) ≤ (quickSettings ℝ).maxRestarts ∧
    SASolver.perturb Real.exp (oneTaskInput ℝ) ⟨[0]⟩ (zeroGen ℝ) = none ∧
    SASolver.solve Real.exp Real.log (oneTaskInput ℝ) (fun _ => zeroGen ℝ) 3 0
        (quickSettings ℝ) = none ∧
    (2 : Int) ≤ (threeTaskInput ℝ).size ∧
    SASolver.perturb Real.exp (threeTaskInput ℝ) ⟨[0, 1, 2]⟩
        { taskNums := 0 :: ([0] ++ 2 :: [1, 1]), reals := [], shuffles := [] }
      = some (Output.evaluate Real.exp
            ((⟨[0, 1, 2]⟩ : Output).swapTasks (toSizeT 0) (toSizeT 2)).2 (threeTaskInput ℝ),
          ((⟨[0, 1, 2]⟩ : Output).swapTasks (toSizeT 0) (toSizeT 2)).2, 0, 2,
          { taskNums := [1, 1], reals := [], shuffles := [] }) :=
  ⟨rfl, zeroGen_in_range, by decide,
    (((single_task_never_finishes (oneTaskInput ℝ)).1 rfl).1 (zeroGen ℝ)
      zeroGen_in_range).2 ⟨[0]⟩,
    ((single_task_never_finishes (oneTaskInput ℝ)).1 rfl).2.2 (fun _ => zeroGen ℝ) 3 0
      (quickSettings ℝ) (fun _ _ => zeroGen_in_range) (by decide),
    by decide,
    (single_task_never_finishes (threeTaskInput ℝ)).2 (by decide) ⟨[0, 1, 2]⟩ 0 2 [0] [1, 1]
      [] [] (by decide) (by decide)⟩


/-! ## Candidates and the result of `solve` -/

section NegativeRun

end NegativeRun


section Candidates

end Candidates

end CS170
